import Mathlib

/-! Bit-packed type codec and lowering of `taichi/codegen/codegen_llvm.cpp`

A shallow embedding of the custom-integer / custom-float codec emitted by
`CodeGenLLVM`, of its lowering of casts, operators and control flow, and of
the loops it emits.  An LLVM integer value of type `iW` is a natural number below
`2 ^ W` (its bit pattern); every emitted instruction is a function on such
patterns.  An instruction whose result is poison, or whose operand types do
not fit, yields `none`.
-/

namespace Taichi

/-! ## LLVM instructions used by the codec -/

/-- Two's complement reading of a `w`-bit pattern. -/
def toSigned (w x : Nat) : Int :=
  if x < 2 ^ (w - 1) then (x : Int) else (x : Int) - 2 ^ w

/-- The `w`-bit pattern of an integer (two's complement, wrapping). -/
def ofInt (w : Nat) (i : Int) : Nat :=
  (i % 2 ^ w).toNat

/-- Reading of a `w`-bit pattern with the given signedness. -/
def readInt (w : Nat) (is_signed : Bool) (x : Nat) : Int :=
  if is_signed then toSigned w x else (x : Int)

/-- The constant `tlctx->get_constant(int)`: an `i32`. -/
def get_constant (v : Int) : Nat :=
  ofInt 32 v

/-- Instruction `add` on `iW`. -/
def CreateAdd (w a b : Nat) : Nat :=
  (a + b) % 2 ^ w

/-- Instruction `sub` on `iW`. -/
def CreateSub (w a b : Nat) : Nat :=
  (a + 2 ^ w - b % 2 ^ w) % 2 ^ w

/-- Instruction `and`. -/
def CreateAnd (a b : Nat) : Nat :=
  a &&& b

/-- Instruction `or`. -/
def CreateOr (a b : Nat) : Nat :=
  a ||| b

/-- Instruction `xor`. -/
def CreateXor (a b : Nat) : Nat :=
  a ^^^ b

/-- Instruction `shl` on `iW`; poison when the amount is not below the width. -/
def CreateShl (w a s : Nat) : Option Nat :=
  if s < w then some (a * 2 ^ s % 2 ^ w) else none

/-- Instruction `lshr` on `iW`; poison when the amount is not below the width. -/
def CreateLShr (w a s : Nat) : Option Nat :=
  if s < w then some (a / 2 ^ s) else none

/-- Instruction `ashr` on `iW`: the signed reading divided by `2 ^ s`, rounded
down; poison when the amount is not below the width. -/
def CreateAShr (w a s : Nat) : Option Nat :=
  if s < w then some (ofInt w (toSigned w a / 2 ^ s)) else none

/-- Instruction `zext` from `iFrom` to `iTo`.  `IRBuilder::CreateZExt` returns
its operand when the types agree and is ill-typed when the target is
narrower. -/
def CreateZExt (wFrom wTo x : Nat) : Option Nat :=
  if wFrom ≤ wTo then some x else none

/-- The cast `IRBuilder::CreateIntCast(v, iTo, isSigned)`: sign or zero
extension to a wider type, truncation to a narrower one. -/
def CreateIntCast (wFrom wTo x : Nat) (isSigned : Bool) : Nat :=
  if wFrom < wTo then (if isSigned then ofInt wTo (toSigned wFrom x) else x)
  else x % 2 ^ wTo

/-- Truncation of a rational toward zero. -/
def truncQ (q : ℚ) : Int :=
  Int.tdiv q.num q.den

/-- Instruction `fptosi` to `iW` over exact rationals; poison when the
truncated value does not fit. -/
def CreateFPToSI (w : Nat) (q : ℚ) : Option Nat :=
  if -(2 : Int) ^ (w - 1) ≤ truncQ q ∧ truncQ q < 2 ^ (w - 1) then
    some (ofInt w (truncQ q)) else none

/-- Instruction `fptoui` to `iW` over exact rationals; poison when the
truncated value does not fit. -/
def CreateFPToUI (w : Nat) (q : ℚ) : Option Nat :=
  if 0 ≤ truncQ q ∧ truncQ q < 2 ^ w then some (ofInt w (truncQ q)) else none

/-! ## Floating-point arithmetic -/

/-- An IEEE 754 binary format: the precision (bits of the significand, the
leading one included) and the least and greatest exponent of a normal
number. -/
structure FloatFormat where
  prec : Nat
  emin : Int
  emax : Int
  deriving DecidableEq, Repr

/-- The format `binary32` of the type `float`. -/
def binary32 : FloatFormat := ⟨24, -126, 127⟩

/-- The format `binary64` of the type `double`. -/
def binary64 : FloatFormat := ⟨53, -1022, 1023⟩

/-- Rounding of a rational to the nearest integer, ties to the even one. -/
def round_half_even (t : ℚ) : Int :=
  if t - ⌊t⌋ < 1 / 2 then ⌊t⌋
  else if 1 / 2 < t - ⌊t⌋ then ⌊t⌋ + 1
  else if ⌊t⌋ % 2 = 0 then ⌊t⌋ else ⌊t⌋ + 1

/-- Rounding of a rational to a value of the format, to nearest, ties to even
(the default rounding of IEEE 754 arithmetic): the unit in the last place is
that of the binade of `q`, no smaller than the unit of the subnormal numbers.
The result is `none` when the rounded value is beyond the finite range, that
is, when the operation yields an infinity. -/
def round_to_float (fmt : FloatFormat) (q : ℚ) : Option ℚ :=
  let e := max (Int.log 2 |q|) fmt.emin
  let ulp : ℚ := 2 ^ (e - (fmt.prec : Int) + 1)
  let r : ℚ := (round_half_even (q / ulp) : ℚ) * ulp
  if |r| < 2 ^ (fmt.emax + 1) then some r else none

/-- Instruction `fpext` / `fptrunc` of `CreateFPCast` on a finite value: the
value rounded to the target format (unchanged when it is a value of that
format); `none` when the result is not finite. -/
def CreateFPCast (fmt : FloatFormat) (x : ℚ) : Option ℚ :=
  round_to_float fmt x

/-- Instruction `fmul` on two finite values of the format: the product
rounded; `none` when the result is not finite. -/
def CreateFMul (fmt : FloatFormat) (a b : ℚ) : Option ℚ :=
  round_to_float fmt (a * b)

/-- The primitive types the codec meets. -/
inductive PrimitiveTypeID where
  | f32 | f64 | i8 | i16 | i32 | i64 | u8 | u16 | u32 | u64
  deriving DecidableEq, Repr

/-- Modelled from the spec: `data_type_bits`, the bit width of a primitive
type (declared outside this file; the spec speaks of the physical word
width of a type). -/
def data_type_bits : PrimitiveTypeID → Nat
  | .f32 => 32 | .f64 => 64
  | .i8 => 8 | .i16 => 16 | .i32 => 32 | .i64 => 64
  | .u8 => 8 | .u16 => 16 | .u32 => 32 | .u64 => 64

/-- Custom integer type descriptor: bit width, signedness, compute type and
physical storage type. -/
structure CustomIntType where
  num_bits : Nat
  is_signed : Bool
  compute_type : PrimitiveTypeID
  physical_type : PrimitiveTypeID
  deriving DecidableEq, Repr

/-- Custom float type descriptor.  `digit_bits` and
`exponent_conversion_offset` are the values of the accessors
`get_digit_bits()` and `get_exponent_conversion_offset()`, whose bodies are
declared outside this file. -/
structure CustomFloatType where
  digits_type : CustomIntType
  exponent_type : Option CustomIntType
  compute_type : PrimitiveTypeID
  scale : ℚ
  digit_bits : Nat
  exponent_conversion_offset : Int
  deriving DecidableEq

/-- The accessor `cft->get_is_signed()`: the signedness of the digits. -/
def CustomFloatType.get_is_signed (cft : CustomFloatType) : Bool :=
  cft.digits_type.is_signed

/-- The data type of a child of a `bit_struct`. -/
inductive DataType where
  | customInt (cit : CustomIntType)
  | customFloat (cft : CustomFloatType)
  deriving DecidableEq

/-- A lowered value.  `int w x` is an `iW` with pattern `x`; `f32 b` is a
float given by its IEEE bit pattern (for the paths that bit-cast it);
`real t q` is a float of type `t` read as an exact rational (for the paths
that do arithmetic on it). -/
inductive Val where
  | int (width bits : Nat)
  | f32 (bits : Nat)
  | real (t : PrimitiveTypeID) (q : ℚ)
  deriving DecidableEq

/-! ## Custom integers -/

/-- The left shift amount of `extract_custom_int`, as an `i32`:
`physical_bits - (bit_offset + num_bits)`. -/
def extract_left (bit_offset : Nat) (cit : CustomIntType) : Nat :=
  let bit_end := CreateAdd 32 bit_offset (get_constant cit.num_bits)
  CreateSub 32 (get_constant (data_type_bits cit.physical_type)) bit_end

/-- The right shift amount of `extract_custom_int`, as an `i32`:
`physical_bits - num_bits`. -/
def extract_right (cit : CustomIntType) : Nat :=
  CreateSub 32 (get_constant (data_type_bits cit.physical_type))
    (get_constant cit.num_bits)

/-- `CodeGenLLVM::extract_custom_int`.  `wbits` is the width of the type of
`physical_value`; `bit_offset` is an `i32`. -/
def extract_custom_int (wbits physical_value bit_offset : Nat)
    (cit : CustomIntType) : Option Nat := do
  let left := CreateIntCast 32 wbits (extract_left bit_offset cit) false
  let right := CreateIntCast 32 wbits (extract_right cit) false
  let step1 ← CreateShl wbits physical_value left
  let step2 ←
    if cit.is_signed then CreateAShr wbits step1 right
    else CreateLShr wbits step1 right
  pure (CreateIntCast wbits (data_type_bits cit.compute_type) step2 cit.is_signed)

/-- The format of a floating-point primitive type; an integer type has
none. -/
def float_format : PrimitiveTypeID → Option FloatFormat
  | .f32 => some binary32
  | .f64 => some binary64
  | _ => none

/-- Modelled from the spec: the runtime helper `rounding_prepare_f{bits}`,
which adds a centered 0.5 rounding offset of the sign of its argument, in the
arithmetic of its type. -/
def rounding_prepare (fmt : FloatFormat) (f : ℚ) : Option ℚ :=
  if 0 < f then round_to_float fmt (f + 1 / 2)
  else if f < 0 then round_to_float fmt (f - 1 / 2)
  else some f

/-- `CodeGenLLVM::float_to_custom_int`, on a finite `real`.  The reciprocal
of the scale is computed in `double` and cast to the compute type; the input
is cast to the compute type, multiplied, prepared for rounding and converted
to the compute type of the digits.  A step whose result is not finite yields
`none`: the conversion of such a value to an integer is poison.  The scale, a
`double` in the source, is a rational here; the steps are those of the code
when it is a value of `binary64`. -/
def float_to_custom_int (cft : CustomFloatType) (cit : CustomIntType)
    (real : ℚ) : Option Nat := do
  let compute_type ← float_format cft.compute_type
  let s_numeric ← if cft.scale = 0 then none else round_to_float binary64 (1 / cft.scale)
  let s ← CreateFPCast compute_type s_numeric
  let input_real ← CreateFPCast compute_type real
  let scaled ← CreateFMul compute_type input_real s
  let scaled ← rounding_prepare compute_type scaled
  if cit.is_signed then CreateFPToSI (data_type_bits cit.compute_type) scaled
  else CreateFPToUI (data_type_bits cit.compute_type) scaled

/-- `CodeGenLLVM::custom_type_to_bits`: the value of a child as a pattern of
the output (physical) type. -/
def custom_type_to_bits (val : Val) (input_type : DataType)
    (output_type : PrimitiveTypeID) : Option Nat := do
  let (cit, width, bits) ←
    match input_type, val with
    | .customFloat cft, .real _ q =>
      if cft.exponent_type.isNone then
        (float_to_custom_int cft cft.digits_type q).map
          (fun k => (cft.digits_type, data_type_bits cft.digits_type.compute_type, k))
      else none
    | .customInt cit, .int w x => some (cit, w, x)
    | _, _ => none
  let bits ←
    if cit.num_bits < width then
      if width = data_type_bits cit.compute_type then
        some (CreateAnd bits ((2 ^ cit.num_bits - 1) % 2 ^ width))
      else none
    else some bits
  CreateZExt width (data_type_bits output_type) bits

/-! ## Runtime helpers and compile-time constants -/

/-- Modelled from the spec: the runtime helper `max_i32`, the larger of two
`i32` read as signed (used to clamp the exponent to be non-negative). -/
def max_i32 (a b : Nat) : Nat :=
  if toSigned 32 a < toSigned 32 b then b else a

/-- Modelled from the spec: the runtime helper `max_u32`, the larger of two
`i32` read as unsigned (used to take the maximum exponent of a group). -/
def max_u32 (a b : Nat) : Nat :=
  if a < b then b else a

/-- Modelled from the spec: the runtime helper `min_u32`, the smaller of two
`i32` read as unsigned (used to clamp a shift amount and the digits). -/
def min_u32 (a b : Nat) : Nat :=
  if b < a then b else a

/-- The C++ expression `1 << k` on `int`, or `1u << k` on `unsigned`
(`is_unsigned`); undefined outside the width of the type. -/
def cxx_shl_one (is_unsigned : Bool) (k : Int) : Option Nat :=
  if 0 ≤ k ∧ k < (if is_unsigned then 32 else 31) then some (2 ^ k.toNat) else none

/-- The shift amount of `CreateShl(v, int)` / `CreateLShr(v, int)` on an
`i32`: the C++ `int` converted to a constant of the operand type. -/
def shift_amount (k : Int) : Nat :=
  ofInt 32 k

/-- Leading zeros among the low `k` bits of `x`. -/
def ctlz_aux : Nat → Nat → Nat
  | 0, _ => 0
  | k + 1, x => if x / 2 ^ k % 2 = 1 then 0 else ctlz_aux k x + 1

/-- Intrinsic `llvm.ctlz.i32` with `is_zero_undef = false`. -/
def ctlz32 (x : Nat) : Nat :=
  ctlz_aux 32 x

/-! ## Custom floats with an exponent -/

/-- `CodeGenLLVM::get_exponent_offset`. -/
def get_exponent_offset (exponent : Nat) (cft : CustomFloatType) : Nat :=
  if exponent ≠ get_constant 0 then get_constant cft.exponent_conversion_offset
  else get_constant 0

/-- `CodeGenLLVM::extract_exponent_from_float`; `f` is the bit pattern of an
`f32`. -/
def extract_exponent_from_float (f : Nat) : Option Nat := do
  let exp_bits ← CreateLShr 32 f (get_constant 23)
  pure (CreateAnd exp_bits (get_constant ((1 <<< 8) - 1)))

/-- `CodeGenLLVM::extract_digits_from_float`. -/
def extract_digits_from_float (f : Nat) (full : Bool) : Nat :=
  let digits := CreateAnd f (get_constant ((1 <<< 23) - 1))
  if full then CreateOr digits (get_constant (1 <<< 23)) else digits

/-- `CodeGenLLVM::get_float_digits_with_shared_exponents`. -/
def get_float_digits_with_shared_exponents (f shared_exp : Nat) : Option Nat := do
  let exp ← extract_exponent_from_float f
  let exp_offset := CreateSub 32 shared_exp exp
  let exp_non_zero : Nat := if exp ≠ get_constant 0 then 1 else 0
  let implicit_bit ← CreateShl 32 exp_non_zero (get_constant 23)
  let digits := extract_digits_from_float f true
  let digits := CreateOr digits implicit_bit
  let exp_offset := min_u32 exp_offset (get_constant 31)
  CreateLShr 32 digits exp_offset

/-- The values that `reconstruct_custom_float_with_exponent` holds after its
branch on `shared_exponent`: the sign bit (`none` for the null pointer), the
digits moved to the fraction position and the exponent offset.  A value may
be poison (`none` inside). -/
structure DecodeState where
  sign_bit : Option (Option Nat)
  digits : Option Nat
  exponent_offset : Option Nat
  deriving DecidableEq

/-- The branch `if (shared_exponent)` of
`reconstruct_custom_float_with_exponent`, on the masked digits;
`sign_mask` is the C++ constant `1u << digit_bits`. -/
def decode_shared (digits exponent_offset sign_mask : Nat) (cft : CustomFloatType) :
    DecodeState :=
  let sign_bit : Option (Option Nat) :=
    if cft.get_is_signed then
      some (CreateShl 32 (CreateAnd digits (get_constant sign_mask))
        (shift_amount (31 - cft.digit_bits)))
    else none
  let digits : Option Nat :=
    if cft.get_is_signed then
      CreateShl 32 (CreateXor digits (CreateAnd digits (get_constant sign_mask)))
        (shift_amount 1)
    else some digits
  match digits with
  | none => ⟨sign_bit, none, none⟩
  | some digits =>
    let num_leading_zeros := ctlz32 digits
    let extra_shift := CreateSub 32 (get_constant (31 - cft.digit_bits)) num_leading_zeros
    let exponent_offset := CreateAdd 32 exponent_offset extra_shift
    let exponent_offset :=
      if !cft.get_is_signed then CreateAdd 32 exponent_offset (get_constant 1)
      else exponent_offset
    let digits_shift := CreateSub 32 (get_constant (23 - cft.digit_bits)) extra_shift
    ⟨sign_bit, CreateShl 32 digits digits_shift, some exponent_offset⟩

/-- The branch `else` (own exponent) of
`reconstruct_custom_float_with_exponent`, on the masked digits. -/
def decode_own (digits exponent_offset : Nat) (cft : CustomFloatType) : DecodeState :=
  ⟨none, CreateShl 32 digits (get_constant (23 - cft.digit_bits)), some exponent_offset⟩

/-- The end of `reconstruct_custom_float_with_exponent`: fraction, exponent,
the zero test of the shared case and the sign.  The `select` of the zero test
does not propagate the poison of the value it does not choose. -/
def decode_assemble (st : DecodeState) (input_digits input_exponent_val : Nat)
    (cft : CustomFloatType) (shared_exponent : Bool) : Option Nat :=
  let fraction_bits := st.digits.map (fun d => CreateAnd d ((1 <<< 23) - 1))
  let exponent_val := st.exponent_offset.map (fun off => CreateAdd 32 input_exponent_val off)
  let exponent_bits := exponent_val.bind (fun e => CreateShl 32 e (get_constant 23))
  let f32_bits : Option Nat := do
    let e ← exponent_bits
    let fr ← fraction_bits
    pure (CreateOr e fr)
  let f32_bits : Option Nat :=
    if shared_exponent then
      let zero_exponent := decide (input_exponent_val = get_constant 0)
      let zero_digits := decide (input_digits = get_constant 0)
      if zero_exponent || zero_digits then some (get_constant 0) else f32_bits
    else f32_bits
  if cft.get_is_signed then
    let sign_bit : Option Nat :=
      match st.sign_bit with
      | some sb => sb
      | none => do
        let d ← st.digits
        CreateShl 32 (CreateAnd d (get_constant (1 <<< 23))) (get_constant (31 - 23))
    do
      let fb ← f32_bits
      let sb ← sign_bit
      pure (CreateOr fb sb)
  else f32_bits

/-- `CodeGenLLVM::reconstruct_custom_float_with_exponent` for an `f32`
compute type; digits and exponent are `i32`, the result is the bit pattern
of the `f32`. -/
def reconstruct_custom_float_with_exponent (input_digits input_exponent_val : Nat)
    (cft : CustomFloatType) (shared_exponent : Bool) : Option Nat := do
  let exponent_offset := get_constant cft.exponent_conversion_offset
  let exponent_type ← cft.exponent_type
  let exponent_offset :=
    if exponent_type.num_bits < 8 then
      (if input_exponent_val ≠ get_constant 0 then exponent_offset else get_constant 0)
    else exponent_offset
  if cft.compute_type = .f32 then
    let mask ← cxx_shl_one true cft.digits_type.num_bits
    let digits := CreateAnd input_digits (mask - 1)
    let sign_mask ←
      if shared_exponent ∧ cft.get_is_signed then cxx_shl_one true cft.digit_bits
      else some 0
    let st :=
      if shared_exponent then decode_shared digits exponent_offset sign_mask cft
      else decode_own digits exponent_offset cft
    decode_assemble st input_digits input_exponent_val cft shared_exponent
  else none

/-! ## Stores -/

/-- A call `store_custom_int(byte_ptr, bit_offset, cit, value)`: the runtime
helper writes the low `num_bits` bits of `value` at `bit_offset` of the
physical word. -/
structure FieldStore where
  bit_offset : Int
  cit : CustomIntType
  value : Nat
  deriving DecidableEq

/-- What `visit(GlobalStoreStmt *)` emits for a bit pointer: the store of the
exponent (for a custom float with exponent; its bit offset is relative to the
digits) and the final store through the statement's pointer. -/
structure GlobalStoreEmitted where
  exponent_store : Option FieldStore
  value_store : FieldStore
  deriving DecidableEq

/-- A child of a `bit_struct` SNode.  `exponent_users` and `exp_snode` hold
child ids of the same `bit_struct`. -/
structure SNode where
  dt : DataType
  bit_offset : Nat
  owns_shared_exponent : Bool
  exponent_users : List Nat
  exp_snode : Option Nat
  deriving DecidableEq

/-- A `bit_struct` SNode: its physical type and its children. -/
structure BitStructSNode where
  physical_type : PrimitiveTypeID
  ch : List SNode
  deriving DecidableEq

/-- `BitStructStoreStmt`: the `bit_struct`, the ids of the children stored and
the lowered values to store. -/
structure BitStructStoreStmt where
  snode : BitStructSNode
  ch_ids : List Nat
  values : List Val
  deriving DecidableEq

/-- What `visit(BitStructStoreStmt *)` emits: one store of a fused word, or a
sequence of `store_custom_int` calls. -/
inductive BitStructEmitted where
  | word_store (word : Nat)
  | field_stores (calls : List FieldStore)
  deriving DecidableEq

/-- The rounding to nearest of `visit(GlobalStoreStmt *)`: for less than 23
digit bits, `1 << (22 - digit_bits)` is added to the bit pattern. -/
def round_f32_bits (cft : CustomFloatType) (b : Nat) : Option Nat :=
  if cft.digit_bits < 23 then
    match cxx_shl_one false (22 - cft.digit_bits) with
    | some r => some (CreateAdd 32 b (get_constant (Int.ofNat r)))
    | none => none
  else some b

/-- The digits of `visit(GlobalStoreStmt *)`: the shifted bits masked to the
digit width, with the sign bit of the float inserted above them when the type
is signed; `mask` is the C++ constant `1 << digit_bits`. -/
def digit_bits_with_sign (cft : CustomFloatType) (f32_bits value_bits mask : Nat) :
    Option Nat :=
  let digit_bits := CreateAnd value_bits (get_constant (Int.ofNat mask - 1))
  if cft.get_is_signed then
    let sign_bit := CreateAnd f32_bits (get_constant 0x80000000)
    (CreateLShr 32 sign_bit (shift_amount (31 - cft.digit_bits))).map
      (fun sign_bit => CreateOr digit_bits sign_bit)
  else some digit_bits

/-- The stores of `visit(GlobalStoreStmt *)` for a custom float with its own
exponent: the exponent less its offset, clamped at zero, and the digits,
flushed to zero when the stored exponent is zero. -/
def exponent_and_digits_stores (cft : CustomFloatType) (exponent_cit : CustomIntType)
    (exponent_bits digit_bits : Nat) (bit_offset_delta : Int) : GlobalStoreEmitted :=
  let exponent_offset := get_exponent_offset exponent_bits cft
  let exponent_bits := CreateSub 32 exponent_bits exponent_offset
  let exponent_bits := max_i32 exponent_bits (get_constant 0)
  let store_value :=
    if exponent_bits ≠ get_constant 0 then digit_bits else get_constant 0
  ⟨some ⟨bit_offset_delta, exponent_cit, exponent_bits⟩, ⟨0, cft.digits_type, store_value⟩⟩

/-- The branch of `visit(GlobalStoreStmt *)` for a custom float with its own
exponent type `exponent_cit`, on the bit pattern `b` of the `f32` stored. -/
def store_float_with_exponent (cft : CustomFloatType) (exponent_cit : CustomIntType)
    (b : Nat) (bit_offset_delta : Int) : Option GlobalStoreEmitted :=
  (round_f32_bits cft b).bind fun f32_bits =>
  (CreateAShr 32 f32_bits (shift_amount 23)).bind fun exponent_bits =>
  (CreateAShr 32 f32_bits (get_constant (23 - cft.digit_bits))).bind fun value_bits =>
  (cxx_shl_one false cft.digit_bits).bind fun mask =>
  (digit_bits_with_sign cft f32_bits value_bits mask).map fun digit_bits =>
  exponent_and_digits_stores cft exponent_cit
    (CreateAnd exponent_bits (get_constant ((1 <<< 8) - 1))) digit_bits bit_offset_delta

/-- The bit-pointer branch of `CodeGenLLVM::visit(GlobalStoreStmt *)`.
`bit_offset_delta` is `exponent_snode->bit_offset - digits_snode->bit_offset`. -/
def visit_GlobalStoreStmt (pointee_type : DataType) (data : Val)
    (bit_offset_delta : Int) : Option GlobalStoreEmitted :=
  match pointee_type, data with
  | .customInt cit, .int _ x => some ⟨none, ⟨0, cit, x⟩⟩
  | .customFloat cft, .f32 b =>
    match cft.exponent_type with
    | some exponent_cit =>
      if cft.compute_type = .f32 then
        store_float_with_exponent cft exponent_cit b bit_offset_delta
      else none
    | none => none
  | .customFloat cft, .real _ q =>
    match cft.exponent_type with
    | some _ => none
    | none =>
      (float_to_custom_int cft cft.digits_type q).map
        (fun k => ⟨none, ⟨0, cft.digits_type, k⟩⟩)
  | _, _ => none

/-- `CodeGenLLVM::reconstruct_float_from_bit_struct`: the float of the child
`digits_snode` read from the loaded word `local_bit_struct`. -/
def reconstruct_float_from_bit_struct (snode : BitStructSNode) (local_bit_struct : Nat)
    (digits_snode : SNode) : Option Nat := do
  let cft ← match digits_snode.dt with
    | .customFloat cft => some cft
    | .customInt _ => none
  let exponent_type ← cft.exponent_type
  let digits_type := cft.digits_type
  let wbits := data_type_bits snode.physical_type
  let digits ← extract_custom_int wbits local_bit_struct
    (get_constant digits_snode.bit_offset) digits_type
  let exp_id ← digits_snode.exp_snode
  let exp_snode ← snode.ch[exp_id]?
  let exponent ← extract_custom_int wbits local_bit_struct
    (get_constant exp_snode.bit_offset) exponent_type
  reconstruct_custom_float_with_exponent digits exponent cft
    digits_snode.owns_shared_exponent

/-- The search `std::find(ch_ids.begin(), ch_ids.end(), ch_id)`: the index of
the first occurrence of `ch_id`, `none` for `end()`. -/
def find_ch_id (ch_id : Nat) : List Nat → Option Nat
  | [] => none
  | x :: xs => if x = ch_id then some 0 else (find_ch_id ch_id xs).map (· + 1)

/-- The body of the loop of `store_floats_with_shared_exponents` that loads
the floats: the value listed in the statement for `user`, or else the float
reconstructed from the loaded word. -/
def load_float (stmt : BitStructStoreStmt) (local_bit_struct : Nat) (user : Nat) :
    Option Nat :=
  match find_ch_id user stmt.ch_ids with
  | some input =>
    match stmt.values[input]? with
    | some (.f32 b) => some b
    | _ => none
  | none => do
    let digits_snode ← stmt.snode.ch[user]?
    reconstruct_float_from_bit_struct stmt.snode local_bit_struct digits_snode

/-- The loop of `store_floats_with_shared_exponents` that loads the floats of
the users of one exponent. -/
def load_all_floats (stmt : BitStructStoreStmt) (local_bit_struct : Nat) :
    List Nat → Option (List Nat)
  | [] => some []
  | user :: users => do
    let f ← load_float stmt local_bit_struct user
    let rest ← load_all_floats stmt local_bit_struct users
    pure (f :: rest)

/-- The loop of `store_floats_with_shared_exponents` that takes the maximum
raw exponent of the floats; `none` stands for the null `max_exp_bits`. -/
def max_exp_bits_loop : List Nat → Option Nat → Option (Option Nat)
  | [], acc => some acc
  | f :: floats, acc => do
    let exp_bits ← extract_exponent_from_float f
    max_exp_bits_loop floats
      (some (match acc with
        | some m => max_u32 m exp_bits
        | none => exp_bits))

/-- The value `max_exp_bits_to_store` of `store_floats_with_shared_exponents`
for the maximum raw exponent of a group. -/
def max_exp_bits_to_store (max_exp_bits : Nat) (first_cft : CustomFloatType) : Nat :=
  let exponent_offset := get_exponent_offset max_exp_bits first_cft
  max_i32 (CreateSub 32 max_exp_bits exponent_offset) (get_constant 0)

/-- The body of the last loop of `store_floats_with_shared_exponents` after
the realignment: the realigned `digits` of the user `f` of type `cft` are
rounded, clamped, compressed to the digit width and given the sign bit. -/
def round_shared_digits (digits f : Nat) (cft : CustomFloatType) : Option Nat := do
  let right_shift_bits : Int :=
    23 + (if cft.get_is_signed then 1 else 0) - cft.digit_bits
  let right_shift_bits : Int :=
    if !cft.get_is_signed then right_shift_bits + 1 else right_shift_bits
  let half ← cxx_shl_one false (right_shift_bits - 1)
  let digits := CreateAdd 32 digits (get_constant half)
  let digits := min_u32 digits (get_constant ((1 <<< 24) - 1))
  let digits ← CreateLShr 32 digits (shift_amount right_shift_bits)
  if cft.get_is_signed then do
    let sign_bit := CreateAnd f (ofInt 32 (-2147483648))
    let sign_bit ← CreateLShr 32 sign_bit (shift_amount (31 - cft.digit_bits))
    pure (CreateOr digits sign_bit)
  else pure digits

/-- The body of the last loop of `store_floats_with_shared_exponents`: the
digits stored for one user `f` of type `cft` under the group exponent
`max_exp_bits`. -/
def shared_exponent_digits (f max_exp_bits : Nat) (cft : CustomFloatType) :
    Option Nat := do
  let digits ← get_float_digits_with_shared_exponents f max_exp_bits
  round_shared_digits digits f cft

/-- The last loop of `store_floats_with_shared_exponents` over the users of
one exponent. -/
def store_users (snode : BitStructSNode) (max_exp_bits : Nat) :
    List Nat → List Nat → Option (List FieldStore)
  | [], _ => some []
  | _ :: _, [] => none
  | user :: users, f :: floats => do
    let digits_snode ← snode.ch[user]?
    let cft ← match digits_snode.dt with
      | .customFloat cft => some cft
      | .customInt _ => none
    let digits ← shared_exponent_digits f max_exp_bits cft
    let rest ← store_users snode max_exp_bits users floats
    pure (⟨digits_snode.bit_offset, cft.digits_type, digits⟩ :: rest)

/-- The body of the outer loop of `store_floats_with_shared_exponents` for the
exponent child `exp`: the store of the exponent, then of the digits of each
user. -/
def store_exponent_group (stmt : BitStructStoreStmt) (local_bit_struct : Nat)
    (exp : SNode) : Option (List FieldStore) := do
  let floats ← load_all_floats stmt local_bit_struct exp.exponent_users
  let max_exp_bits ← (← max_exp_bits_loop floats none)
  let first ← exp.exponent_users.head?
  let first_snode ← stmt.snode.ch[first]?
  let first_cft ← match first_snode.dt with
    | .customFloat cft => some cft
    | .customInt _ => none
  let exp_cit ← match exp.dt with
    | .customInt cit => some cit
    | .customFloat _ => none
  let users ← store_users stmt.snode max_exp_bits exp.exponent_users floats
  pure (⟨exp.bit_offset, exp_cit, max_exp_bits_to_store max_exp_bits first_cft⟩ :: users)

/-- The outer loop of `store_floats_with_shared_exponents` over the children. -/
def store_groups (stmt : BitStructStoreStmt) (local_bit_struct : Nat) :
    List SNode → Option (List FieldStore)
  | [] => some []
  | exp :: rest => do
    let here ←
      if exp.exponent_users.isEmpty then some []
      else store_exponent_group stmt local_bit_struct exp
    let later ← store_groups stmt local_bit_struct rest
    pure (here ++ later)

/-- `CodeGenLLVM::store_floats_with_shared_exponents`: the calls of
`store_custom_int` it emits, in order; `local_bit_struct` is the word loaded
from the statement's pointer. -/
def store_floats_with_shared_exponents (stmt : BitStructStoreStmt)
    (local_bit_struct : Nat) : Option (List FieldStore) :=
  store_groups stmt local_bit_struct stmt.snode.ch

/-- The loop of `visit(BitStructStoreStmt *)` that stores all the components:
the fused word built from the listed children and values; `none` inside
stands for the null `bit_struct_val`. -/
def store_all_components (snode : BitStructSNode) :
    List Nat → List Val → Option Nat → Option (Option Nat)
  | [], _, bit_struct_val => some bit_struct_val
  | _ :: _, [], _ => none
  | ch_id :: ch_ids, v :: values, bit_struct_val => do
    let ch ← snode.ch[ch_id]?
    let wbits := data_type_bits snode.physical_type
    let val ← custom_type_to_bits v ch.dt snode.physical_type
    let val ← CreateShl wbits val (ch.bit_offset % 2 ^ wbits)
    store_all_components snode ch_ids values
      (some (match bit_struct_val with
        | none => val
        | some acc => CreateOr acc val))

/-- The loop of `visit(BitStructStoreStmt *)` that stores the listed children
one by one with `store_custom_int`. -/
def store_components_one_by_one (snode : BitStructSNode) :
    List Nat → List Val → Option (List FieldStore)
  | [], _ => some []
  | _ :: _, [] => none
  | ch_id :: ch_ids, v :: values => do
    let ch ← snode.ch[ch_id]?
    let cit ← match ch.dt with
      | .customFloat cft => if cft.exponent_type.isNone then some cft.digits_type else none
      | .customInt cit => some cit
    let bits ← custom_type_to_bits v ch.dt snode.physical_type
    let rest ← store_components_one_by_one snode ch_ids values
    pure (⟨ch.bit_offset, cit, bits⟩ :: rest)

/-- The flag `has_shared_exponent` of `visit(BitStructStoreStmt *)`. -/
def has_shared_exponent (stmt : BitStructStoreStmt) : Bool :=
  stmt.ch_ids.any (fun ch_id =>
    match stmt.snode.ch[ch_id]? with
    | some ch => ch.owns_shared_exponent
    | none => false)

/-- `CodeGenLLVM::visit(BitStructStoreStmt *)`; `local_bit_struct` is the word
at the statement's pointer before the store. -/
def visit_BitStructStoreStmt (stmt : BitStructStoreStmt) (local_bit_struct : Nat) :
    Option BitStructEmitted :=
  if has_shared_exponent stmt then
    (store_floats_with_shared_exponents stmt local_bit_struct).map .field_stores
  else if stmt.ch_ids.length = stmt.snode.ch.length then do
    let bit_struct_val ← (← store_all_components stmt.snode stmt.ch_ids stmt.values none)
    pure (.word_store bit_struct_val)
  else
    (store_components_one_by_one stmt.snode stmt.ch_ids stmt.values).map .field_stores

/-! ## Lowering of statements -/

/-- A fatal error of the lowering: `TI_NOT_IMPLEMENTED`, a failed `TI_ASSERT`
or `TI_ERROR`.  Each of them leaves the current function without a result. -/
inductive Fatal where
  | not_implemented
  | assertion_failure
  | error
  deriving DecidableEq, Repr

/-- A type of the IR (`Type *`): a primitive type or a custom type. -/
inductive TiType where
  | primitive (id : PrimitiveTypeID)
  | custom (dt : DataType)
  deriving DecidableEq

/-- The test `t->is_primitive(id)`. -/
def TiType.is_primitive (t : TiType) (id : PrimitiveTypeID) : Bool :=
  decide (t = TiType.primitive id)

/-- Modelled from the spec: `is_real`, true of the floating-point primitive
types only (declared outside this file). -/
def is_real : TiType → Bool
  | .primitive .f32 => true
  | .primitive .f64 => true
  | _ => false

/-- Modelled from the spec: `is_integral`, true of the primitive integer
types only (declared outside this file). -/
def is_integral : TiType → Bool
  | .primitive .f32 => false
  | .primitive .f64 => false
  | .primitive _ => true
  | .custom _ => false

/-- Modelled from the spec: `is_signed`, the signedness of an integer type; a
custom integer type answers with its own flag (declared outside this file). -/
def is_signed : TiType → Bool
  | .primitive .i8 => true
  | .primitive .i16 => true
  | .primitive .i32 => true
  | .primitive .i64 => true
  | .custom (.customInt cit) => cit.is_signed
  | _ => false

/-- Modelled from the spec: `data_type_size`, the size of a primitive type in
bytes (declared outside this file). -/
def data_type_size (t : PrimitiveTypeID) : Nat :=
  data_type_bits t / 8

/-- Instruction `sext` from `iFrom` to `iTo`; ill-typed when narrowing. -/
def CreateSExt (wFrom wTo x : Nat) : Option Nat :=
  if wFrom ≤ wTo then some (ofInt wTo (toSigned wFrom x)) else none

/-- Instruction `trunc` from `iFrom` to `iTo`; ill-typed when widening. -/
def CreateTrunc (wFrom wTo x : Nat) : Option Nat :=
  if wTo ≤ wFrom then some (x % 2 ^ wTo) else none

/-- Instruction `bitcast` between first-class types of `wFrom` and `wTo`
bits: the pattern is kept; ill-typed when the widths differ. -/
def CreateBitCast (wFrom wTo x : Nat) : Option Nat :=
  if wFrom = wTo then some x else none

/-- Modelled from the spec: `data_type_size` on a `Type *`; only primitive
types have a size, any other type is not implemented (declared outside this
file). -/
def TiType.data_type_size : TiType → Except Fatal Nat
  | .primitive id => .ok (Taichi.data_type_size id)
  | .custom _ => .error Fatal.not_implemented

/-- The size `from_size` computed by `cast_int`: that of the compute type for
a custom integer type, `data_type_size(from)` otherwise. -/
def cast_int_from_size (src : TiType) : Except Fatal Nat :=
  match src with
  | .custom (.customInt cit) => .ok (data_type_size cit.compute_type)
  | t => t.data_type_size

/-- The function `cast_int(input_val, from, to)` on the pattern of
`input_val`, an integer of `8 * from_size` bits.  The result is `none` when
the emitted instruction is ill-typed. -/
def cast_int (input_val : Nat) (src dst : TiType) : Except Fatal (Option Nat) :=
  if src = dst then .ok (some input_val)
  else
    match cast_int_from_size src, dst.data_type_size with
    | .error e, _ => .error e
    | .ok _, .error e => .error e
    | .ok from_size, .ok to_size =>
      if from_size < to_size then
        if is_signed src then
          .ok (CreateSExt (8 * from_size) (8 * to_size) input_val)
        else
          .ok (CreateZExt (8 * from_size) (8 * to_size) input_val)
      else
        .ok (CreateTrunc (8 * from_size) (8 * to_size) input_val)

/-! ### Bit pointers -/

/-- The struct `{i8* byte_ptr; i32 offset; i32}` allocated by
`create_bit_ptr_struct`.  A field is `none` while nothing defined has been
stored into it: the allocation leaves it undefined, and so does a store of an
undefined value. -/
structure BitPtrStruct where
  byte_ptr : Option Nat
  bit_offset : Option Nat
  deriving DecidableEq, Repr

/-- The function `create_bit_ptr_struct(byte_ptr_base, bit_offset)`: each field
is stored only if the argument is provided.  The bit cast of the base to
`i8*` keeps the address. -/
def create_bit_ptr_struct (byte_ptr_base bit_offset : Option Nat) : BitPtrStruct :=
  { byte_ptr := byte_ptr_base, bit_offset := bit_offset }

/-- The function `offset_bit_ptr(input_bit_ptr, bit_offset_delta)`: loads both
fields, adds the constant delta to the offset with an `i32` add, and builds a
new struct. -/
def offset_bit_ptr (input_bit_ptr : BitPtrStruct) (bit_offset_delta : Int) : BitPtrStruct :=
  let byte_ptr_base := input_bit_ptr.byte_ptr
  let input_offset := input_bit_ptr.bit_offset
  let new_bit_offset :=
    input_offset.map (fun o => CreateAdd 32 o (get_constant bit_offset_delta))
  create_bit_ptr_struct byte_ptr_base new_bit_offset

/-! ### Offloaded tasks -/

/-- An `OffloadedTask`: its name and its entry point (`none` is `nullptr`). -/
structure OffloadedTask where
  name : String
  func : Option Nat
  deriving DecidableEq, Repr

/-- The constructor of `OffloadedTask`: `func = nullptr`. -/
def OffloadedTask.new : OffloadedTask :=
  { name := "", func := none }

/-- The method `OffloadedTask::begin(name)`. -/
def OffloadedTask.begin (task : OffloadedTask) (name : String) : OffloadedTask :=
  { task with name := name }

/-- The method `OffloadedTask::end()`: appends a copy of the task to
`codegen->offloaded_tasks`. -/
def OffloadedTask.end_ (task : OffloadedTask) (offloaded_tasks : List OffloadedTask) :
    List OffloadedTask :=
  offloaded_tasks ++ [task]

/-- The method `OffloadedTask::compile()`; `lookup_function_pointer` is the
symbol table of the JIT, `none` for a missing symbol. -/
def OffloadedTask.compile (lookup_function_pointer : String → Option Nat)
    (task : OffloadedTask) : Except Fatal OffloadedTask :=
  match task.func with
  | some _ => .error Fatal.assertion_failure
  | none =>
    match lookup_function_pointer task.name with
    | none => .error Fatal.assertion_failure
    | some kernel_symbol => .ok { task with func := some kernel_symbol }

/-- The call operator `OffloadedTask::operator()(context)`: asserts the entry
point and calls it.  The calls made so far are a list of pairs (entry point,
context). -/
def OffloadedTask.call (task : OffloadedTask) (context : Nat) (calls : List (Nat × Nat)) :
    Except Fatal (List (Nat × Nat)) :=
  match task.func with
  | none => .error Fatal.assertion_failure
  | some func => .ok (calls ++ [(func, context)])

/-- The loop `for (auto &task : offloaded_tasks) task.compile();`. -/
def compile_tasks (lookup_function_pointer : String → Option Nat) :
    List OffloadedTask → Except Fatal (List OffloadedTask)
  | [] => .ok []
  | task :: rest =>
    match OffloadedTask.compile lookup_function_pointer task with
    | .error e => .error e
    | .ok task1 =>
      match compile_tasks lookup_function_pointer rest with
      | .error e => .error e
      | .ok rest1 => .ok (task1 :: rest1)

/-- The body of the returned closure: `for (auto task : offloaded_tasks_local)
task(&context);`. -/
def launch (context : Nat) : List OffloadedTask → List (Nat × Nat) →
    Except Fatal (List (Nat × Nat))
  | [], calls => .ok calls
  | task :: rest, calls =>
    match OffloadedTask.call task context calls with
    | .error e => .error e
    | .ok calls1 => launch context rest calls1

/-- The function `compile_module_to_executable()`: compiles every task in
place, copies the list and returns the closure that launches the copy. -/
def compile_module_to_executable (lookup_function_pointer : String → Option Nat)
    (offloaded_tasks : List OffloadedTask) :
    Except Fatal (Nat → List (Nat × Nat) → Except Fatal (List (Nat × Nat))) :=
  match compile_tasks lookup_function_pointer offloaded_tasks with
  | .error e => .error e
  | .ok offloaded_tasks_local => .ok (fun context calls => launch context offloaded_tasks_local calls)

/-! ### Unary, binary and SNode operations -/

/-- A value of the emitted IR, as far as the lowering of one statement builds
it: `val id` is `llvm_val` of the statement `id` lowered before. -/
inductive LLVMValue where
  | val (id : Nat)
  | const_one (t : TiType)
  | cast (op : String) (v : LLVMValue) (dst : TiType)
  | cast_int (v : LLVMValue) (src dst : TiType)
  | unary (op : String) (v : LLVMValue)
  | binary (op : String) (a b : LLVMValue)
  | call0 (callee : String)
  | call1 (callee : String) (a : LLVMValue)
  | call2 (callee : String) (a b : LLVMValue)
  | sext_i32 (v : LLVMValue)
  deriving DecidableEq

/-- The operators of `UnaryOpStmt`. -/
inductive UnaryOpType where
  | neg | sqrt | round | floor | ceil | cast_value | cast_bits | abs | sgn
  | sin | asin | cos | acos | tan | tanh | inv | rcp | exp | log | rsqrt
  | bit_not | logic_not
  deriving DecidableEq, Repr

/-- The fields of a `UnaryOpStmt` read by the lowering: the operator, the
operand (by the id of its statement) with its type, the type of the statement
itself and the cast type. -/
structure UnaryOpStmt where
  op_type : UnaryOpType
  operand : Nat
  operand_ret_type : TiType
  ret_type : TiType
  cast_type : TiType
  deriving DecidableEq

/-- The `cast_value` branch of `visit(UnaryOpStmt *)`. -/
def visit_cast_value (stmt : UnaryOpStmt) : Except Fatal LLVMValue :=
  let src := stmt.operand_ret_type
  let dst := stmt.cast_type
  if src = dst then .error Fatal.assertion_failure
  else if is_real src != is_real dst then
    if is_real src && is_integral dst then
      .ok (.cast "FPToSI" (.val stmt.operand) stmt.cast_type)
    else if is_integral src && is_real dst then
      .ok (.cast "SIToFP" (.val stmt.operand) stmt.cast_type)
    else .error Fatal.not_implemented
  else if is_real src && is_real dst then
    match src.data_type_size, dst.data_type_size with
    | .ok a, .ok b =>
      if a < b then .ok (.cast "FPExt" (.val stmt.operand) stmt.cast_type)
      else .ok (.cast "FPTrunc" (.val stmt.operand) stmt.cast_type)
    | .error e, _ => .error e
    | _, .error e => .error e
  else
    match dst with
    | .custom (.customInt _) => .error Fatal.assertion_failure
    | _ => .ok (.cast_int (.val stmt.operand) src dst)

/-- The method `visit(UnaryOpStmt *)`: the value recorded in `llvm_val[stmt]`.
The virtual `emit_extra_unary`, defined by the backends, is a parameter. -/
def visit_UnaryOpStmt (emit_extra_unary : UnaryOpStmt → Except Fatal LLVMValue)
    (stmt : UnaryOpStmt) : Except Fatal LLVMValue :=
  let input := LLVMValue.val stmt.operand
  match stmt.op_type with
  | .cast_value => visit_cast_value stmt
  | .cast_bits =>
    match stmt.ret_type.data_type_size, stmt.cast_type.data_type_size with
    | .ok a, .ok b =>
      if a = b then .ok (.cast "BitCast" input stmt.cast_type)
      else .error Fatal.assertion_failure
    | .error e, _ => .error e
    | _, .error e => .error e
  | .rsqrt => .ok (.binary "FDiv" (.const_one stmt.ret_type) (.call1 "sqrt" input))
  | .bit_not => .ok (.unary "Not" input)
  | .neg =>
    if is_real stmt.operand_ret_type then .ok (.unary "FNeg" input)
    else .ok (.unary "Neg" input)
  | .floor => .ok (.call1 "llvm.floor" input)
  | .ceil => .ok (.call1 "llvm.ceil" input)
  | _ => emit_extra_unary stmt

/-- The operators of `BinaryOpStmt`. -/
inductive BinaryOpType where
  | mul | add | sub | truediv | floordiv | div | mod | max | min
  | bit_and | bit_or | bit_xor | bit_shl | bit_shr | bit_sar | pow | atan2
  | cmp_lt | cmp_le | cmp_gt | cmp_ge | cmp_eq | cmp_ne
  deriving DecidableEq, Repr

/-- Modelled from the spec: `is_comparison`, true of the six comparison
operators (declared outside this file). -/
def is_comparison : BinaryOpType → Bool
  | .cmp_lt | .cmp_le | .cmp_gt | .cmp_ge | .cmp_eq | .cmp_ne => true
  | _ => false

/-- The target architectures. -/
inductive Arch where
  | x64 | arm64 | js | cc | wasm | cuda | metal | opengl
  deriving DecidableEq, Repr

/-- Modelled from the spec: `arch_is_cpu`, true of the host architectures
(declared outside this file). -/
def arch_is_cpu : Arch → Bool
  | .x64 | .arm64 | .js | .cc | .wasm => true
  | _ => false

/-- Modelled from the spec: `data_type_name`, used in the name of the
`floordiv` helper (declared outside this file). -/
def data_type_name : TiType → String
  | .primitive .f32 => "f32" | .primitive .f64 => "f64"
  | .primitive .i8 => "i8" | .primitive .i16 => "i16"
  | .primitive .i32 => "i32" | .primitive .i64 => "i64"
  | .primitive .u8 => "u8" | .primitive .u16 => "u16"
  | .primitive .u32 => "u32" | .primitive .u64 => "u64"
  | .custom _ => "custom"

/-- The fields of a `BinaryOpStmt` read by the lowering: the operator, the
type of the statement, the operands (by the ids of their statements) and the
type of the left operand, which `lhs->ret_type` and `lhs->element_type()`
both denote for a scalar. -/
structure BinaryOpStmt where
  op_type : BinaryOpType
  ret_type : TiType
  lhs : Nat
  rhs : Nat
  lhs_ret_type : TiType
  deriving DecidableEq

/-- The comparison built in the `is_comparison` branch of
`visit(BinaryOpStmt *)`. -/
def lower_comparison (op : BinaryOpType) (input_type : TiType) (l r : LLVMValue) :
    Except Fatal LLVMValue :=
  match op with
  | .cmp_eq =>
    if is_real input_type then .ok (.binary "FCmpOEQ" l r) else .ok (.binary "ICmpEQ" l r)
  | .cmp_le =>
    if is_real input_type then .ok (.binary "FCmpOLE" l r)
    else if is_signed input_type then .ok (.binary "ICmpSLE" l r)
    else .ok (.binary "ICmpULE" l r)
  | .cmp_ge =>
    if is_real input_type then .ok (.binary "FCmpOGE" l r)
    else if is_signed input_type then .ok (.binary "ICmpSGE" l r)
    else .ok (.binary "ICmpUGE" l r)
  | .cmp_lt =>
    if is_real input_type then .ok (.binary "FCmpOLT" l r)
    else if is_signed input_type then .ok (.binary "ICmpSLT" l r)
    else .ok (.binary "ICmpULT" l r)
  | .cmp_gt =>
    if is_real input_type then .ok (.binary "FCmpOGT" l r)
    else if is_signed input_type then .ok (.binary "ICmpSGT" l r)
    else .ok (.binary "ICmpUGT" l r)
  | .cmp_ne =>
    if is_real input_type then .ok (.binary "FCmpONE" l r) else .ok (.binary "ICmpNE" l r)
  | _ => .error Fatal.not_implemented

/-- The `pow` and `atan2` branches of `visit(BinaryOpStmt *)`: a call of the
helper chosen by architecture and result type. -/
def lower_pow (current_arch : Arch) (ret_type : TiType) (l r : LLVMValue) :
    Except Fatal LLVMValue :=
  if arch_is_cpu current_arch then
    if ret_type.is_primitive .f32 then .ok (.call2 "pow_f32" l r)
    else if ret_type.is_primitive .f64 then .ok (.call2 "pow_f64" l r)
    else if ret_type.is_primitive .i32 then .ok (.call2 "pow_i32" l r)
    else if ret_type.is_primitive .i64 then .ok (.call2 "pow_i64" l r)
    else .error Fatal.not_implemented
  else if current_arch = Arch.cuda then
    if ret_type.is_primitive .f32 then .ok (.call2 "__nv_powf" l r)
    else if ret_type.is_primitive .f64 then .ok (.call2 "__nv_pow" l r)
    else if ret_type.is_primitive .i32 then .ok (.call2 "pow_i32" l r)
    else if ret_type.is_primitive .i64 then .ok (.call2 "pow_i64" l r)
    else .error Fatal.not_implemented
  else .error Fatal.not_implemented

/-- The `atan2` branch of `visit(BinaryOpStmt *)`. -/
def lower_atan2 (current_arch : Arch) (ret_type : TiType) (l r : LLVMValue) :
    Except Fatal LLVMValue :=
  if arch_is_cpu current_arch then
    if ret_type.is_primitive .f32 then .ok (.call2 "atan2_f32" l r)
    else if ret_type.is_primitive .f64 then .ok (.call2 "atan2_f64" l r)
    else .error Fatal.not_implemented
  else if current_arch = Arch.cuda then
    if ret_type.is_primitive .f32 then .ok (.call2 "__nv_atan2f" l r)
    else if ret_type.is_primitive .f64 then .ok (.call2 "__nv_atan2" l r)
    else .error Fatal.not_implemented
  else .error Fatal.not_implemented

/-- The value that `visit(BinaryOpStmt *)` assigns to `llvm_val[stmt]`, or the
fatal error it stops with. -/
def lower_BinaryOpStmt (current_arch : Arch) (stmt : BinaryOpStmt) : Except Fatal LLVMValue :=
  let op := stmt.op_type
  let ret_type := stmt.ret_type
  let l := LLVMValue.val stmt.lhs
  let r := LLVMValue.val stmt.rhs
  match op with
  | .add => if is_real ret_type then .ok (.binary "FAdd" l r) else .ok (.binary "Add" l r)
  | .sub => if is_real ret_type then .ok (.binary "FSub" l r) else .ok (.binary "Sub" l r)
  | .mul => if is_real ret_type then .ok (.binary "FMul" l r) else .ok (.binary "Mul" l r)
  | .floordiv =>
    if is_integral ret_type then .ok (.call2 ("floordiv_" ++ data_type_name ret_type) l r)
    else .ok (.call1 "llvm.floor" (.binary "FDiv" l r))
  | .div => if is_real ret_type then .ok (.binary "FDiv" l r) else .ok (.binary "SDiv" l r)
  | .mod => .ok (.binary "SRem" l r)
  | .bit_and => .ok (.binary "And" l r)
  | .bit_or => .ok (.binary "Or" l r)
  | .bit_xor => .ok (.binary "Xor" l r)
  | .bit_shl => .ok (.binary "Shl" l r)
  | .bit_sar =>
    if is_signed stmt.lhs_ret_type then .ok (.binary "AShr" l r) else .ok (.binary "LShr" l r)
  | .max =>
    if is_real ret_type then .ok (.binary "MaxNum" l r)
    else if ret_type.is_primitive .i32 then .ok (.call2 "max_i32" l r)
    else .error Fatal.not_implemented
  | .atan2 => lower_atan2 current_arch ret_type l r
  | .pow => lower_pow current_arch ret_type l r
  | .min =>
    if is_real ret_type then .ok (.binary "MinNum" l r)
    else if ret_type.is_primitive .i32 then .ok (.call2 "min_i32" l r)
    else .error Fatal.not_implemented
  | .cmp_lt | .cmp_le | .cmp_gt | .cmp_ge | .cmp_eq | .cmp_ne =>
    match lower_comparison op stmt.lhs_ret_type l r with
    | .ok cmp => .ok (.sext_i32 cmp)
    | .error e => .error e
  | _ => .error Fatal.not_implemented

/-- The method `visit(BinaryOpStmt *)` on the map `llvm_val`, a list of pairs
(statement id, value): the statement `id` gets its value, or the lowering
stops. -/
def visit_BinaryOpStmt (current_arch : Arch) (id : Nat) (stmt : BinaryOpStmt)
    (llvm_val : List (Nat × LLVMValue)) : Except Fatal (List (Nat × LLVMValue)) :=
  match lower_BinaryOpStmt current_arch stmt with
  | .ok v => .ok ((id, v) :: llvm_val)
  | .error e => .error e

/-- The kinds of SNode. -/
inductive SNodeType where
  | root | dense | dynamic | pointer | bitmasked | hash | place | bit_struct
  | bit_array | undefined
  deriving DecidableEq, Repr

/-- The operators of `SNodeOpStmt`. -/
inductive SNodeOpType where
  | is_active | length | activate | deactivate | append | clear
  deriving DecidableEq, Repr

/-- The fields of an `SNodeOpStmt` read by the lowering: operator, kind of
the SNode, type of the statement, and the statements `ptr` and `val`. -/
structure SNodeOpStmt where
  op_type : SNodeOpType
  snode_type : SNodeType
  ret_type : TiType
  ptr : Nat
  val : Nat
  deriving DecidableEq

/-- A call `call(snode, node_ptr, method, arguments)` of a method of the
runtime structure of an SNode. -/
structure SNodeCall where
  node_ptr : Nat
  method : String
  arguments : List Nat
  deriving DecidableEq, Repr

/-- The function `get_runtime_snode_name(snode)`: the name of the runtime
structure of the kind of the node; a place or an undefined node is not
implemented. -/
def get_runtime_snode_name : SNodeType → Except Fatal String
  | .root => .ok "Root"
  | .dense => .ok "Dense"
  | .dynamic => .ok "Dynamic"
  | .pointer => .ok "Pointer"
  | .hash => .ok "Hash"
  | .bitmasked => .ok "Bitmasked"
  | .bit_struct => .ok "BitStruct"
  | .bit_array => .ok "BitArray"
  | _ => .error Fatal.not_implemented

/-- The function `emit_struct_meta_object(snode)`: the name of the meta
structure built for the node; only dense, pointer, root, dynamic and
bitmasked nodes have one, any other kind is not implemented. -/
def emit_struct_meta_object : SNodeType → Except Fatal String
  | .dense => .ok "DenseMeta"
  | .pointer => .ok "PointerMeta"
  | .root => .ok "RootMeta"
  | .dynamic => .ok "DynamicMeta"
  | .bitmasked => .ok "BitmaskedMeta"
  | _ => .error Fatal.not_implemented

/-- The helper `call(snode, node_ptr, method, arguments)`: it takes the name
of the runtime structure, emits the meta structure of the node and calls the
runtime function `<name>_<method>` on the meta structure, the node pointer
and the arguments.  The first two steps stop the lowering for the kinds they
do not implement. -/
def call (snode_type : SNodeType) (node_ptr : Nat) (method : String)
    (arguments : List Nat) : Except Fatal SNodeCall :=
  match get_runtime_snode_name snode_type with
  | .error e => .error e
  | .ok _ =>
    match emit_struct_meta_object snode_type with
    | .error e => .error e
    | .ok _ => .ok ⟨node_ptr, method, arguments⟩

/-- The method `visit(SNodeOpStmt *)`: the call recorded in `llvm_val[stmt]`,
`none` when the method returns without recording anything. -/
def visit_SNodeOpStmt (stmt : SNodeOpStmt) : Except Fatal (Option SNodeCall) :=
  match stmt.op_type with
  | .append =>
    if stmt.snode_type ≠ SNodeType.dynamic then .error Fatal.assertion_failure
    else if !stmt.ret_type.is_primitive .i32 then .error Fatal.assertion_failure
    else (call stmt.snode_type stmt.ptr "append" [stmt.val]).map some
  | .length =>
    if stmt.snode_type ≠ SNodeType.dynamic then .error Fatal.assertion_failure
    else (call stmt.snode_type stmt.ptr "get_num_elements" []).map some
  | .is_active => (call stmt.snode_type stmt.ptr "is_active" [stmt.val]).map some
  | .activate => (call stmt.snode_type stmt.ptr "activate" [stmt.val]).map some
  | .deactivate =>
    if stmt.snode_type = SNodeType.pointer ∨ stmt.snode_type = SNodeType.hash ∨
        stmt.snode_type = SNodeType.bitmasked then
      (call stmt.snode_type stmt.ptr "deactivate" [stmt.val]).map some
    else if stmt.snode_type = SNodeType.dynamic then
      (call stmt.snode_type stmt.ptr "deactivate" []).map some
    else .ok none
  | _ => .error Fatal.not_implemented

/-! ### Control flow -/

/-- The terminators that the lowering of control flow puts at the end of a
basic block. -/
inductive Terminator where
  | br (target : Nat)
  | cond_br (if_true if_false : Nat)
  | ret_void
  deriving DecidableEq, Repr

/-- The part of the state of `CodeGenLLVM` that the lowering of control flow
reads and writes: the two loop targets (`none` is `nullptr`), the basic
blocks created so far (a block is the number of blocks created before it),
the insertion point of the builder, and the terminators emitted, each with
the block it ends. -/
structure CodeGenLLVM where
  current_loop_reentry : Option Nat
  current_while_after_loop : Option Nat
  num_blocks : Nat
  insert_point : Nat
  terminators : List (Nat × Terminator)
  deriving DecidableEq, Repr

/-- The call `BasicBlock::Create(...)`: the new block and the state. -/
def BasicBlock.Create (cg : CodeGenLLVM) : Nat × CodeGenLLVM :=
  (cg.num_blocks, { cg with num_blocks := cg.num_blocks + 1 })

/-- The call `builder->SetInsertPoint(block)`. -/
def SetInsertPoint (block : Nat) (cg : CodeGenLLVM) : CodeGenLLVM :=
  { cg with insert_point := block }

/-- Emission of a terminator at the insertion point (`CreateBr`,
`CreateCondBr`, `CreateRetVoid`). -/
def emit_terminator (t : Terminator) (cg : CodeGenLLVM) : CodeGenLLVM :=
  { cg with terminators := cg.terminators ++ [(cg.insert_point, t)] }

/-- The class `CodeGenStmtGuard`: the value read by the getter at
construction, and the setter that the destructor calls with it. -/
structure CodeGenStmtGuard where
  saved_stmt_ : Option Nat
  setter_ : Option Nat → CodeGenLLVM → CodeGenLLVM

/-- The destructor of `CodeGenStmtGuard`. -/
def CodeGenStmtGuard.destroy (guard : CodeGenStmtGuard) (cg : CodeGenLLVM) : CodeGenLLVM :=
  guard.setter_ guard.saved_stmt_ cg

/-- The function `make_loop_reentry_guard(cg)`. -/
def make_loop_reentry_guard (cg : CodeGenLLVM) : CodeGenStmtGuard :=
  { saved_stmt_ := cg.current_loop_reentry,
    setter_ := fun saved_stmt cg => { cg with current_loop_reentry := saved_stmt } }

/-- The function `make_while_after_loop_guard(cg)`. -/
def make_while_after_loop_guard (cg : CodeGenLLVM) : CodeGenStmtGuard :=
  { saved_stmt_ := cg.current_while_after_loop,
    setter_ := fun saved_stmt cg => { cg with current_while_after_loop := saved_stmt } }

/-- The statements of the IR as far as control flow goes.  A `Block` is
`block_end` (no statement left) or `block_cons stmt rest`; `other` stands for
every statement whose lowering emits straight-line code and touches neither
the loop targets nor the basic blocks. -/
inductive Stmt where
  | other
  | block_end
  | block_cons (stmt rest : Stmt)
  | IfStmt (true_statements false_statements : Stmt)
  | WhileStmt (body : Stmt)
  | RangeForStmt (reversed : Bool) (body : Stmt)
  | WhileControlStmt
  | ContinueStmt (as_return : Bool)
  deriving DecidableEq, Repr

/-- The state in which `visit(WhileStmt *)` lowers the body of the loop: the
body block is created, branched to and made the insertion point and the
reentry target, the block after the loop is created and made the after-loop
target.  The two guards constructed on the way save the targets of the state
`cg` the method was entered with, which nothing has changed until then. -/
def while_body_entry (cg : CodeGenLLVM) : CodeGenLLVM :=
  let (body, cg1) := BasicBlock.Create cg
  let cg2 := emit_terminator (.br body) cg1
  let cg3 := SetInsertPoint body cg2
  let cg4 := { cg3 with current_loop_reentry := some body }
  let (after_loop, cg5) := BasicBlock.Create cg4
  { cg5 with current_while_after_loop := some after_loop }

/-- The end of `visit(WhileStmt *)`, after the body: the branch back to the
head, the insertion point after the loop, and the destructors of the two
guards, in reverse order of construction. -/
def while_exit (cg : CodeGenLLVM) (cg_body : CodeGenLLVM) : CodeGenLLVM :=
  let lrg := make_loop_reentry_guard cg
  let walg := make_while_after_loop_guard cg
  let body := cg.num_blocks
  let after_loop := cg.num_blocks + 1
  let cg1 := emit_terminator (.br body) cg_body
  let cg2 := SetInsertPoint after_loop cg1
  lrg.destroy (walg.destroy cg2)

/-- The state in which `create_naive_range_for` lowers the body of the loop:
the four blocks are created (body, increment, after the loop, test), the
branch to the test and the conditional branch of the test are emitted, the
increment block is the reentry target and the body block the insertion
point. -/
def range_for_body_entry (cg : CodeGenLLVM) : CodeGenLLVM :=
  let (body, cg1) := BasicBlock.Create cg
  let (loop_inc, cg2) := BasicBlock.Create cg1
  let (after_loop, cg3) := BasicBlock.Create cg2
  let (loop_test, cg4) := BasicBlock.Create cg3
  let cg5 := emit_terminator (.br loop_test) cg4
  let cg6 := SetInsertPoint loop_test cg5
  let cg7 := emit_terminator (.cond_br body after_loop) cg6
  let cg8 := { cg7 with current_loop_reentry := some loop_inc }
  SetInsertPoint body cg8

/-- The end of `create_naive_range_for`, after the body: the destructor of
the guard, the branch to the increment block, the branch of the increment
block to the test, and the insertion point after the loop. -/
def range_for_exit (cg : CodeGenLLVM) (cg_body : CodeGenLLVM) : CodeGenLLVM :=
  let lrg := make_loop_reentry_guard cg
  let loop_inc := cg.num_blocks + 1
  let after_loop := cg.num_blocks + 2
  let loop_test := cg.num_blocks + 3
  let cg1 := lrg.destroy cg_body
  let cg2 := emit_terminator (.br loop_inc) cg1
  let cg3 := SetInsertPoint loop_inc cg2
  let cg4 := emit_terminator (.br loop_test) cg3
  SetInsertPoint after_loop cg4

/-- The methods `visit(Block *)`, `visit(IfStmt *)`, `visit(WhileStmt *)`,
`visit(RangeForStmt *)`, `visit(WhileControlStmt *)` and
`visit(ContinueStmt *)`. -/
def visit : Stmt → CodeGenLLVM → Except Fatal CodeGenLLVM
  | .other, cg => .ok cg
  | .block_end, cg => .ok cg
  | .block_cons stmt rest, cg =>
    match visit stmt cg with
    | .error e => .error e
    | .ok cg1 => visit rest cg1
  | .IfStmt true_statements false_statements, cg =>
    let (true_block, cg1) := BasicBlock.Create cg
    let (false_block, cg2) := BasicBlock.Create cg1
    let (after_if, cg3) := BasicBlock.Create cg2
    let cg4 := emit_terminator (.cond_br true_block false_block) cg3
    match visit true_statements (SetInsertPoint true_block cg4) with
    | .error e => .error e
    | .ok cg5 =>
      let cg6 := emit_terminator (.br after_if) cg5
      match visit false_statements (SetInsertPoint false_block cg6) with
      | .error e => .error e
      | .ok cg7 => .ok (SetInsertPoint after_if (emit_terminator (.br after_if) cg7))
  | .WhileStmt body, cg =>
    match visit body (while_body_entry cg) with
    | .error e => .error e
    | .ok cg_body => .ok (while_exit cg cg_body)
  | .RangeForStmt _ body, cg =>
    match visit body (range_for_body_entry cg) with
    | .error e => .error e
    | .ok cg_body => .ok (range_for_exit cg cg_body)
  | .WhileControlStmt, cg =>
    let (after_break, cg1) := BasicBlock.Create cg
    match cg1.current_while_after_loop with
    | none => .error Fatal.assertion_failure
    | some after_loop =>
      .ok (SetInsertPoint after_break (emit_terminator (.cond_br after_loop after_break) cg1))
  | .ContinueStmt as_return, cg =>
    let emitted : Except Fatal CodeGenLLVM :=
      if as_return then .ok (emit_terminator .ret_void cg)
      else
        match cg.current_loop_reentry with
        | none => .error Fatal.assertion_failure
        | some reentry => .ok (emit_terminator (.br reentry) cg)
    match emitted with
    | .error e => .error e
    | .ok cg1 =>
      let (after_continue, cg2) := BasicBlock.Create cg1
      .ok (SetInsertPoint after_continue cg2)

/-! ### The loop emitted for a range-for -/

/-- The basic blocks of the loop emitted by `create_naive_range_for`; `entry`
is the block that holds the initial store. -/
inductive RangeForBlock where
  | entry | loop_test | body | loop_inc | after_loop
  deriving DecidableEq, Repr

/-- How a loop body without `break` or `return` leaves: it reaches its end,
or it executes a `continue`. -/
inductive BodyExit where
  | falls_through | continues
  deriving DecidableEq, Repr

/-- The target `current_loop_reentry` in force while the body of a range-for
is lowered: a `continue` in the body branches there. -/
def range_for_loop_reentry : RangeForBlock :=
  RangeForBlock.loop_inc

/-- A state of the emitted loop: the current block, the content of the `i32`
stack slot `loop_var`, and the values of the loop variable that the body has
run with, in order. -/
structure RangeForState where
  block : RangeForBlock
  loop_var : Nat
  trace : List Nat
  deriving DecidableEq, Repr

/-- One basic block of the loop emitted by `create_naive_range_for`, for the
`i32` values `begin` and `end` of the bounds. -/
def range_for_step (reversed : Bool) (begin_val end_val : Nat) (body_exit : Nat → BodyExit)
    (s : RangeForState) : RangeForState :=
  match s.block with
  | .entry =>
    { s with
      loop_var := if !reversed then begin_val else CreateSub 32 end_val (get_constant 1),
      block := .loop_test }
  | .loop_test =>
    let cond : Bool :=
      if !reversed then decide (toSigned 32 s.loop_var < toSigned 32 end_val)
      else decide (toSigned 32 s.loop_var ≥ toSigned 32 begin_val)
    { s with block := if cond then .body else .after_loop }
  | .body =>
    { s with
      trace := s.trace ++ [s.loop_var],
      block :=
        match body_exit s.loop_var with
        | .falls_through => .loop_inc
        | .continues => range_for_loop_reentry }
  | .loop_inc =>
    { s with
      loop_var :=
        CreateAdd 32 s.loop_var (if !reversed then get_constant 1 else get_constant (-1)),
      block := .loop_test }
  | .after_loop => s

/-- The state in which the emitted loop is entered. -/
def range_for_init : RangeForState :=
  { block := .entry, loop_var := 0, trace := [] }

/-! ### The loop body function of a struct-for -/

/-- The fields of an `SNode` read by `create_offload_struct_for`: its kind,
the number of active indices, their physical positions, the number of
elements of each extractor and the maximum number of elements. -/
structure SNodeInfo where
  type : SNodeType
  num_active_indices : Nat
  physical_index_position : List Nat
  extractors_num_elements : List Nat
  max_num_elements : Nat
  deriving DecidableEq, Repr

/-- The SNode of a struct-for with its parent, if any. -/
structure LeafSNode where
  info : SNodeInfo
  parent : Option SNodeInfo
  deriving DecidableEq, Repr

/-- Modelled from the spec: `bit::is_power_of_two` (declared outside this
file). -/
def is_power_of_two (x : Nat) : Bool :=
  x != 0 && (x &&& (x - 1)) == 0

/-- The node `leaf_block` chosen at the start of `create_offload_struct_for`:
the dense parent of a `bit_array`, the node itself otherwise.  A `bit_array`
whose parent is not dense is an error. -/
def struct_for_leaf_block (leaf : LeafSNode) : Except Fatal SNodeInfo :=
  if leaf.info.type = SNodeType.bit_array then
    match leaf.parent with
    | some parent => if parent.type = SNodeType.dense then .ok parent else .error Fatal.error
    | none => .error Fatal.error
  else .ok leaf.info

/-- The node `snode` that the guard `exec_cond` is computed for. -/
def struct_for_guard_snode (leaf : LeafSNode) : Except Fatal SNodeInfo :=
  match struct_for_leaf_block leaf with
  | .error e => .error e
  | .ok _ =>
    if leaf.info.type = SNodeType.bit_array then
      match leaf.parent with
      | some parent => if parent.type = SNodeType.dense then .ok parent else .error Fatal.error
      | none => .ok leaf.info
    else .ok leaf.info

/-- The value `exec_cond` computed in `loop_body`: the conjunction, over the
active indices whose extractor has a number of elements that is not a power
of two, of the signed test `coordinate < num_elements`, and for a `bitmasked`
or `pointer` node of the lowest bit of `is_active(loop_index)`. -/
def exec_cond (snode : SNodeInfo) (coordinates : Nat → Nat) (is_active : Nat) : Bool :=
  let bounds := (List.range snode.num_active_indices).foldl (fun exec_cond i =>
    let j := snode.physical_index_position.getD i 0
    let num_elements := snode.extractors_num_elements.getD j 0
    if !is_power_of_two num_elements then
      exec_cond && decide (toSigned 32 (coordinates j) < toSigned 32 (get_constant num_elements))
    else exec_cond) true
  if snode.type = SNodeType.bitmasked ∨ snode.type = SNodeType.pointer then
    bounds && decide (is_active % 2 = 1)
  else bounds

/-- The basic blocks of the loop body function; `entry` is the block that
holds the initial store of `loop_index`. -/
inductive StructForBlock where
  | entry | loop_test | loop_body | struct_for_body | body_tail | func_exit
  deriving DecidableEq, Repr

/-- The arguments and the runtime of one call of the loop body function: the
bounds (`i32`), the thread index and block dimension read on an SPMD target,
the coordinates that `refine_coordinates` computes for a loop index, and the
result of the `is_active` method for a loop index. -/
structure StructForCall where
  lower_bound : Nat
  upper_bound : Nat
  thread_idx : Nat
  block_dim : Nat
  refine_coordinates : Nat → Nat → Nat
  is_active : Nat → Nat

/-- A state of the loop body function: the current block, the content of the
`i32` stack slot `loop_index`, the loop indices that passed the loop test and
the loop indices that the user body has run with, both in order. -/
structure StructForState where
  block : StructForBlock
  loop_index : Nat
  tested : List Nat
  visited : List Nat
  deriving DecidableEq, Repr

/-- One basic block of the loop body function emitted by
`create_offload_struct_for`, for a user body that does not return early. -/
def struct_for_step (spmd : Bool) (snode : SNodeInfo) (call : StructForCall)
    (s : StructForState) : StructForState :=
  match s.block with
  | .entry =>
    { s with
      loop_index :=
        if spmd then CreateAdd 32 call.thread_idx call.lower_bound else call.lower_bound,
      block := .loop_test }
  | .loop_test =>
    let cond := decide (toSigned 32 s.loop_index < toSigned 32 call.upper_bound)
    { s with block := if cond then .loop_body else .func_exit }
  | .loop_body =>
    let cond := exec_cond snode (call.refine_coordinates s.loop_index)
      (call.is_active s.loop_index)
    { s with
      tested := s.tested ++ [s.loop_index],
      block := if cond then .struct_for_body else .body_tail }
  | .struct_for_body =>
    { s with visited := s.visited ++ [s.loop_index], block := .body_tail }
  | .body_tail =>
    { s with
      loop_index :=
        CreateAdd 32 s.loop_index (if spmd then call.block_dim else get_constant 1),
      block := .loop_test }
  | .func_exit => s

/-- The state in which the loop body function is entered. -/
def struct_for_init : StructForState :=
  { block := .entry, loop_index := 0, tested := [], visited := [] }

/-! ### SNode lookups, assertions and the launch of a struct-for -/

/-- The fields of an `SNodeLookupStmt` read by the lowering: the kind of the
SNode, the element width of a `bit_array`, the lowered parent (`none` for a
null `llvm_val[stmt->input_snode]`), the lowered index (`i32`) and the flag
`activate`. -/
structure SNodeLookupStmt where
  snode_type : SNodeType
  element_num_bits : Int
  input_snode : Option Nat
  input_index : Nat
  activate : Bool
  deriving DecidableEq

/-- The value that `visit(SNodeLookupStmt *)` records in `llvm_val[stmt]`: a
`getelementptr` on the parent, the result of a call, the parent itself, or a
bit pointer struct. -/
inductive LookupValue where
  | gep (parent index : Nat)
  | call_result (call : SNodeCall)
  | parent (address : Nat)
  | bit_ptr (ptr : BitPtrStruct)
  deriving DecidableEq

/-- Instruction `mul` on `iW`. -/
def CreateMul (w a b : Nat) : Nat :=
  a * b % 2 ^ w

/-- Conversion of a C++ integer to `int`: the value modulo `2 ^ 32`, read as
signed. -/
def to_int (v : Int) : Int :=
  toSigned 32 (ofInt 32 v)

/-- The method `visit(SNodeLookupStmt *)`: the calls emitted, in order (the
last one is the call whose result is recorded, if the value is a call
result), and the value recorded in `llvm_val[stmt]`. -/
def visit_SNodeLookupStmt (stmt : SNodeLookupStmt) :
    Except Fatal (List SNodeCall × LookupValue) :=
  match stmt.input_snode with
  | none => .error Fatal.assertion_failure
  | some parent =>
    if stmt.snode_type = SNodeType.root then
      .ok ([], .gep parent stmt.input_index)
    else if stmt.snode_type = SNodeType.dense ∨ stmt.snode_type = SNodeType.pointer ∨
        stmt.snode_type = SNodeType.dynamic ∨ stmt.snode_type = SNodeType.bitmasked then
      let activation : List SNodeCall :=
        if stmt.activate then [⟨parent, "activate", [stmt.input_index]⟩] else []
      let lookup : SNodeCall := ⟨parent, "lookup_element", [stmt.input_index]⟩
      .ok (activation ++ [lookup], .call_result lookup)
    else if stmt.snode_type = SNodeType.bit_struct then
      .ok ([], .parent parent)
    else if stmt.snode_type = SNodeType.bit_array then
      let offset := get_constant stmt.element_num_bits
      let offset := CreateMul 32 offset stmt.input_index
      .ok ([], .bit_ptr (create_bit_ptr_struct (some parent) (some offset)))
    else .error Fatal.not_implemented

/-- The fields of an `AssertStmt` read by the lowering: the condition (by
the id of its statement), the message text, and for each argument its
lowered value (`none` for a null `llvm_val[arg]`; otherwise the bit width of
the value and its pattern) and its type. -/
structure AssertStmt where
  cond : Nat
  text : String
  args : List (Option (Nat × Nat) × TiType)

/-- What `visit(AssertStmt *)` emits: the number of `i64` elements of the
argument buffer it allocates, the stores into the buffer (element index and
value stored), in order, and the arguments of the call of
`taichi_assert_format` after the runtime: the condition, the text, the
argument count (`i32`) and the index of the buffer element the last argument
points to. -/
structure AssertEmitted where
  buffer_size : Nat
  stores : List (Nat × Nat)
  call_cond : Nat
  call_text : String
  call_num_args : Nat
  call_buffer_index : Nat
  deriving DecidableEq

/-- The body of the loop of `visit(AssertStmt *)` for the argument `arg` at
index `i`: bit cast to the integer type of `8 * data_type_size` bits, zero
extension to `i64`.  The result is `none` inside when an instruction is
ill-typed. -/
def assert_argument (arg : Option (Nat × Nat) × TiType) : Except Fatal (Option Nat) :=
  match arg.1 with
  | none => .error Fatal.assertion_failure
  | some (width, bits) =>
    match arg.2.data_type_size with
    | .error e => .error e
    | .ok size =>
      .ok ((CreateBitCast width (8 * size) bits).bind (fun cast_int =>
        CreateZExt (8 * size) 64 cast_int))

/-- The loop of `visit(AssertStmt *)` over the arguments from index `i` on. -/
def assert_arguments : List (Option (Nat × Nat) × TiType) → Nat →
    Except Fatal (Option (List (Nat × Nat)))
  | [], _ => .ok (some [])
  | arg :: args, i =>
    match assert_argument arg with
    | .error e => .error e
    | .ok cast_int64 =>
      match assert_arguments args (i + 1) with
      | .error e => .error e
      | .ok rest =>
        .ok (cast_int64.bind (fun v => rest.map (fun r => (i, v) :: r)))

/-- The method `visit(AssertStmt *)`;
`taichi_error_message_max_num_arguments` is a constant declared outside this
file. -/
def visit_AssertStmt (taichi_error_message_max_num_arguments : Int) (stmt : AssertStmt) :
    Except Fatal (Option AssertEmitted) :=
  if ¬ (to_int (stmt.args.length : Int) ≤ taichi_error_message_max_num_arguments) then
    .error Fatal.assertion_failure
  else
    match assert_arguments stmt.args 0 with
    | .error e => .error e
    | .ok stores =>
      .ok (stores.map (fun stores =>
        { buffer_size := stmt.args.length, stores := stores, call_cond := stmt.cond,
          call_text := stmt.text, call_num_args := get_constant (stmt.args.length : Int),
          call_buffer_index := 0 }))

/-- The call of `parallel_struct_for` emitted at the end of
`create_offload_struct_for`, after the context: the id of the leaf block, the
element list capacity, the number of splits, the size of the thread local
storage and the number of CPU threads, all `i32` constants. -/
structure ParallelStructForCall where
  leaf_block_id : Nat
  list_element_size : Nat
  num_splits : Nat
  tls_size : Nat
  num_cpu_threads : Nat
  deriving DecidableEq, Repr

/-- Division of C++ `int`s: truncated; undefined (`none`) for a zero divisor
and for the overflowing quotient. -/
def int_div (a b : Int) : Option Int :=
  if b = 0 ∨ (a = -2147483648 ∧ b = -1) then none else some (Int.tdiv a b)

/-- The values `list_element_size` and `num_splits` of
`create_offload_struct_for`, for the `int64` value of
`leaf_block->max_num_elements()` and the `int` value `stmt->block_dim`;
`taichi_listgen_max_element_size` is a constant declared outside this file. -/
def struct_for_splits (taichi_listgen_max_element_size max_num_elements block_dim : Int) :
    Option (Int × Int) :=
  let list_element_size := to_int (min max_num_elements taichi_listgen_max_element_size)
  (int_div list_element_size block_dim).map (fun q =>
    (list_element_size, max 1 q))

/-- The end of `create_offload_struct_for`: on a GPU the runtime function is
cloned and patched, which must replace exactly one allocation
(`replaced_alloca_types`, a property of the runtime module); then the call of
`parallel_struct_for` is emitted.  The result is `none` inside when the C++
division is undefined. -/
def struct_for_launch (taichi_listgen_max_element_size : Int) (arch_is_gpu : Bool)
    (replaced_alloca_types : Nat) (leaf_block_id max_num_elements block_dim tls_size
      num_cpu_threads : Int) : Except Fatal (Option ParallelStructForCall) :=
  match struct_for_splits taichi_listgen_max_element_size max_num_elements block_dim with
  | none => .ok none
  | some (list_element_size, num_splits) =>
    if arch_is_gpu ∧ replaced_alloca_types ≠ 1 then .error Fatal.assertion_failure
    else
      .ok (some
        { leaf_block_id := get_constant leaf_block_id,
          list_element_size := get_constant list_element_size,
          num_splits := get_constant num_splits,
          tls_size := get_constant tls_size,
          num_cpu_threads := get_constant num_cpu_threads })

/-! ### Conditions -/

/-- The comparison instructions `icmp`, by the name of the builder method,
on `iW` patterns. -/
def CreateICmp (pred : String) (w a b : Nat) : Option Bool :=
  if pred = "ICmpEQ" then some (decide (a = b))
  else if pred = "ICmpNE" then some (decide (a ≠ b))
  else if pred = "ICmpSLT" then some (decide (toSigned w a < toSigned w b))
  else if pred = "ICmpSLE" then some (decide (toSigned w a ≤ toSigned w b))
  else if pred = "ICmpSGT" then some (decide (toSigned w a > toSigned w b))
  else if pred = "ICmpSGE" then some (decide (toSigned w a ≥ toSigned w b))
  else if pred = "ICmpULT" then some (decide (a < b))
  else if pred = "ICmpULE" then some (decide (a ≤ b))
  else if pred = "ICmpUGT" then some (decide (a > b))
  else if pred = "ICmpUGE" then some (decide (a ≥ b))
  else none

/-- The value of `CreateSExt(cmp, i32)` for the `i1` result `cmp` of a
comparison. -/
def sext_cmp (cmp : Bool) : Option Nat :=
  CreateSExt 1 32 (if cmp then 1 else 0)

/-- The branch condition of `visit(IfStmt *)`:
`CreateICmpNE(llvm_val[cond], get_constant(0))`; the true block is taken
when it holds. -/
def if_stmt_condition (cond : Nat) : Option Bool :=
  CreateICmp "ICmpNE" 32 cond (get_constant 0)

/-- The condition of the `select` of `visit(TernaryOpStmt *)`:
`CreateTrunc(llvm_val[op1], u1)`; the second operand is selected when it is
1. -/
def select_condition (op1 : Nat) : Option Bool :=
  (CreateTrunc 32 1 op1).map (fun t => decide (t = 1))

/-! ### Floating-point comparisons -/

/-- The value of an IEEE binary floating-point pattern: not a number, an
infinity with its sign, or a finite rational (both zeros are the rational
0). -/
inductive FloatValue where
  | nan
  | infinity (negative : Bool)
  | finite (q : ℚ)
  deriving DecidableEq

/-- The value of the pattern `b` of a binary float with `ebits` exponent bits
and `mbits` fraction bits: sign in the top bit, then the biased exponent, then
the fraction; an exponent of all ones is an infinity (fraction zero) or not a
number, an exponent of zero a subnormal. -/
def float_value (ebits mbits b : Nat) : FloatValue :=
  let frac := b % 2 ^ mbits
  let e := b / 2 ^ mbits % 2 ^ ebits
  let negative := decide (b / 2 ^ (mbits + ebits) % 2 = 1)
  let bias : Int := 2 ^ (ebits - 1) - 1
  if e = 2 ^ ebits - 1 then
    if frac = 0 then .infinity negative else .nan
  else
    let magnitude : ℚ :=
      if e = 0 then (frac : ℚ) * 2 ^ (1 - bias - (mbits : Int))
      else (2 ^ mbits + (frac : ℚ)) * 2 ^ ((e : Int) - bias - (mbits : Int))
    .finite (if negative then -magnitude else magnitude)

/-- The value of a pattern of the type `f32` or `f64`. -/
def real_value (t : PrimitiveTypeID) (b : Nat) : FloatValue :=
  match t with
  | .f64 => float_value 11 52 b
  | _ => float_value 8 23 b

/-- The order of two floating-point values neither of which is not a
number. -/
def FloatValue.lt : FloatValue → FloatValue → Bool
  | .finite a, .finite b => decide (a < b)
  | .infinity true, .finite _ => true
  | .infinity true, .infinity false => true
  | .finite _, .infinity false => true
  | _, _ => false

/-- The equality of two floating-point values as numbers; nothing equals not a
number. -/
def FloatValue.eq : FloatValue → FloatValue → Bool
  | .finite a, .finite b => decide (a = b)
  | .infinity s, .infinity t => decide (s = t)
  | _, _ => false

/-- Neither value is not a number. -/
def FloatValue.ordered (x y : FloatValue) : Bool :=
  decide (x ≠ .nan) && decide (y ≠ .nan)

/-- The ordered comparison instructions `fcmp`, by the name of the builder
method: each yields true when neither operand is not a number and the
relation holds. -/
def CreateFCmp (pred : String) (x y : FloatValue) : Option Bool :=
  if pred = "FCmpOEQ" then some (x.ordered y && x.eq y)
  else if pred = "FCmpONE" then some (x.ordered y && !(x.eq y))
  else if pred = "FCmpOLT" then some (x.ordered y && x.lt y)
  else if pred = "FCmpOLE" then some (x.ordered y && (x.lt y || x.eq y))
  else if pred = "FCmpOGT" then some (x.ordered y && y.lt x)
  else if pred = "FCmpOGE" then some (x.ordered y && (y.lt x || x.eq y))
  else none

/-! ## Reference readings used to state the properties -/

/-- Bits `o .. o+n-1` of `w`, as a number below `2 ^ n`. -/
def bit_field (w o n : Nat) : Nat :=
  w / 2 ^ o % 2 ^ n

/-- The integer formed by bits `o .. o+n-1` of `w`: sign-extended from bit
`o+n-1` when signed, zero-extended otherwise. -/
def bit_field_value (w o n : Nat) (is_signed : Bool) : Int :=
  readInt n is_signed (bit_field w o n)

/-- The number of bits a child occupies in the word. -/
def SNode.num_bits (ch : SNode) : Nat :=
  match ch.dt with
  | .customInt cit => cit.num_bits
  | .customFloat cft => cft.digits_type.num_bits

/-- The bit ranges `[o, o + n)` of two children do not overlap. -/
def disjoint_ranges (a b : SNode) : Prop :=
  a.bit_offset + a.num_bits ≤ b.bit_offset ∨ b.bit_offset + b.num_bits ≤ a.bit_offset

/-- A child of a `bit_struct` of physical type `pt` that is a custom integer
of 1..64 bits: its bit range lies inside the word, its physical type is as
wide as the word, and its compute type is no wider than the word (so that
the `zext` of `custom_type_to_bits` is well typed). -/
def int_child (pt : PrimitiveTypeID) (ch : SNode) : Prop :=
  match ch.dt with
  | .customInt cit =>
    1 ≤ cit.num_bits ∧ cit.num_bits ≤ 64 ∧
    ch.bit_offset + cit.num_bits ≤ data_type_bits pt ∧
    data_type_bits cit.physical_type = data_type_bits pt ∧
    data_type_bits cit.compute_type ≤ data_type_bits pt ∧
    ch.owns_shared_exponent = false
  | .customFloat _ => False

/-- A lowered value of the compute type of `cit` that is representable in
`num_bits` bits with the signedness of `cit`. -/
def representable (cit : CustomIntType) (v : Val) : Prop :=
  match v with
  | .int w x =>
    w = data_type_bits cit.compute_type ∧ x < 2 ^ w ∧
    (if cit.is_signed then
      -(2 : Int) ^ (cit.num_bits - 1) ≤ toSigned w x ∧ toSigned w x < 2 ^ (cit.num_bits - 1)
    else x < 2 ^ cit.num_bits)
  | _ => False

/-- The value `v` listed for the child `ch_id` is a representable value of
that child, a custom integer. -/
def stored_int (snode : BitStructSNode) (ch_id : Nat) (v : Val) : Prop :=
  match snode.ch[ch_id]? with
  | some ch =>
    match ch.dt with
    | .customInt cit => representable cit v
    | .customFloat _ => False
  | none => False

/-- A `bit_struct` of physical type `i32` with a signed 5-bit child at bit 0
and an unsigned 7-bit child at bit 5. -/
def example_int_snode : BitStructSNode :=
  ⟨.i32, [⟨.customInt ⟨5, true, .i32, .i32⟩, 0, false, [], none⟩,
    ⟨.customInt ⟨7, false, .u32, .i32⟩, 5, false, [], none⟩]⟩

/-- A store of `100` to the second child and `-3` to the first child of
`example_int_snode`. -/
def example_int_store : BitStructStoreStmt :=
  ⟨example_int_snode, [1, 0], [.int 32 100, .int 32 4294967293]⟩

/-- The raw 8-bit exponent of an `f32` bit pattern: bits 23..30. -/
def raw_exponent (f : Nat) : Nat :=
  bit_field f 23 8

/-- The maximum of the raw exponents of the members of a group. -/
def max_raw_exponent (floats : List Nat) : Nat :=
  (floats.map raw_exponent).foldr max 0

/-- A user of a shared exponent: a child that is a custom float with 1..23
digit bits. -/
def shared_digits_child (snode : BitStructSNode) (user : Nat) : Prop :=
  match snode.ch[user]? with
  | some ch =>
    match ch.dt with
    | .customFloat cft => 1 ≤ cft.digit_bits ∧ cft.digit_bits ≤ 23
    | .customInt _ => False
  | none => False

/-- A custom float of 4 digit bits (plus a sign bit when `sg`) with a shared
exponent of `ebits` bits and conversion offset `c`. -/
def example_shared_cft (sg : Bool) (ebits : Nat) (c : Int) : CustomFloatType :=
  ⟨⟨if sg then 5 else 4, sg, .i32, .i32⟩, some ⟨ebits, false, .i32, .i32⟩, .f32, 1, 4, c⟩

/-- A `bit_struct` with one exponent child shared by three float children of
type `example_shared_cft`. -/
def example_shared_snode (sg : Bool) (ebits : Nat) (c : Int) : BitStructSNode :=
  ⟨.i32,
    [⟨.customInt ⟨ebits, false, .i32, .i32⟩, 0, false, [1, 2, 3], none⟩,
     ⟨.customFloat (example_shared_cft sg ebits c), ebits, true, [], some 0⟩,
     ⟨.customFloat (example_shared_cft sg ebits c), ebits + 5, true, [], some 0⟩,
     ⟨.customFloat (example_shared_cft sg ebits c), ebits + 10, true, [], some 0⟩]⟩

/-- The store of `2.0`, `0.5` and `0.0` to the three float children of
`example_shared_snode`. -/
def example_shared_store (sg : Bool) (ebits : Nat) (c : Int) : BitStructStoreStmt :=
  ⟨example_shared_snode sg ebits c, [1, 2, 3],
    [.f32 0x40000000, .f32 0x3F000000, .f32 0]⟩

/-- The value of a finite `f32` bit pattern as an exact rational: sign bit 31,
exponent bits 23..30, fraction bits 0..22; a pattern with exponent field zero
is read as a subnormal. -/
def f32_to_rat (b : Nat) : ℚ :=
  let m : ℚ := (b % 2 ^ 23 : Nat)
  let e : Int := (bit_field b 23 8 : Nat)
  (if bit_field b 31 1 = 1 then -1 else 1) *
    (if bit_field b 23 8 = 0 then m * 2 ^ (-149 : Int) else (2 ^ 23 + m) * 2 ^ (e - 150))

/-- An integer representable in `n` bits with the given signedness. -/
def int_representable (n : Nat) (is_signed : Bool) (i : Int) : Prop :=
  if is_signed then -(2 : Int) ^ (n - 1) ≤ i ∧ i < 2 ^ (n - 1) else 0 ≤ i ∧ i < 2 ^ n

/-- The tasks registered by `begin(name); end()` for each name in turn,
starting from an empty list. -/
def register_tasks (names : List String) : List OffloadedTask :=
  names.foldl (fun tasks name => (OffloadedTask.new.begin name).end_ tasks) []

/-- The helper that `pow` is lowered to, by architecture and result type;
`none` where no helper exists. -/
def pow_helper (arch : Arch) (t : TiType) : Option String :=
  match arch, t with
  | .cuda, .primitive .f32 => some "__nv_powf"
  | .cuda, .primitive .f64 => some "__nv_pow"
  | .cuda, .primitive .i32 => some "pow_i32"
  | .cuda, .primitive .i64 => some "pow_i64"
  | .metal, _ => none
  | .opengl, _ => none
  | _, .primitive .f32 => some "pow_f32"
  | _, .primitive .f64 => some "pow_f64"
  | _, .primitive .i32 => some "pow_i32"
  | _, .primitive .i64 => some "pow_i64"
  | _, _ => none

/-- The result types `pow` is lowered for. -/
def pow_type (t : TiType) : Prop :=
  t = .primitive .f32 ∨ t = .primitive .f64 ∨ t = .primitive .i32 ∨ t = .primitive .i64

/-- A `cast_bits` of a 64-bit integer operand to `f32`. -/
def cast_bits_i64_to_f32 : UnaryOpStmt :=
  { op_type := .cast_bits, operand := 0, operand_ret_type := .primitive .i64,
    ret_type := .primitive .f32, cast_type := .primitive .f32 }

/-- The integer types: the primitive integer types and the custom integer
types. -/
def is_integer_type : TiType → Prop
  | .custom (.customInt _) => True
  | t => is_integral t = true

/-- The bit width of the lowered value of an integer type: a custom integer
is held in its compute type. -/
def value_bits : TiType → Nat
  | .primitive id => data_type_bits id
  | .custom (.customInt cit) => data_type_bits cit.compute_type
  | .custom (.customFloat cft) => data_type_bits cft.compute_type

/-- A `deactivate` on a `dense` SNode. -/
def deactivate_dense : SNodeOpStmt :=
  { op_type := .deactivate, snode_type := .dense, ret_type := .primitive .i32,
    ptr := 0, val := 1 }

/-- A while loop whose body is a range-for with a `continue` in its body,
followed by a `continue` and a `break` of the while loop. -/
def example_nested_loops : Stmt :=
  .WhileStmt
    (.block_cons (.RangeForStmt false (.block_cons (.ContinueStmt false) .block_end))
      (.block_cons (.ContinueStmt false) (.block_cons .WhileControlStmt .block_end)))

/-- The state of the engine at the start of a task: no loop targets, one
block, which is the insertion point. -/
def example_engine : CodeGenLLVM :=
  { current_loop_reentry := none, current_while_after_loop := none, num_blocks := 1,
    insert_point := 0, terminators := [] }

/-- The guard of the loop body function for a loop index: `exec_cond` on the
coordinates and the activity that the runtime reports for it. -/
def struct_for_guard (snode : SNodeInfo) (call : StructForCall) (loop_index : Nat) : Bool :=
  exec_cond snode (call.refine_coordinates loop_index) (call.is_active loop_index)

/-- A `bitmasked` leaf of 8 elements along one axis. -/
def example_bitmasked_leaf : LeafSNode :=
  { info := { type := .bitmasked, num_active_indices := 1, physical_index_position := [0],
              extractors_num_elements := [8], max_num_elements := 8 },
    parent := none }

/-- A call of the loop body function over `[0, 8)` where exactly the elements
0, 2 and 5 are active. -/
def example_bitmasked_call : StructForCall :=
  { lower_bound := 0, upper_bound := 8, thread_idx := 0, block_dim := 1,
    refine_coordinates := fun loop_index _ => loop_index,
    is_active := fun loop_index =>
      if loop_index = 0 ∨ loop_index = 2 ∨ loop_index = 5 then 1 else 0 }

/-- The truth of a comparison operator on two integers. -/
def comparison_holds (op : BinaryOpType) (x y : Int) : Bool :=
  match op with
  | .cmp_lt => decide (x < y)
  | .cmp_le => decide (x ≤ y)
  | .cmp_gt => decide (x > y)
  | .cmp_ge => decide (x ≥ y)
  | .cmp_eq => decide (x = y)
  | .cmp_ne => decide (x ≠ y)
  | _ => false

/-- A `bit_struct` with an exponent child (5 bits, at bit 0) shared by one
float child (4 digit bits, at bit 5) that owns it, and a plain unsigned 8-bit
custom integer child at bit 16. -/
def example_mixed_snode : BitStructSNode :=
  ⟨.i32,
    [⟨.customInt ⟨5, false, .i32, .i32⟩, 0, false, [1], none⟩,
     ⟨.customFloat (example_shared_cft false 5 120), 5, true, [], some 0⟩,
     ⟨.customInt ⟨8, false, .i32, .i32⟩, 16, false, [], none⟩]⟩

/-- The store of `2.0` to the float child and of `100` to the integer child
of `example_mixed_snode`. -/
def example_mixed_store : BitStructStoreStmt :=
  ⟨example_mixed_snode, [1, 2], [.f32 0x40000000, .int 32 100]⟩

/-- The truth of a comparison operator on two floating-point values, as IEEE
754 defines it: a comparison with not a number is false, except `!=`, which is
true. -/
def float_comparison_holds (op : BinaryOpType) (x y : FloatValue) : Bool :=
  match op with
  | .cmp_lt => x.lt y
  | .cmp_le => x.lt y || x.eq y
  | .cmp_gt => y.lt x
  | .cmp_ge => y.lt x || x.eq y
  | .cmp_eq => x.eq y
  | .cmp_ne => !(x.eq y)
  | _ => false

/-- The quiet not-a-number pattern of `f32`. -/
def f32_quiet_nan : Nat := 0x7FC00000

/-- The comparison `x != y` of two `f32` operands. -/
def example_float_ne : BinaryOpStmt :=
  ⟨.cmp_ne, .primitive .i32, 1, 2, .primitive .f32⟩

/-! ## Arithmetic of patterns -/

theorem data_type_bits_le (t : PrimitiveTypeID) : data_type_bits t ≤ 64 := by
  cases t <;> decide

theorem data_type_bits_pos (t : PrimitiveTypeID) : 8 ≤ data_type_bits t := by
  cases t <;> decide

theorem ofInt_natCast (w n : Nat) : ofInt w (n : Int) = n % 2 ^ w := by
  unfold ofInt
  have h : ((n : Int) % 2 ^ w) = ((n % 2 ^ w : Nat) : Int) := by
    push_cast
    rfl
  rw [h, Int.toNat_natCast]

theorem ofInt_lt (w : Nat) (i : Int) : ofInt w i < 2 ^ w := by
  unfold ofInt
  have hpos : (0 : Int) < 2 ^ w := by positivity
  have h1 := Int.emod_nonneg i (ne_of_gt hpos)
  have h2 := Int.emod_lt_of_pos i hpos
  zify
  rw [Int.toNat_of_nonneg h1]
  exact_mod_cast h2

theorem get_constant_natCast (n : Nat) (h : n < 2 ^ 32) : get_constant (n : Int) = n := by
  unfold get_constant
  rw [ofInt_natCast, Nat.mod_eq_of_lt h]

theorem CreateSub_eq (w a b : Nat) (hb : b ≤ a) (ha : a < 2 ^ w) :
    CreateSub w a b = a - b := by
  unfold CreateSub
  have hb2 : b % 2 ^ w = b := Nat.mod_eq_of_lt (lt_of_le_of_lt hb ha)
  rw [hb2]
  have : a + 2 ^ w - b = (a - b) + 2 ^ w := by omega
  rw [this, Nat.add_mod_right, Nat.mod_eq_of_lt]
  omega

theorem CreateAdd_eq (w a b : Nat) (h : a + b < 2 ^ w) : CreateAdd w a b = a + b := by
  unfold CreateAdd
  exact Nat.mod_eq_of_lt h

/-! ## The two-shift extraction -/

theorem bit_field_lt (w o n : Nat) : bit_field w o n < 2 ^ n :=
  Nat.mod_lt _ (by positivity)

/-- A word shifted left by `L` inside `L + o + n` bits: the field lands on top
of the low bits. -/
theorem shl_decompose (w L o n : Nat) :
    w * 2 ^ L % 2 ^ (L + o + n) =
      2 ^ (L + o) * bit_field w o n + 2 ^ L * (w % 2 ^ o) := by
  have h1 : (2 : Nat) ^ (L + o + n) = 2 ^ (o + n) * 2 ^ L := by ring
  rw [h1, Nat.mul_mod_mul_right, pow_add 2 o n, Nat.mod_mul]
  unfold bit_field
  ring

theorem low_part_lt (w L o : Nat) : 2 ^ L * (w % 2 ^ o) < 2 ^ (L + o) := by
  rw [pow_add]
  exact Nat.mul_lt_mul_of_pos_left (Nat.mod_lt _ (by positivity)) (by positivity)

theorem lshr_shl_eq (w L o n : Nat) :
    w * 2 ^ L % 2 ^ (L + o + n) / 2 ^ (L + o) = bit_field w o n := by
  rw [shl_decompose, Nat.mul_add_div (by positivity), Nat.div_eq_of_lt (low_part_lt w L o)]
  simp

theorem toSigned_shl_ediv (w L o n : Nat) (hn : 1 ≤ n) :
    toSigned (L + o + n) (w * 2 ^ L % 2 ^ (L + o + n)) / 2 ^ (L + o) =
      toSigned n (bit_field w o n) := by
  rw [shl_decompose]
  have hlow := low_part_lt w L o
  have hf := bit_field_lt w o n
  generalize bit_field w o n = f at hf ⊢
  generalize 2 ^ L * (w % 2 ^ o) = low at hlow ⊢
  have hR : (0 : Nat) < 2 ^ (L + o) := by positivity
  have hsplit : (2 : Nat) ^ (L + o + n - 1) = 2 ^ (L + o) * 2 ^ (n - 1) := by
    rw [← pow_add]
    congr 1
    omega
  have hsplit2 : (2 : Int) ^ (L + o + n) = 2 ^ (L + o) * 2 ^ n := by
    rw [← pow_add]
  have hdiv : ((low : Int)) / 2 ^ (L + o) = 0 := by
    apply Int.ediv_eq_zero_of_lt (by positivity)
    exact_mod_cast hlow
  unfold toSigned
  by_cases hs : f < 2 ^ (n - 1)
  · have h1 : 2 ^ (L + o) * f + low < 2 ^ (L + o + n - 1) := by
      rw [hsplit]
      calc 2 ^ (L + o) * f + low < 2 ^ (L + o) * f + 2 ^ (L + o) := by omega
        _ = 2 ^ (L + o) * (f + 1) := by ring
        _ ≤ 2 ^ (L + o) * 2 ^ (n - 1) := Nat.mul_le_mul_left _ hs
    rw [if_pos h1, if_pos hs]
    push_cast
    rw [Int.add_comm, Int.add_mul_ediv_left _ _ (by positivity), hdiv]
    simp
  · have h1 : ¬ 2 ^ (L + o) * f + low < 2 ^ (L + o + n - 1) := by
      rw [hsplit]
      have : 2 ^ (L + o) * 2 ^ (n - 1) ≤ 2 ^ (L + o) * f :=
        Nat.mul_le_mul_left _ (Nat.le_of_not_lt hs)
      omega
    rw [if_neg h1, if_neg hs, hsplit2]
    push_cast
    have : (2 : Int) ^ (L + o) * f + low - 2 ^ (L + o) * 2 ^ n =
        low + 2 ^ (L + o) * ((f : Int) - 2 ^ n) := by ring
    rw [this, Int.add_mul_ediv_left _ _ (by positivity), hdiv]
    simp

theorem toSigned_lower (n f : Nat) (hn : 1 ≤ n) (_hf : f < 2 ^ n) :
    -(2 : Int) ^ (n - 1) ≤ toSigned n f := by
  have h2 : (2 : Int) ^ n = 2 * 2 ^ (n - 1) := by
    rw [← pow_succ']
    congr 1
    omega
  unfold toSigned
  split_ifs with h
  · have : (0 : Int) ≤ 2 ^ (n - 1) := by positivity
    omega
  · have h' : (2 : Int) ^ (n - 1) ≤ f := by exact_mod_cast Nat.le_of_not_lt h
    omega

theorem toSigned_upper (n f : Nat) (_hn : 1 ≤ n) (hf : f < 2 ^ n) :
    toSigned n f < 2 ^ (n - 1) := by
  unfold toSigned
  split_ifs with h
  · exact_mod_cast h
  · have h' : (f : Int) < 2 ^ n := by exact_mod_cast hf
    have : (0 : Int) < 2 ^ (n - 1) := by positivity
    omega

theorem ofInt_toSigned (w x : Nat) (hx : x < 2 ^ w) : ofInt w (toSigned w x) = x := by
  unfold toSigned
  split_ifs with h
  · rw [ofInt_natCast, Nat.mod_eq_of_lt hx]
  · unfold ofInt
    have : ((x : Int) - 2 ^ w) % 2 ^ w = (x : Int) := by
      rw [Int.sub_emod, Int.emod_self, sub_zero, Int.emod_emod_of_dvd _ (dvd_refl _)]
      exact Int.emod_eq_of_lt (by positivity) (by exact_mod_cast hx)
    rw [this, Int.toNat_natCast]

theorem toSigned_ofInt (w : Nat) (i : Int) (hw : 1 ≤ w)
    (hlo : -(2 : Int) ^ (w - 1) ≤ i) (hhi : i < 2 ^ (w - 1)) :
    toSigned w (ofInt w i) = i := by
  have h2 : (2 : Int) ^ w = 2 * 2 ^ (w - 1) := by
    rw [← pow_succ']
    congr 1
    omega
  have hpos : (0 : Int) < 2 ^ (w - 1) := by positivity
  unfold toSigned ofInt
  by_cases hi : 0 ≤ i
  · have hm : i % 2 ^ w = i := Int.emod_eq_of_lt hi (by omega)
    rw [hm]
    have hlt : i.toNat < 2 ^ (w - 1) := by
      zify
      rw [Int.toNat_of_nonneg hi]
      exact hhi
    rw [if_pos hlt, Int.toNat_of_nonneg hi]
  · have hm : i % 2 ^ w = i + 2 ^ w := by
      rw [← Int.add_emod_self]
      exact Int.emod_eq_of_lt (by omega) (by omega)
    rw [hm]
    have hnn : 0 ≤ i + 2 ^ w := by omega
    have hge : ¬ (i + 2 ^ w).toNat < 2 ^ (w - 1) := by
      zify
      rw [Int.toNat_of_nonneg hnn]
      omega
    rw [if_neg hge, Int.toNat_of_nonneg hnn]
    ring

theorem ofInt_mod_pow (P C : Nat) (i : Int) (h : C ≤ P) :
    ofInt P i % 2 ^ C = ofInt C i := by
  unfold ofInt
  have hP : (0 : Int) < 2 ^ P := by positivity
  have hC : (0 : Int) < 2 ^ C := by positivity
  zify
  rw [Int.toNat_of_nonneg (Int.emod_nonneg _ (ne_of_gt hP)),
    Int.toNat_of_nonneg (Int.emod_nonneg _ (ne_of_gt hC))]
  exact Int.emod_emod_of_dvd _ (pow_dvd_pow 2 h)

/-- Reading a pattern of `n` bits in a type of at least `n` bits. -/
theorem readInt_ofInt_readInt (n C f : Nat) (sg : Bool) (hn : 1 ≤ n) (hnC : n ≤ C)
    (hf : f < 2 ^ n) : readInt C sg (ofInt C (readInt n sg f)) = readInt n sg f := by
  have hmono : (2 : Int) ^ (n - 1) ≤ 2 ^ (C - 1) :=
    pow_le_pow_right₀ (by norm_num) (by omega)
  cases sg
  · simp only [readInt, Bool.false_eq_true, if_false]
    rw [ofInt_natCast, Nat.mod_eq_of_lt]
    exact lt_of_lt_of_le hf (Nat.pow_le_pow_right (by norm_num) hnC)
  · simp only [readInt, if_true]
    apply toSigned_ofInt C _ (by omega)
    · have := toSigned_lower n f hn hf
      omega
    · have := toSigned_upper n f hn hf
      omega

theorem intCast_shift_amount (P x : Nat) (hx : x < P) :
    CreateIntCast 32 P x false = x := by
  unfold CreateIntCast
  have : x < 2 ^ P := lt_trans hx (Nat.lt_two_pow P)
  simp [Nat.mod_eq_of_lt this]

theorem extract_left_eq (cit : CustomIntType) (o : Nat)
    (hfit : o + cit.num_bits ≤ data_type_bits cit.physical_type) :
    extract_left o cit = data_type_bits cit.physical_type - (o + cit.num_bits) := by
  have hP := data_type_bits_le cit.physical_type
  unfold extract_left
  simp only
  rw [get_constant_natCast _ (by omega), get_constant_natCast _ (by omega),
    CreateAdd_eq _ _ _ (by omega), CreateSub_eq _ _ _ hfit (by omega)]

theorem extract_right_eq (cit : CustomIntType)
    (hfit : cit.num_bits ≤ data_type_bits cit.physical_type) :
    extract_right cit = data_type_bits cit.physical_type - cit.num_bits := by
  have hP := data_type_bits_le cit.physical_type
  unfold extract_right
  rw [get_constant_natCast _ (by omega), get_constant_natCast _ (by omega),
    CreateSub_eq _ _ _ hfit (by omega)]

/-- The value `extract_custom_int` returns on a word of the physical type. -/
theorem extract_custom_int_value (cit : CustomIntType) (w o : Nat)
    (hn : 1 ≤ cit.num_bits)
    (hfit : o + cit.num_bits ≤ data_type_bits cit.physical_type) :
    extract_custom_int (data_type_bits cit.physical_type) w o cit =
      some (ofInt (data_type_bits cit.compute_type)
        (bit_field_value w o cit.num_bits cit.is_signed)) := by
  obtain ⟨n, sg, ct, pt⟩ := cit
  simp only at hn hfit ⊢
  have hL := extract_left_eq ⟨n, sg, ct, pt⟩ o hfit
  have hR := extract_right_eq ⟨n, sg, ct, pt⟩ (by simp only; omega)
  simp only at hL hR
  generalize data_type_bits pt = P at *
  obtain ⟨L, rfl⟩ : ∃ L, P = L + o + n := ⟨P - (o + n), by omega⟩
  have hL' : L + o + n - (o + n) = L := by omega
  have hR' : L + o + n - n = L + o := by omega
  rw [hL'] at hL
  rw [hR'] at hR
  unfold extract_custom_int
  simp only [hL, hR]
  rw [intCast_shift_amount _ _ (by omega), intCast_shift_amount _ _ (by omega)]
  have hshl : CreateShl (L + o + n) w L = some (w * 2 ^ L % 2 ^ (L + o + n)) := by
    unfold CreateShl
    rw [if_pos (by omega)]
  rw [hshl]
  have hf := bit_field_lt w o n
  cases sg
  · have hshr : CreateLShr (L + o + n) (w * 2 ^ L % 2 ^ (L + o + n)) (L + o) =
        some (bit_field w o n) := by
      unfold CreateLShr
      rw [if_pos (by omega), lshr_shl_eq]
    simp only [Bool.false_eq_true, if_false, hshr, Option.bind_eq_bind, Option.some_bind,
      Option.pure_def, bit_field_value, readInt, ofInt_natCast, CreateIntCast]
    congr 1
    split_ifs with h
    · rw [Nat.mod_eq_of_lt]
      calc bit_field w o n < 2 ^ n := hf
        _ ≤ 2 ^ data_type_bits ct := Nat.pow_le_pow_right (by norm_num) (by omega)
    · rfl
  · have hshr : CreateAShr (L + o + n) (w * 2 ^ L % 2 ^ (L + o + n)) (L + o) =
        some (ofInt (L + o + n) (toSigned n (bit_field w o n))) := by
      unfold CreateAShr
      rw [if_pos (by omega), toSigned_shl_ediv _ _ _ _ hn]
    simp only [if_true, hshr, Option.bind_eq_bind, Option.some_bind,
      Option.pure_def, bit_field_value, readInt, CreateIntCast]
    congr 1
    have hlo := toSigned_lower n _ hn hf
    have hhi := toSigned_upper n _ hn hf
    have hmono : (2 : Int) ^ (n - 1) ≤ 2 ^ (L + o + n - 1) :=
      pow_le_pow_right₀ (by norm_num) (by omega)
    split_ifs with h
    · rw [toSigned_ofInt _ _ (by omega) (by omega) (by omega)]
    · exact ofInt_mod_pow _ _ _ (by omega)

/-- Claim C2.  On a word of the physical type, for a custom integer type of
`n >= 1` bits at bit offset `o` with `o + n` at most the physical width `P`:
the two shift amounts are `P - (o + n)` and `P - n`, both below `P`; the
result is the compute-type pattern of the integer formed by bits
`o .. o+n-1` of the word, sign-extended when the type is signed and
zero-extended otherwise (and reads back as that integer when the compute type
has at least `n` bits); it is the same for any two words that agree on those
bits. -/
theorem extract_custom_int_two_shifts (cit : CustomIntType) (w o : Nat)
    (hn : 1 ≤ cit.num_bits)
    (hfit : o + cit.num_bits ≤ data_type_bits cit.physical_type) :
    extract_left o cit = data_type_bits cit.physical_type - (o + cit.num_bits) ∧
    extract_right cit = data_type_bits cit.physical_type - cit.num_bits ∧
    extract_left o cit < data_type_bits cit.physical_type ∧
    extract_right cit < data_type_bits cit.physical_type ∧
    extract_custom_int (data_type_bits cit.physical_type) w o cit =
      some (ofInt (data_type_bits cit.compute_type)
        (bit_field_value w o cit.num_bits cit.is_signed)) ∧
    (cit.num_bits ≤ data_type_bits cit.compute_type →
      readInt (data_type_bits cit.compute_type) cit.is_signed
        (ofInt (data_type_bits cit.compute_type)
          (bit_field_value w o cit.num_bits cit.is_signed)) =
        bit_field_value w o cit.num_bits cit.is_signed) ∧
    (∀ w2 : Nat, bit_field w2 o cit.num_bits = bit_field w o cit.num_bits →
      extract_custom_int (data_type_bits cit.physical_type) w2 o cit =
        extract_custom_int (data_type_bits cit.physical_type) w o cit) := by
  have hL := extract_left_eq cit o hfit
  have hR := extract_right_eq cit (by omega)
  refine ⟨hL, hR, by omega, by omega, extract_custom_int_value cit w o hn hfit, ?_, ?_⟩
  · intro hC
    exact readInt_ofInt_readInt _ _ _ _ hn hC (bit_field_lt w o cit.num_bits)
  · intro w2 h2
    rw [extract_custom_int_value cit w o hn hfit, extract_custom_int_value cit w2 o hn hfit]
    unfold bit_field_value
    rw [h2]

/-- Claim C2 at a signed 5-bit field at offset 3 of a 32-bit word. -/
theorem extract_custom_int_two_shifts_witness :
    extract_left 3 ⟨5, true, .i32, .i32⟩ = 24 ∧
    extract_custom_int 32 0xF8 3 ⟨5, true, .i32, .i32⟩ = some (ofInt 32 (-1)) :=
  have h := extract_custom_int_two_shifts ⟨5, true, .i32, .i32⟩ 0xF8 3 (by decide) (by decide)
  ⟨h.1, h.2.2.2.2.1⟩

/-! ## Fields of a fused word -/

theorem bit_field_testBit (w o n j : Nat) :
    (bit_field w o n).testBit j = (decide (j < n) && w.testBit (o + j)) := by
  unfold bit_field
  rw [Nat.testBit_mod_two_pow, ← Nat.shiftRight_eq_div_pow, Nat.testBit_shiftRight]

theorem bit_field_or (a b o n : Nat) :
    bit_field (a ||| b) o n = bit_field a o n ||| bit_field b o n := by
  apply Nat.eq_of_testBit_eq
  intro j
  simp only [bit_field_testBit, Nat.testBit_or]
  cases decide (j < n) <;> simp

theorem bit_field_zero (o n : Nat) : bit_field 0 o n = 0 := by
  simp [bit_field]

theorem bit_field_shl_same (x o n : Nat) (hx : x < 2 ^ n) :
    bit_field (x * 2 ^ o) o n = x := by
  unfold bit_field
  rw [Nat.mul_div_cancel _ (by positivity), Nat.mod_eq_of_lt hx]

theorem bit_field_shl_disjoint (x o2 n2 o n : Nat) (hx : x < 2 ^ n2)
    (h : o2 + n2 ≤ o ∨ o + n ≤ o2) : bit_field (x * 2 ^ o2) o n = 0 := by
  unfold bit_field
  rcases h with h | h
  · have : x * 2 ^ o2 < 2 ^ o := by
      calc x * 2 ^ o2 < 2 ^ n2 * 2 ^ o2 := Nat.mul_lt_mul_of_pos_right hx (by positivity)
        _ = 2 ^ (o2 + n2) := by ring
        _ ≤ 2 ^ o := Nat.pow_le_pow_right (by norm_num) h
    rw [Nat.div_eq_of_lt this, Nat.zero_mod]
  · obtain ⟨k, rfl⟩ : ∃ k, o2 = o + n + k := ⟨o2 - (o + n), by omega⟩
    have : x * 2 ^ (o + n + k) = (x * 2 ^ k * 2 ^ n) * 2 ^ o := by ring
    rw [this, Nat.mul_div_cancel _ (by positivity), Nat.mul_mod_left]

/-- A representable value masked to `n` bits reads back as itself. -/
theorem read_back_masked (n C x : Nat) (sg : Bool) (hn : 1 ≤ n) (hx : x < 2 ^ C)
    (hrep : if sg then -(2 : Int) ^ (n - 1) ≤ toSigned C x ∧ toSigned C x < 2 ^ (n - 1)
      else x < 2 ^ n) :
    ofInt C (readInt n sg (if n < C then x % 2 ^ n else x)) = x := by
  cases sg
  · simp only [Bool.false_eq_true, if_false] at hrep
    simp only [readInt, Bool.false_eq_true, if_false]
    rw [ofInt_natCast]
    split_ifs
    · rw [Nat.mod_eq_of_lt hrep, Nat.mod_eq_of_lt hx]
    · exact Nat.mod_eq_of_lt hx
  · simp only [if_true] at hrep
    simp only [readInt, if_true]
    split_ifs with h
    · have h1 : x % 2 ^ n = ofInt n (toSigned C x) := by
        rw [← ofInt_mod_pow C n _ (le_of_lt h), ofInt_toSigned C x hx]
      rw [h1, toSigned_ofInt n _ hn hrep.1 hrep.2, ofInt_toSigned C x hx]
    · rcases Nat.lt_or_eq_of_le (Nat.le_of_not_lt h) with h2 | h2
      · have hlt : x < 2 ^ (n - 1) :=
          lt_of_lt_of_le hx (Nat.pow_le_pow_right (by norm_num) (by omega))
        unfold toSigned
        rw [if_pos hlt, ofInt_natCast, Nat.mod_eq_of_lt hx]
      · subst h2
        exact ofInt_toSigned C x hx

/-- The body of the loop that stores all the components, on a representable
value of a custom-integer child: the value masked to `n` bits and moved to
the child's bit offset. -/
theorem component_bits (pt : PrimitiveTypeID) (ch : SNode) (cit : CustomIntType)
    (w x : Nat) (hdt : ch.dt = .customInt cit) (hch : int_child pt ch)
    (hrep : representable cit (.int w x)) :
    ∃ m, m < 2 ^ cit.num_bits ∧
      m = (if cit.num_bits < w then x % 2 ^ cit.num_bits else x) ∧
      custom_type_to_bits (.int w x) ch.dt pt = some m ∧
      CreateShl (data_type_bits pt) m (ch.bit_offset % 2 ^ data_type_bits pt) =
        some (m * 2 ^ ch.bit_offset) := by
  unfold int_child at hch
  rw [hdt] at hch
  obtain ⟨hn1, _, hfit, _, hC, _⟩ := hch
  obtain ⟨hw, hx, hr⟩ := hrep
  refine ⟨if cit.num_bits < w then x % 2 ^ cit.num_bits else x, ?_, rfl, ?_, ?_⟩
  · split_ifs with h
    · exact Nat.mod_lt _ (by positivity)
    · exact lt_of_lt_of_le hx (Nat.pow_le_pow_right (by norm_num) (Nat.le_of_not_lt h))
  · unfold custom_type_to_bits
    rw [hdt]
    simp only [Option.bind_eq_bind, Option.some_bind]
    by_cases h : cit.num_bits < w
    · have hmask : (2 ^ cit.num_bits - 1) % 2 ^ w = 2 ^ cit.num_bits - 1 := by
        apply Nat.mod_eq_of_lt
        have : 2 ^ cit.num_bits ≤ 2 ^ w := Nat.pow_le_pow_right (by norm_num) (le_of_lt h)
        have : 0 < 2 ^ cit.num_bits := by positivity
        omega
      simp only [if_pos h, if_pos hw, Option.some_bind, CreateAnd, hmask,
        Nat.and_pow_two_sub_one_eq_mod, CreateZExt]
      rw [if_pos (by omega)]
    · simp only [if_neg h, Option.some_bind, CreateZExt]
      rw [if_pos (by omega)]
  · have hP : data_type_bits pt < 2 ^ data_type_bits pt := Nat.lt_two_pow _
    have ho : ch.bit_offset % 2 ^ data_type_bits pt = ch.bit_offset :=
      Nat.mod_eq_of_lt (by omega)
    unfold CreateShl
    rw [ho, if_pos (by omega)]
    congr 1
    apply Nat.mod_eq_of_lt
    have hm : (if cit.num_bits < w then x % 2 ^ cit.num_bits else x) < 2 ^ cit.num_bits := by
      split_ifs with h
      · exact Nat.mod_lt _ (by positivity)
      · exact lt_of_lt_of_le hx (Nat.pow_le_pow_right (by norm_num) (Nat.le_of_not_lt h))
    calc _ < 2 ^ cit.num_bits * 2 ^ ch.bit_offset :=
          Nat.mul_lt_mul_of_pos_right hm (by positivity)
      _ = 2 ^ (ch.bit_offset + cit.num_bits) := by ring
      _ ≤ 2 ^ data_type_bits pt := Nat.pow_le_pow_right (by norm_num) hfit

theorem SNode.num_bits_customInt (ch : SNode) (cit : CustomIntType)
    (hdt : ch.dt = .customInt cit) : ch.num_bits = cit.num_bits := by
  unfold SNode.num_bits
  rw [hdt]

/-- The loop that stores all the components, on representable values of
custom-integer children: it yields a word; a bit range that no listed child
touches keeps its bits; and a listed child's range, when the ranges of the
listed children are pairwise disjoint and the range was clear before, holds
the child's masked value. -/
theorem store_all_components_fields (snode : BitStructSNode)
    (hch : ∀ ch ∈ snode.ch, int_child snode.physical_type ch) :
    ∀ (ids : List Nat) (vals : List Val), List.Forall₂ (stored_int snode) ids vals →
    ∀ acc : Option Nat, ∃ W : Option Nat,
      store_all_components snode ids vals acc = some W ∧
      (ids ≠ [] → W.isSome) ∧ (acc.isSome → W.isSome) ∧
      (∀ o n, (∀ id ∈ ids, ∀ ch, snode.ch[id]? = some ch →
          ch.bit_offset + ch.num_bits ≤ o ∨ o + n ≤ ch.bit_offset) →
        bit_field (W.getD 0) o n = bit_field (acc.getD 0) o n) ∧
      (ids.Pairwise (fun a b => ∀ cha chb, snode.ch[a]? = some cha →
          snode.ch[b]? = some chb → disjoint_ranges cha chb) →
        ∀ (i id : Nat) (ch : SNode) (cit : CustomIntType) (w x : Nat),
          ids[i]? = some id → vals[i]? = some (Val.int w x) →
          snode.ch[id]? = some ch → ch.dt = DataType.customInt cit →
          bit_field (acc.getD 0) ch.bit_offset cit.num_bits = 0 →
          bit_field (W.getD 0) ch.bit_offset cit.num_bits =
            (if cit.num_bits < w then x % 2 ^ cit.num_bits else x)) := by
  intro ids vals h
  induction h with
  | nil =>
    intro acc
    refine ⟨acc, by simp [store_all_components], by simp, fun h => h, fun _ _ _ => rfl, ?_⟩
    intro _ i id ch cit w x hi
    exact absurd hi (by simp)
  | @cons id v ids vals hab _ ih =>
    intro acc
    unfold stored_int at hab
    cases hid : snode.ch[id]? with
    | none => simp [hid] at hab
    | some ch =>
      cases hdt : ch.dt with
      | customFloat cft => simp [hid, hdt] at hab
      | customInt cit =>
        simp only [hid, hdt] at hab
        cases v with
        | f32 b => exact absurd hab (by simp [representable])
        | real t q => exact absurd hab (by simp [representable])
        | int w x =>
          have hmem : ch ∈ snode.ch := List.getElem?_mem hid
          obtain ⟨m, hm, hmeq, hbits, hshl⟩ :=
            component_bits snode.physical_type ch cit w x hdt (hch ch hmem) hab
          obtain ⟨W, hW, _, hsome, hframe, htarget⟩ :=
            ih (some (acc.getD 0 ||| m * 2 ^ ch.bit_offset))
          have hrun : store_all_components snode (id :: ids) (Val.int w x :: vals) acc =
              some W := by
            rw [← hW]
            cases acc <;>
              simp [store_all_components, hid, hbits, hshl, CreateOr]
          have hnb := SNode.num_bits_customInt ch cit hdt
          refine ⟨W, hrun, fun _ => hsome rfl, fun _ => hsome rfl, ?_, ?_⟩
          · intro o n hdisj
            rw [hframe o n (fun id2 hid2 => hdisj id2 (List.mem_cons_of_mem _ hid2))]
            simp only [Option.getD_some]
            rw [bit_field_or, bit_field_shl_disjoint m ch.bit_offset cit.num_bits o n hm
              (by have := hdisj id (List.mem_cons_self _ _) ch hid; rw [hnb] at this; exact this)]
            simp
          · intro hpw i id2 ch2 cit2 w2 x2 hi hv hch2 hdt2 hacc
            rw [List.pairwise_cons] at hpw
            cases i with
            | zero =>
              simp only [List.getElem?_cons_zero, Option.some.injEq] at hi hv
              subst hi
              rw [hid] at hch2
              simp only [Option.some.injEq] at hch2
              subst hch2
              rw [hdt] at hdt2
              simp only [DataType.customInt.injEq] at hdt2
              subst hdt2
              simp only [Val.int.injEq] at hv
              obtain ⟨hw, hx⟩ := hv
              subst hw hx
              rw [hframe ch.bit_offset cit.num_bits]
              · simp only [Option.getD_some]
                rw [bit_field_or, hacc, bit_field_shl_same m _ _ hm, hmeq]
                simp
              · intro id3 hid3 ch3 hch3
                have := hpw.1 id3 hid3 ch ch3 hid hch3
                unfold disjoint_ranges at this
                rw [hnb] at this
                omega
            | succ j =>
              simp only [List.getElem?_cons_succ] at hi hv
              apply htarget hpw.2 j id2 ch2 cit2 w2 x2 hi hv hch2 hdt2
              simp only [Option.getD_some]
              have hid2 : id2 ∈ ids := List.getElem?_mem hi
              have hd := hpw.1 id2 hid2 ch ch2 hid hch2
              unfold disjoint_ranges at hd
              rw [hnb, SNode.num_bits_customInt ch2 cit2 hdt2] at hd
              rw [bit_field_or, hacc, bit_field_shl_disjoint m ch.bit_offset cit.num_bits
                ch2.bit_offset cit2.num_bits hm hd]
              simp

theorem forall₂_getElem? {α β : Type} (R : α → β → Prop) :
    ∀ (l1 : List α) (l2 : List β), List.Forall₂ R l1 l2 →
      ∀ (i : Nat) (a : α) (b : β), l1[i]? = some a → l2[i]? = some b → R a b := by
  intro l1 l2 h
  induction h with
  | nil =>
    intro i a b h1
    exact absurd h1 (by simp)
  | cons hab _ ih =>
    intro i a b h1 h2
    cases i with
    | zero =>
      simp only [List.getElem?_cons_zero, Option.some.injEq] at h1 h2
      subst h1 h2
      exact hab
    | succ j =>
      simp only [List.getElem?_cons_succ] at h1 h2
      exact ih j a b h1 h2

/-- Two different children of a `bit_struct` with pairwise disjoint ranges
have disjoint ranges. -/
theorem children_disjoint (l : List SNode) (hdisj : l.Pairwise disjoint_ranges)
    (a b : Nat) (hab : a ≠ b) (cha chb : SNode) (ha : l[a]? = some cha)
    (hb : l[b]? = some chb) : disjoint_ranges cha chb := by
  rw [List.pairwise_iff_getElem] at hdisj
  obtain ⟨ha1, ha2⟩ := List.getElem?_eq_some.mp ha
  obtain ⟨hb1, hb2⟩ := List.getElem?_eq_some.mp hb
  rcases Nat.lt_or_gt_of_ne hab with h | h
  · have := hdisj a b ha1 hb1 h
    rw [ha2, hb2] at this
    exact this
  · have := hdisj b a hb1 ha1 h
    rw [ha2, hb2] at this
    unfold disjoint_ranges at this ⊢
    omega

/-- Claim C1.  For a `bit_struct` whose children are all custom integers of
1..64 bits with pairwise disjoint bit ranges inside the physical word (and
compute types no wider than the word), and a store statement that lists every
child once with a value representable in the child's bits: the all-children
path emits one store of a fused word, and `extract_custom_int` on that word
at a child's offset returns exactly the value listed for that child. -/
theorem fused_word_round_trip (stmt : BitStructStoreStmt) (local_bit_struct : Nat)
    (hall : stmt.ch_ids.length = stmt.snode.ch.length)
    (hne : stmt.ch_ids ≠ [])
    (hnodup : stmt.ch_ids.Nodup)
    (hch : ∀ ch ∈ stmt.snode.ch, int_child stmt.snode.physical_type ch)
    (hdisj : stmt.snode.ch.Pairwise disjoint_ranges)
    (hvals : List.Forall₂ (stored_int stmt.snode) stmt.ch_ids stmt.values) :
    ∃ word, visit_BitStructStoreStmt stmt local_bit_struct =
        some (BitStructEmitted.word_store word) ∧
      ∀ (i id w x : Nat) (ch : SNode) (cit : CustomIntType),
        stmt.ch_ids[i]? = some id → stmt.values[i]? = some (Val.int w x) →
        stmt.snode.ch[id]? = some ch → ch.dt = DataType.customInt cit →
        extract_custom_int (data_type_bits stmt.snode.physical_type) word
          (get_constant ch.bit_offset) cit = some x := by
  obtain ⟨W, hW, hsome, _, _, htarget⟩ :=
    store_all_components_fields stmt.snode hch stmt.ch_ids stmt.values hvals none
  have hW2 := hsome hne
  obtain ⟨word, rfl⟩ := Option.isSome_iff_exists.mp hW2
  have hshared : has_shared_exponent stmt = false := by
    unfold has_shared_exponent
    rw [List.any_eq_false]
    intro id _
    cases hid : stmt.snode.ch[id]? with
    | none => simp
    | some ch =>
      have h := hch ch (List.getElem?_mem hid)
      unfold int_child at h
      cases hdt : ch.dt with
      | customFloat cft => simp [hdt] at h
      | customInt cit =>
        simp only [hdt] at h
        simp [h.2.2.2.2.2]
  refine ⟨word, ?_, ?_⟩
  · unfold visit_BitStructStoreStmt
    simp [hshared, hall, hW]
  · intro i id w x ch cit hi hv hid hdt
    have hpw : stmt.ch_ids.Pairwise (fun a b => ∀ cha chb, stmt.snode.ch[a]? = some cha →
        stmt.snode.ch[b]? = some chb → disjoint_ranges cha chb) :=
      List.Pairwise.imp (fun {a b} hab cha chb ha hb =>
        children_disjoint stmt.snode.ch hdisj a b hab cha chb ha hb) hnodup
    have hfield := htarget hpw i id ch cit w x hi hv hid hdt (by simp [bit_field_zero])
    simp only [Option.getD_some] at hfield
    have hc := hch ch (List.getElem?_mem hid)
    unfold int_child at hc
    simp only [hdt] at hc
    obtain ⟨hn1, _, hfit, hP, hC, _⟩ := hc
    have hrep : representable cit (Val.int w x) := by
      have h := forall₂_getElem? _ _ _ hvals i id (Val.int w x) hi hv
      unfold stored_int at h
      simp only [hid, hdt] at h
      exact h
    obtain ⟨hw, hx, hr⟩ := hrep
    have hoff : get_constant (ch.bit_offset : Int) = ch.bit_offset := by
      apply get_constant_natCast
      have := data_type_bits_le stmt.snode.physical_type
      omega
    rw [hoff, ← hP, extract_custom_int_value cit word ch.bit_offset hn1 (by omega)]
    unfold bit_field_value
    rw [hfield, ← hw]
    congr 1
    exact read_back_masked cit.num_bits w x cit.is_signed hn1 hx hr

/-- Claim C1 on a signed 5-bit child holding `-3` and an unsigned 7-bit child
holding `100` in one 32-bit word. -/
theorem fused_word_round_trip_witness :
    ∃ word, visit_BitStructStoreStmt example_int_store 0 =
        some (BitStructEmitted.word_store word) ∧
      extract_custom_int 32 word (get_constant 0) ⟨5, true, .i32, .i32⟩ = some 4294967293 ∧
      extract_custom_int 32 word (get_constant 5) ⟨7, false, .u32, .i32⟩ = some 100 := by
  obtain ⟨word, h1, h2⟩ := fused_word_round_trip example_int_store 0 rfl (by decide)
    (by decide)
    (by simp [example_int_store, example_int_snode, int_child, data_type_bits])
    (by simp [example_int_store, example_int_snode, disjoint_ranges, SNode.num_bits])
    (List.Forall₂.cons
      (by simp [example_int_store, example_int_snode, stored_int, representable,
        data_type_bits])
      (List.Forall₂.cons
        (by simp [example_int_store, example_int_snode, stored_int, representable,
          data_type_bits, toSigned])
        List.Forall₂.nil))
  exact ⟨word, h1,
    h2 1 0 32 4294967293 ⟨.customInt ⟨5, true, .i32, .i32⟩, 0, false, [], none⟩
      ⟨5, true, .i32, .i32⟩ rfl rfl rfl rfl,
    h2 0 1 32 100 ⟨.customInt ⟨7, false, .u32, .i32⟩, 5, false, [], none⟩
      ⟨7, false, .u32, .i32⟩ rfl rfl rfl rfl⟩

/-! ## Floats as bit patterns -/

theorem get_constant_0 : get_constant 0 = 0 := by decide

theorem get_constant_1 : get_constant 1 = 1 := by decide

theorem get_constant_23 : get_constant 23 = 23 := by decide

theorem get_constant_31 : get_constant 31 = 31 := by decide

theorem get_constant_exp_mask : get_constant ((1 <<< 8) - 1) = 2 ^ 8 - 1 := by decide

theorem get_constant_frac_mask : get_constant ((1 <<< 23) - 1) = 2 ^ 23 - 1 := by decide

theorem get_constant_implicit : get_constant (1 <<< 23) = 2 ^ 23 := by decide

theorem get_constant_digits_max : get_constant ((1 <<< 24) - 1) = 2 ^ 24 - 1 := by decide

theorem or_two_pow_of_lt (a k : Nat) (h : a < 2 ^ k) : a ||| 2 ^ k = a + 2 ^ k := by
  have := Nat.mul_add_lt_is_or h 1
  rw [Nat.mul_one] at this
  rw [Nat.lor_comm, ← this, Nat.add_comm]

theorem extract_exponent_eq (f : Nat) :
    extract_exponent_from_float f = some (bit_field f 23 8) := by
  unfold extract_exponent_from_float CreateLShr CreateAnd bit_field
  rw [get_constant_23, get_constant_exp_mask, if_pos (by norm_num)]
  simp only [Option.bind_eq_bind, Option.some_bind, Option.pure_def,
    Nat.and_pow_two_sub_one_eq_mod]

theorem extract_digits_full (f : Nat) :
    extract_digits_from_float f true = f % 2 ^ 23 + 2 ^ 23 := by
  unfold extract_digits_from_float CreateAnd CreateOr
  rw [get_constant_frac_mask, get_constant_implicit]
  simp only [Nat.and_pow_two_sub_one_eq_mod, if_true]
  exact or_two_pow_of_lt _ _ (Nat.mod_lt _ (by positivity))

theorem min_u32_eq (a b : Nat) : min_u32 a b = min a b := by
  unfold min_u32
  split_ifs with h
  · exact (Nat.min_eq_right (le_of_lt h)).symm
  · exact (Nat.min_eq_left (Nat.le_of_not_lt h)).symm

theorem max_u32_eq (a b : Nat) : max_u32 a b = max a b := by
  unfold max_u32
  split_ifs with h
  · exact (Nat.max_eq_right (le_of_lt h)).symm
  · exact (Nat.max_eq_left (Nat.le_of_not_lt h)).symm

/-- The realigned significand: the 24-bit significand with the leading one,
shifted right by the clamped difference of the exponents as the code computes
it. -/
theorem get_float_digits_eq (f G : Nat) :
    get_float_digits_with_shared_exponents f G =
      some ((f % 2 ^ 23 + 2 ^ 23) / 2 ^ min (CreateSub 32 G (bit_field f 23 8)) 31) := by
  unfold get_float_digits_with_shared_exponents
  rw [extract_exponent_eq, extract_digits_full, get_constant_0, get_constant_23,
    get_constant_31]
  have hm : f % 2 ^ 23 < 2 ^ 23 := Nat.mod_lt _ (by positivity)
  have himp : ∀ t : Nat, t = 0 ∨ t = 1 →
      ∃ ib, CreateShl 32 t 23 = some ib ∧ (f % 2 ^ 23 + 2 ^ 23) ||| ib = f % 2 ^ 23 + 2 ^ 23 := by
    intro t ht
    rcases ht with rfl | rfl
    · exact ⟨0, by decide, by simp⟩
    · refine ⟨2 ^ 23, by decide, ?_⟩
      rw [← or_two_pow_of_lt _ _ hm, Nat.lor_assoc, Nat.or_self]
  obtain ⟨ib, hib, hor⟩ := himp (if bit_field f 23 8 ≠ 0 then 1 else 0)
    (by split_ifs <;> simp)
  simp only [Option.bind_eq_bind, Option.some_bind, hib, CreateOr, hor, CreateLShr,
    min_u32_eq]
  rw [if_pos (lt_of_le_of_lt (Nat.min_le_right _ _) (by norm_num))]

theorem get_float_digits_lt (f G : Nat) :
    (f % 2 ^ 23 + 2 ^ 23) / 2 ^ min (CreateSub 32 G (bit_field f 23 8)) 31 < 2 ^ 24 := by
  have hm : f % 2 ^ 23 < 2 ^ 23 := Nat.mod_lt _ (by positivity)
  apply lt_of_le_of_lt (Nat.div_le_self _ _)
  omega

/-- Claim C5.  For a member `f` with raw exponent `e` (bits 23..30) and
fraction `m` (bits 0..22), and a group exponent `G` with `e <= G <= 255`:
the shift amount the code computes is `min (G - e) 31`, it lies in
`[0, 31]`, and `get_float_digits_with_shared_exponents` returns the
significand `m + 2^23` shifted right by it. -/
theorem realign_to_group_exponent (f G : Nat) (hG : bit_field f 23 8 ≤ G) (hG2 : G ≤ 255) :
    min_u32 (CreateSub 32 G (bit_field f 23 8)) (get_constant 31) =
      min (G - bit_field f 23 8) 31 ∧
    min (G - bit_field f 23 8) 31 ≤ 31 ∧
    get_float_digits_with_shared_exponents f G =
      some ((f % 2 ^ 23 + 2 ^ 23) / 2 ^ min (G - bit_field f 23 8) 31) := by
  have hsub : CreateSub 32 G (bit_field f 23 8) = G - bit_field f 23 8 :=
    CreateSub_eq 32 G _ hG (by omega)
  refine ⟨?_, Nat.min_le_right _ _, ?_⟩
  · rw [min_u32_eq, hsub, get_constant_31]
  · rw [get_float_digits_eq, hsub]

/-- Claim C5 at `0.5` in a group whose largest member is `2.0`. -/
theorem realign_to_group_exponent_witness :
    get_float_digits_with_shared_exponents 0x3F000000 128 =
      some ((0x3F000000 % 2 ^ 23 + 2 ^ 23) / 2 ^ min (128 - bit_field 0x3F000000 23 8) 31) :=
  (realign_to_group_exponent 0x3F000000 128 (by decide) (by decide)).2.2

/-! ## Rounding of shared-exponent digits -/

theorem and_two_pow_eq (a k : Nat) : a &&& 2 ^ k = bit_field a k 1 * 2 ^ k := by
  apply Nat.eq_of_testBit_eq
  intro j
  rw [Nat.testBit_and, Nat.testBit_two_pow, Nat.mul_comm, Nat.testBit_mul_pow_two,
    bit_field_testBit]
  by_cases h : k = j
  · subst h
    simp
  · by_cases h2 : k ≤ j
    · have : ¬ (j - k < 1) := by omega
      simp [h, this]
    · simp [h, h2]

theorem bit_field_one_cases (a k : Nat) : bit_field a k 1 = 0 ∨ bit_field a k 1 = 1 := by
  have := bit_field_lt a k 1
  omega

theorem ofInt_sign_mask : ofInt 32 (-2147483648) = 2 ^ 31 := by decide

theorem ofInt_of_nonneg (k : Int) (n : Nat) (hk : k = (n : Int)) (hn : n < 2 ^ 32) :
    ofInt 32 k = n := by
  rw [hk, ofInt_natCast, Nat.mod_eq_of_lt hn]

/-- The sign bit of a float moved to bit `d`. -/
theorem sign_bit_moved (f d : Nat) (hd : d ≤ 31) :
    CreateLShr 32 (CreateAnd f (2 ^ 31)) (shift_amount (31 - (d : Int))) =
      some (bit_field f 31 1 * 2 ^ d) := by
  have hs : shift_amount (31 - (d : Int)) = 31 - d :=
    ofInt_of_nonneg _ (31 - d) (by omega) (by omega)
  unfold CreateLShr CreateAnd
  rw [hs, if_pos (by omega), and_two_pow_eq]
  congr 1
  have h31 : (2 : Nat) ^ 31 = 2 ^ d * 2 ^ (31 - d) := by
    rw [← pow_add]
    congr 1
    omega
  rw [h31, ← Nat.mul_assoc, Nat.mul_div_cancel _ (by positivity)]

theorem or_sign_eq_add (mag s d : Nat) (hmag : mag < 2 ^ d) (hs : s = 0 ∨ s = 1) :
    mag ||| s * 2 ^ d = mag + s * 2 ^ d := by
  rcases hs with rfl | rfl
  · simp
  · rw [Nat.one_mul]
    exact or_two_pow_of_lt mag d hmag

/-- The value `round_shared_digits` returns. -/
theorem round_shared_digits_eq (r f : Nat) (cft : CustomFloatType) (hr : r < 2 ^ 24)
    (hd1 : 1 ≤ cft.digit_bits) (hd2 : cft.digit_bits ≤ 23) :
    round_shared_digits r f cft =
      some (min (r + 2 ^ (24 - cft.digit_bits - 1)) (2 ^ 24 - 1) / 2 ^ (24 - cft.digit_bits) +
        (if cft.get_is_signed then bit_field f 31 1 * 2 ^ cft.digit_bits else 0)) ∧
    min (r + 2 ^ (24 - cft.digit_bits - 1)) (2 ^ 24 - 1) / 2 ^ (24 - cft.digit_bits) <
      2 ^ cft.digit_bits := by
  have hmag : min (r + 2 ^ (24 - cft.digit_bits - 1)) (2 ^ 24 - 1) / 2 ^ (24 - cft.digit_bits) <
      2 ^ cft.digit_bits := by
    rw [Nat.div_lt_iff_lt_mul (by positivity), ← pow_add]
    have : cft.digit_bits + (24 - cft.digit_bits) = 24 := by omega
    rw [this]
    have := Nat.min_le_right (r + 2 ^ (24 - cft.digit_bits - 1)) (2 ^ 24 - 1)
    omega
  refine ⟨?_, hmag⟩
  have hhalf_lt : 2 ^ (24 - cft.digit_bits - 1) ≤ 2 ^ 22 :=
    Nat.pow_le_pow_right (by norm_num) (by omega)
  have hshift : ∀ sg : Bool,
      (if !sg then (23 + (if sg then 1 else 0) - (cft.digit_bits : Int)) + 1
        else (23 + (if sg then 1 else 0) - (cft.digit_bits : Int))) =
      ((24 - cft.digit_bits : Nat) : Int) := by
    intro sg
    cases sg <;> simp <;> omega
  unfold round_shared_digits
  simp only [hshift]
  have hhalf : cxx_shl_one false (((24 - cft.digit_bits : Nat) : Int) - 1) =
      some (2 ^ (24 - cft.digit_bits - 1)) := by
    unfold cxx_shl_one
    have h1 : (((24 - cft.digit_bits : Nat) : Int) - 1) = ((24 - cft.digit_bits - 1 : Nat) : Int) := by
      omega
    rw [h1, if_pos (by simp; omega), Int.toNat_natCast]
  have hc : get_constant ((2 ^ (24 - cft.digit_bits - 1) : Nat) : Int) =
      2 ^ (24 - cft.digit_bits - 1) :=
    get_constant_natCast _ (by omega)
  have hsa : shift_amount ((24 - cft.digit_bits : Nat) : Int) = 24 - cft.digit_bits :=
    ofInt_of_nonneg _ _ rfl (by omega)
  have hadd : CreateAdd 32 r (2 ^ (24 - cft.digit_bits - 1)) =
      r + 2 ^ (24 - cft.digit_bits - 1) := CreateAdd_eq _ _ _ (by omega)
  simp only [hhalf, Option.bind_eq_bind, Option.some_bind, hc, hadd, get_constant_digits_max,
    min_u32_eq, hsa, CreateLShr, ofInt_sign_mask]
  rw [if_pos (by omega)]
  simp only [Option.some_bind]
  cases hsg : cft.get_is_signed
  · simp
  · have hsb := sign_bit_moved f cft.digit_bits (by omega)
    unfold CreateLShr at hsb
    simp only [if_true, hsb, Option.some_bind, Option.pure_def, CreateOr]
    rw [or_sign_eq_add _ _ _ hmag (bit_field_one_cases f 31)]

/-- Claim C6.  For a realigned significand `r < 2^24` and a field with
`1 <= d <= 23` digit bits, signed or unsigned, with `s = 24 - d`: the value
stored has `min (r + 2^(s-1)) (2^24 - 1) >> s` as its low `d` bits (the
magnitude), that magnitude is below `2^d`, and the bits from position `d` up
hold only the sign bit of the float (nothing for an unsigned field), so the
magnitude never overlaps the sign bit. -/
theorem shared_digits_rounding_clamp (r f : Nat) (cft : CustomFloatType) (hr : r < 2 ^ 24)
    (hd1 : 1 ≤ cft.digit_bits) (hd2 : cft.digit_bits ≤ 23) :
    ∃ stored, round_shared_digits r f cft = some stored ∧
      stored % 2 ^ cft.digit_bits =
        min (r + 2 ^ (24 - cft.digit_bits - 1)) (2 ^ 24 - 1) / 2 ^ (24 - cft.digit_bits) ∧
      min (r + 2 ^ (24 - cft.digit_bits - 1)) (2 ^ 24 - 1) / 2 ^ (24 - cft.digit_bits) <
        2 ^ cft.digit_bits ∧
      stored / 2 ^ cft.digit_bits =
        (if cft.get_is_signed then bit_field f 31 1 else 0) := by
  obtain ⟨heq, hmag⟩ := round_shared_digits_eq r f cft hr hd1 hd2
  refine ⟨_, heq, ?_, hmag, ?_⟩
  · split_ifs
    · rw [Nat.add_mul_mod_self_right, Nat.mod_eq_of_lt hmag]
    · rw [Nat.add_zero, Nat.mod_eq_of_lt hmag]
  · split_ifs
    · rw [Nat.add_mul_div_right _ _ (by positivity), Nat.div_eq_of_lt hmag, Nat.zero_add]
    · rw [Nat.add_zero, Nat.div_eq_of_lt hmag]

/-- Claim C6 at the largest significand and a signed field of 4 digit bits
holding a negative float: the magnitude is clamped to `15`. -/
theorem shared_digits_rounding_clamp_witness :
    ∃ stored, round_shared_digits (2 ^ 24 - 1) 0xC0000000
        ⟨⟨5, true, .i32, .i32⟩, some ⟨5, false, .i32, .i32⟩, .f32, 1, 4, 125⟩ = some stored ∧
      stored % 2 ^ 4 = 15 ∧ stored / 2 ^ 4 = 1 := by
  obtain ⟨stored, h1, h2, _, h4⟩ := shared_digits_rounding_clamp (2 ^ 24 - 1) 0xC0000000
    ⟨⟨5, true, .i32, .i32⟩, some ⟨5, false, .i32, .i32⟩, .f32, 1, 4, 125⟩
    (by decide) (by decide) (by decide)
  exact ⟨stored, h1, h2, h4⟩

/-! ## Wrapping arithmetic on `i32` -/

theorem cast_ofInt (w : Nat) (i : Int) : ((ofInt w i : Nat) : Int) = i % 2 ^ w := by
  unfold ofInt
  exact Int.toNat_of_nonneg (Int.emod_nonneg _ (by positivity))

theorem ofInt_emod (w : Nat) (i : Int) : ofInt w (i % 2 ^ w) = ofInt w i := by
  unfold ofInt
  rw [Int.emod_emod_of_dvd _ (dvd_refl _)]

theorem CreateAdd_ofInt (w a b : Nat) : CreateAdd w a b = ofInt w ((a : Int) + b) := by
  unfold CreateAdd
  rw [← ofInt_natCast]
  push_cast
  rfl

theorem CreateSub_ofInt (w a b : Nat) : CreateSub w a b = ofInt w ((a : Int) - b) := by
  unfold CreateSub
  have hb : b % 2 ^ w ≤ a + 2 ^ w :=
    le_trans (le_of_lt (Nat.mod_lt _ (by positivity))) (Nat.le_add_left _ _)
  rw [← ofInt_natCast, Nat.cast_sub hb]
  push_cast
  unfold ofInt
  congr 1
  rw [Int.sub_emod, Int.add_emod_self, Int.emod_emod_of_dvd _ (dvd_refl _), ← Int.sub_emod]

theorem ofInt_add_ofInt (w : Nat) (i j : Int) :
    ofInt w (i + (ofInt w j : Nat)) = ofInt w (i + j) := by
  rw [cast_ofInt]
  unfold ofInt
  congr 1
  rw [Int.add_emod, Int.emod_emod_of_dvd _ (dvd_refl _), ← Int.add_emod]

theorem ofInt_sub_ofInt (w : Nat) (i j : Int) :
    ofInt w (i - (ofInt w j : Nat)) = ofInt w (i - j) := by
  rw [cast_ofInt]
  unfold ofInt
  congr 1
  rw [Int.sub_emod, Int.emod_emod_of_dvd _ (dvd_refl _), ← Int.sub_emod]

theorem ofInt_ofInt_add (w : Nat) (i j : Int) :
    ofInt w ((ofInt w i : Nat) + j) = ofInt w (i + j) := by
  rw [add_comm, ofInt_add_ofInt, add_comm]

theorem toSigned_ofInt_32 (i : Int) (hlo : -2147483648 ≤ i) (hhi : i < 2147483648) :
    toSigned 32 (ofInt 32 i) = i :=
  toSigned_ofInt 32 i (by norm_num) (by norm_num; exact hlo) (by norm_num; exact hhi)

theorem toSigned_zero : toSigned 32 0 = 0 := by decide

theorem toSigned_max_i32_zero (x : Nat) :
    toSigned 32 (max_i32 x (get_constant 0)) = max 0 (toSigned 32 x) := by
  unfold max_i32
  rw [get_constant_0, toSigned_zero]
  split_ifs with h
  · rw [toSigned_zero, max_eq_left (le_of_lt h)]
  · rw [max_eq_right (not_lt.mp h)]

/-- The exponent stored for a raw exponent `M <= 255`: `M` less the
conversion offset (when `M` is nonzero), clamped at zero. -/
theorem max_exp_bits_to_store_eq (M : Nat) (cft : CustomFloatType) (hM : M ≤ 255)
    (hlo : -2147483648 + 256 ≤ cft.exponent_conversion_offset)
    (hhi : cft.exponent_conversion_offset < 2147483648) :
    toSigned 32 (max_exp_bits_to_store M cft) =
      max 0 ((M : Int) - (if M = 0 then 0 else cft.exponent_conversion_offset)) := by
  unfold max_exp_bits_to_store
  simp only
  rw [toSigned_max_i32_zero]
  congr 1
  unfold get_exponent_offset get_constant
  rw [show ofInt 32 0 = 0 from by decide]
  by_cases h : M = 0
  · subst h
    simp only [ne_eq, not_true_eq_false, if_false, if_true]
    decide
  · simp only [ne_eq, h, not_false_eq_true, if_true, if_false]
    rw [CreateSub_ofInt, ofInt_sub_ofInt, toSigned_ofInt_32 _ (by omega) (by omega)]

theorem bit_field_raw_le (f : Nat) : raw_exponent f ≤ 255 := by
  have := bit_field_lt f 23 8
  unfold raw_exponent
  omega

theorem max_raw_exponent_le (floats : List Nat) : max_raw_exponent floats ≤ 255 := by
  unfold max_raw_exponent
  induction floats with
  | nil => simp
  | cons f fs ih =>
    simp only [List.map_cons, List.foldr_cons]
    exact max_le (bit_field_raw_le f) ih

theorem max_exp_bits_loop_some (floats : List Nat) (m : Nat) :
    max_exp_bits_loop floats (some m) = some (some (max m (max_raw_exponent floats))) := by
  induction floats generalizing m with
  | nil => simp [max_exp_bits_loop, max_raw_exponent]
  | cons f fs ih =>
    unfold max_exp_bits_loop
    rw [extract_exponent_eq]
    simp only [Option.bind_eq_bind, Option.some_bind]
    rw [ih, max_u32_eq]
    unfold max_raw_exponent raw_exponent
    simp only [List.map_cons, List.foldr_cons, max_assoc]

theorem max_exp_bits_loop_none (floats : List Nat) (hne : floats ≠ []) :
    max_exp_bits_loop floats none = some (some (max_raw_exponent floats)) := by
  cases floats with
  | nil => exact absurd rfl hne
  | cons f fs =>
    unfold max_exp_bits_loop
    rw [extract_exponent_eq]
    simp only [Option.bind_eq_bind, Option.some_bind]
    rw [max_exp_bits_loop_some]
    unfold max_raw_exponent raw_exponent
    simp only [List.map_cons, List.foldr_cons]

/-! ## The store of a shared-exponent group -/

theorem load_all_floats_length (stmt : BitStructStoreStmt) (w0 : Nat) :
    ∀ (users floats : List Nat), load_all_floats stmt w0 users = some floats →
      floats.length = users.length := by
  intro users
  induction users with
  | nil =>
    intro floats h
    simp only [load_all_floats, Option.some.injEq] at h
    rw [← h]
  | cons user users ih =>
    intro floats h
    unfold load_all_floats at h
    simp only [Option.bind_eq_bind, Option.bind_eq_some, Option.pure_def,
      Option.some.injEq] at h
    obtain ⟨f, _, rest, hrest, hfl⟩ := h
    rw [← hfl, List.length_cons, List.length_cons, ih rest hrest]

theorem shared_exponent_digits_some (f M : Nat) (cft : CustomFloatType)
    (hd1 : 1 ≤ cft.digit_bits) (hd2 : cft.digit_bits ≤ 23) :
    ∃ digits, shared_exponent_digits f M cft = some digits := by
  unfold shared_exponent_digits
  rw [get_float_digits_eq]
  simp only [Option.bind_eq_bind, Option.some_bind]
  exact ⟨_, (round_shared_digits_eq _ f cft (get_float_digits_lt f M) hd1 hd2).1⟩

theorem store_users_some (snode : BitStructSNode) (M : Nat) :
    ∀ (users floats : List Nat), floats.length = users.length →
      (∀ user ∈ users, shared_digits_child snode user) →
      ∃ stores, store_users snode M users floats = some stores := by
  intro users
  induction users with
  | nil =>
    intro floats _ _
    exact ⟨[], by simp [store_users]⟩
  | cons user users ih =>
    intro floats hlen hu
    cases floats with
    | nil => simp at hlen
    | cons f floats =>
      have h := hu user (List.mem_cons_self _ _)
      unfold shared_digits_child at h
      cases hch : snode.ch[user]? with
      | none => simp [hch] at h
      | some ch =>
        cases hdt : ch.dt with
        | customInt cit => simp [hch, hdt] at h
        | customFloat cft =>
          simp only [hch, hdt] at h
          obtain ⟨digits, hdig⟩ := shared_exponent_digits_some f M cft h.1 h.2
          obtain ⟨rest, hrest⟩ := ih floats (by simpa using hlen)
            (fun u hu2 => hu u (List.mem_cons_of_mem _ hu2))
          exact ⟨⟨ch.bit_offset, cft.digits_type, digits⟩ :: rest,
            by simp [store_users, hch, hdt, hdig, hrest]⟩

/-- Claim C4.  For a non-empty group of members sharing the exponent child
`exp`, with `floats` the members' values and `M` the maximum of their raw
8-bit exponents: the first store the group emits writes, at the bit offset of
`exp`, the value `max 0 (M - c)`, where `c` is the conversion offset of the
first member's type when `M` is nonzero and `0` when `M` is zero; the value
is the one that the bias-and-clamp rule `max_exp_bits_to_store` gives for
`M`. -/
theorem stored_shared_exponent (stmt : BitStructStoreStmt) (local_bit_struct : Nat)
    (exp : SNode) (exp_cit : CustomIntType) (floats : List Nat) (first : Nat)
    (first_snode : SNode) (first_cft : CustomFloatType)
    (hexp : exp.dt = DataType.customInt exp_cit)
    (hfirst : exp.exponent_users.head? = some first)
    (hfs : stmt.snode.ch[first]? = some first_snode)
    (hfc : first_snode.dt = DataType.customFloat first_cft)
    (husers : ∀ user ∈ exp.exponent_users, shared_digits_child stmt.snode user)
    (hload : load_all_floats stmt local_bit_struct exp.exponent_users = some floats)
    (hlo : -2147483648 + 256 ≤ first_cft.exponent_conversion_offset)
    (hhi : first_cft.exponent_conversion_offset < 2147483648) :
    ∃ E rest, store_exponent_group stmt local_bit_struct exp =
        some (⟨exp.bit_offset, exp_cit, E⟩ :: rest) ∧
      E = max_exp_bits_to_store (max_raw_exponent floats) first_cft ∧
      toSigned 32 E = max 0 ((max_raw_exponent floats : Int) -
        (if max_raw_exponent floats = 0 then 0 else first_cft.exponent_conversion_offset)) := by
  have hlen := load_all_floats_length stmt local_bit_struct _ _ hload
  have hne : floats ≠ [] := by
    intro h
    rw [h] at hlen
    cases hu : exp.exponent_users with
    | nil => simp [hu] at hfirst
    | cons a l => simp [hu] at hlen
  obtain ⟨rest, hrest⟩ := store_users_some stmt.snode (max_raw_exponent floats)
    exp.exponent_users floats hlen husers
  refine ⟨_, rest, ?_, rfl,
    max_exp_bits_to_store_eq _ first_cft (max_raw_exponent_le floats) hlo hhi⟩
  unfold store_exponent_group
  simp [hload, max_exp_bits_loop_none floats hne, hfirst, hfs, hfc, hexp, hrest]

/-! ## Decoding a float with exponent -/

theorem cxx_shl_one_unsigned (k : Nat) (hk : k < 32) :
    cxx_shl_one true (k : Int) = some (2 ^ k) := by
  unfold cxx_shl_one
  rw [if_pos (by simp; omega), Int.toNat_natCast]

theorem cxx_shl_one_signed (k : Nat) (hk : k < 31) :
    cxx_shl_one false (k : Int) = some (2 ^ k) := by
  unfold cxx_shl_one
  rw [if_pos (by simp; omega), Int.toNat_natCast]

/-- The exponent offset that the decode starts from: the conversion offset,
or zero for a zero exponent of an exponent type of less than 8 bits. -/
theorem reconstruct_unfold (D E : Nat) (cft : CustomFloatType) (et : CustomIntType)
    (shared : Bool) (hexp : cft.exponent_type = some et) (hct : cft.compute_type = .f32)
    (hnb : cft.digits_type.num_bits < 32) (hd : cft.digit_bits < 32) :
    reconstruct_custom_float_with_exponent D E cft shared =
      decode_assemble
        (if shared then
          decode_shared (D % 2 ^ cft.digits_type.num_bits)
            (if et.num_bits < 8 then
              (if E ≠ 0 then get_constant cft.exponent_conversion_offset else 0)
            else get_constant cft.exponent_conversion_offset)
            (if cft.get_is_signed then 2 ^ cft.digit_bits else 0) cft
        else
          decode_own (D % 2 ^ cft.digits_type.num_bits)
            (if et.num_bits < 8 then
              (if E ≠ 0 then get_constant cft.exponent_conversion_offset else 0)
            else get_constant cft.exponent_conversion_offset) cft)
        D E cft shared := by
  unfold reconstruct_custom_float_with_exponent
  rw [hexp, get_constant_0]
  simp only [Option.bind_eq_bind, Option.some_bind, hct, if_true,
    cxx_shl_one_unsigned _ hnb, CreateAnd, Nat.and_pow_two_sub_one_eq_mod]
  cases shared
  · simp
  · cases hsg : cft.get_is_signed
    · simp
    · simp [cxx_shl_one_unsigned _ hd]

theorem decode_shared_sign_bit (digits off mask : Nat) (cft : CustomFloatType) :
    (decode_shared digits off mask cft).sign_bit =
      if cft.get_is_signed then
        some (CreateShl 32 (CreateAnd digits (get_constant mask))
          (shift_amount (31 - cft.digit_bits)))
      else none := by
  unfold decode_shared
  simp only
  split <;> rfl

/-- The sign bit of the digits moved to bit 31. -/
theorem sign_bit_to_top (digits d : Nat) (hd : d ≤ 31) :
    CreateShl 32 (CreateAnd digits (get_constant ((2 ^ d : Nat) : Int)))
        (shift_amount (31 - (d : Int))) =
      some (bit_field digits d 1 * 2 ^ 31) := by
  have hs : shift_amount (31 - (d : Int)) = 31 - d :=
    ofInt_of_nonneg _ (31 - d) (by omega) (by omega)
  have hc : get_constant ((2 ^ d : Nat) : Int) = 2 ^ d :=
    get_constant_natCast _ (Nat.pow_lt_pow_right (by norm_num) (by omega))
  unfold CreateShl CreateAnd
  rw [hs, hc, if_pos (by omega), and_two_pow_eq, Nat.mul_assoc, ← pow_add]
  have : d + (31 - d) = 31 := by omega
  rw [this]
  congr 1
  apply Nat.mod_eq_of_lt
  rcases bit_field_one_cases digits d with h | h <;> rw [h] <;> norm_num

theorem f32_to_rat_zero : f32_to_rat 0 = 0 := by
  simp [f32_to_rat, bit_field]

theorem f32_to_rat_neg_zero : f32_to_rat (2 ^ 31) = 0 := by
  simp [f32_to_rat, bit_field]

/-- The shared decode of a zero exponent or of zero digits: all bits zero but
the sign bit, which a signed field takes from bit `digit_bits` of the
digits. -/
theorem decode_shared_zero_value (D E : Nat) (cft : CustomFloatType) (et : CustomIntType)
    (hexp : cft.exponent_type = some et) (hct : cft.compute_type = .f32)
    (hnb : cft.digits_type.num_bits < 32) (hd : cft.digit_bits < 32)
    (hz : E = 0 ∨ D = 0) :
    reconstruct_custom_float_with_exponent D E cft true =
      some (if cft.get_is_signed then
        bit_field (D % 2 ^ cft.digits_type.num_bits) cft.digit_bits 1 * 2 ^ 31 else 0) := by
  have hzero : (decide (E = 0) || decide (D = 0)) = true := by
    rcases hz with h | h <;> simp [h]
  rw [reconstruct_unfold D E cft et true hexp hct hnb hd]
  unfold decode_assemble
  simp only [get_constant_0]
  simp only [if_true, hzero, decode_shared_sign_bit]
  cases hsg : cft.get_is_signed
  · simp
  · simp only [if_true]
    rw [sign_bit_to_top _ _ (by omega)]
    simp only [Option.bind_eq_bind, Option.some_bind, Option.pure_def, CreateOr,
      Nat.zero_or]

/-- The shared decode of a zero exponent or of zero digits: a pattern with
exponent and fraction bits all zero. -/
theorem decode_shared_zero_pattern (D E : Nat) (cft : CustomFloatType) (et : CustomIntType)
    (hexp : cft.exponent_type = some et) (hct : cft.compute_type = .f32)
    (hnb : cft.digits_type.num_bits < 32) (hd : cft.digit_bits < 32)
    (hz : E = 0 ∨ D = 0) :
    ∃ b, reconstruct_custom_float_with_exponent D E cft true = some b ∧
      bit_field b 23 8 = 0 ∧ b % 2 ^ 23 = 0 ∧ f32_to_rat b = 0 := by
  refine ⟨_, decode_shared_zero_value D E cft et hexp hct hnb hd hz, ?_⟩
  split_ifs
  · rcases bit_field_one_cases (D % 2 ^ cft.digits_type.num_bits) cft.digit_bits with h | h
    · rw [h]
      exact ⟨by decide, by decide, by simpa using f32_to_rat_zero⟩
    · rw [h]
      exact ⟨by decide, by decide, by simpa using f32_to_rat_neg_zero⟩
  · exact ⟨by decide, by decide, f32_to_rat_zero⟩

/-- Claim C7.  For a shared-exponent field, signed or unsigned (an `f32`
custom float with an exponent type, whose digits type and digit count are
below 32 bits): if the stored exponent `E` is zero or the stored digits `D`
are zero, the decode returns a pattern whose exponent bits 23..30 and
fraction bits 0..22 are all zero (`+0.0`, or `-0.0` when a signed field holds
a sign bit), whose value is exactly zero. -/
theorem shared_decode_zero (D E : Nat) (cft : CustomFloatType) (et : CustomIntType)
    (hexp : cft.exponent_type = some et) (hct : cft.compute_type = .f32)
    (hnb : cft.digits_type.num_bits < 32) (hd : cft.digit_bits < 32)
    (hz : E = 0 ∨ D = 0) :
    ∃ b, reconstruct_custom_float_with_exponent D E cft true = some b ∧
      bit_field b 23 8 = 0 ∧ b % 2 ^ 23 = 0 ∧ f32_to_rat b = 0 :=
  decode_shared_zero_pattern D E cft et hexp hct hnb hd hz

/-- Claim C7 at a signed field of 4 digit bits with stored exponent zero and
nonzero digits. -/
theorem shared_decode_zero_witness :
    ∃ b, reconstruct_custom_float_with_exponent 24 0 (example_shared_cft true 5 112) true =
        some b ∧ bit_field b 23 8 = 0 ∧ b % 2 ^ 23 = 0 ∧ f32_to_rat b = 0 :=
  shared_decode_zero 24 0 (example_shared_cft true 5 112) ⟨5, false, .i32, .i32⟩
    rfl rfl (by decide) (by decide) (Or.inl rfl)

/-! ## The store of a float with its own exponent -/

/-- Bits of an arithmetic shift below the sign fill are those of the logical
shift. -/
theorem ashr_low_bits (x s k : Nat) (hs : s + k ≤ 32) (hs2 : s < 32) :
    ∃ y, CreateAShr 32 x s = some y ∧ y % 2 ^ k = bit_field x s k := by
  unfold CreateAShr
  rw [if_pos hs2]
  refine ⟨_, rfl, ?_⟩
  rw [ofInt_mod_pow 32 k _ (by omega)]
  unfold bit_field
  rw [← ofInt_natCast]
  unfold toSigned
  split_ifs with h
  · congr 1
    push_cast
    rfl
  · have hdvd : (2 : Int) ^ s ∣ 2 ^ 32 := pow_dvd_pow 2 (by omega)
    rw [Int.sub_ediv_of_dvd _ hdvd]
    have hq : (2 : Int) ^ 32 / 2 ^ s = 2 ^ k * 2 ^ (32 - s - k) := by
      rw [← pow_add]
      have : (2 : Int) ^ 32 = 2 ^ (k + (32 - s - k)) * 2 ^ s := by
        rw [← pow_add]
        congr 1
        omega
      rw [this, Int.mul_ediv_cancel _ (by positivity)]
    rw [hq]
    unfold ofInt
    congr 1
    rw [Int.sub_emod, Int.mul_emod_right, sub_zero, Int.emod_emod_of_dvd _ (dvd_refl _)]
    push_cast
    rfl

theorem get_constant_sign : get_constant 0x80000000 = 2 ^ 31 := by decide

/-- What `visit(GlobalStoreStmt *)` emits for an `f32` stored to a custom float
with its own exponent and at most 23 digit bits. -/
theorem visit_GlobalStoreStmt_exponent (cft : CustomFloatType) (et : CustomIntType)
    (b : Nat) (delta : Int) (hexp : cft.exponent_type = some et)
    (hct : cft.compute_type = .f32) (hd : cft.digit_bits ≤ 23) :
    visit_GlobalStoreStmt (.customFloat cft) (.f32 b) delta =
      some ⟨some ⟨delta, et,
          max_exp_bits_to_store
            (bit_field (if cft.digit_bits < 23 then (b + 2 ^ (22 - cft.digit_bits)) % 2 ^ 32
              else b) 23 8) cft⟩,
        ⟨0, cft.digits_type,
          if max_exp_bits_to_store
            (bit_field (if cft.digit_bits < 23 then (b + 2 ^ (22 - cft.digit_bits)) % 2 ^ 32
              else b) 23 8) cft ≠ 0 then
            bit_field (if cft.digit_bits < 23 then (b + 2 ^ (22 - cft.digit_bits)) % 2 ^ 32
              else b) (23 - cft.digit_bits) cft.digit_bits |||
            (if cft.get_is_signed then
              bit_field (if cft.digit_bits < 23 then (b + 2 ^ (22 - cft.digit_bits)) % 2 ^ 32
                else b) 31 1 * 2 ^ cft.digit_bits
            else 0)
          else 0⟩⟩ := by
  have hround : round_f32_bits cft b =
      some (if cft.digit_bits < 23 then (b + 2 ^ (22 - cft.digit_bits)) % 2 ^ 32 else b) := by
    unfold round_f32_bits
    split_ifs with h
    · have h1 : (22 - (cft.digit_bits : Int)) = ((22 - cft.digit_bits : Nat) : Int) := by omega
      rw [h1, cxx_shl_one_signed _ (by omega)]
      simp only [Int.ofNat_eq_coe]
      rw [get_constant_natCast _ (Nat.pow_lt_pow_right (by norm_num) (by omega))]
      rfl
    · rfl
  generalize (if cft.digit_bits < 23 then (b + 2 ^ (22 - cft.digit_bits)) % 2 ^ 32 else b) = b2
    at hround ⊢
  obtain ⟨y1, hy1, hy1m⟩ := ashr_low_bits b2 23 8 (by norm_num) (by norm_num)
  obtain ⟨y2, hy2, hy2m⟩ := ashr_low_bits b2 (23 - cft.digit_bits) cft.digit_bits
    (by omega) (by omega)
  have hsa : shift_amount 23 = 23 := by decide
  have hc2 : get_constant (23 - (cft.digit_bits : Int)) = 23 - cft.digit_bits :=
    ofInt_of_nonneg _ (23 - cft.digit_bits) (by omega) (by omega)
  have hmask : get_constant (((2 ^ cft.digit_bits : Nat) : Int) - 1) = 2 ^ cft.digit_bits - 1 := by
    have hpos : 0 < 2 ^ cft.digit_bits := by positivity
    have hlt : 2 ^ cft.digit_bits < 2 ^ 32 := Nat.pow_lt_pow_right (by norm_num) (by omega)
    apply ofInt_of_nonneg _ (2 ^ cft.digit_bits - 1)
    · rw [Nat.cast_sub hpos]
      simp
    · omega
  have hsign := sign_bit_moved b2 cft.digit_bits (by omega)
  rw [← get_constant_sign] at hsign
  unfold visit_GlobalStoreStmt
  simp only [hexp, hct, if_true]
  unfold store_float_with_exponent
  rw [hround, Option.some_bind, hsa, hy1, Option.some_bind, hc2, hy2, Option.some_bind,
    cxx_shl_one_signed _ (show cft.digit_bits < 31 by omega), Option.some_bind]
  have hdig : digit_bits_with_sign cft b2 y2 (2 ^ cft.digit_bits) =
      some (bit_field b2 (23 - cft.digit_bits) cft.digit_bits |||
        (if cft.get_is_signed then bit_field b2 31 1 * 2 ^ cft.digit_bits else 0)) := by
    unfold digit_bits_with_sign
    simp only [Int.ofNat_eq_coe, hmask, CreateAnd, Nat.and_pow_two_sub_one_eq_mod, hy2m]
    unfold CreateAnd at hsign
    cases hsg : cft.get_is_signed
    · simp
    · simp [hsign, CreateOr]
  rw [hdig, Option.map_some']
  unfold exponent_and_digits_stores max_exp_bits_to_store
  simp only [get_constant_exp_mask, CreateAnd, Nat.and_pow_two_sub_one_eq_mod, hy1m,
    get_constant_0]

/-- Claim C8.  For an `f32` bit pattern `b` stored to a custom float with its
own exponent and `d < 23` digit bits (conversion offset `c` in the range
where `e - c` does not overflow an `int`): with
`b2 = (b + 2^(22-d)) mod 2^32` and `e = (b2 >> 23) & 0xFF`, the store emits
to the exponent field the value `max 0 (e - c)`, taking `c` as zero when `e`
is zero, which is never negative, and to the digits field the bits
`(b2 >> (23-d)) & (2^d - 1)` (with the sign bit above them for a signed
type), replaced by zero when the stored exponent is zero. -/
theorem own_exponent_encode (cft : CustomFloatType) (et : CustomIntType)
    (b : Nat) (delta : Int) (hexp : cft.exponent_type = some et)
    (hct : cft.compute_type = .f32) (hd : cft.digit_bits < 23)
    (hlo : -2147483648 + 256 ≤ cft.exponent_conversion_offset)
    (hhi : cft.exponent_conversion_offset < 2147483648) :
    ∃ E V, visit_GlobalStoreStmt (.customFloat cft) (.f32 b) delta =
        some ⟨some ⟨delta, et, E⟩, ⟨0, cft.digits_type, V⟩⟩ ∧
      toSigned 32 E =
        max 0 (((b + 2 ^ (22 - cft.digit_bits)) % 2 ^ 32 / 2 ^ 23 % 2 ^ 8 : Nat) -
          (if (b + 2 ^ (22 - cft.digit_bits)) % 2 ^ 32 / 2 ^ 23 % 2 ^ 8 = 0 then 0
            else cft.exponent_conversion_offset)) ∧
      0 ≤ toSigned 32 E ∧
      V = (if E ≠ 0 then
          (b + 2 ^ (22 - cft.digit_bits)) % 2 ^ 32 / 2 ^ (23 - cft.digit_bits) %
              2 ^ cft.digit_bits |||
            (if cft.get_is_signed then
              (b + 2 ^ (22 - cft.digit_bits)) % 2 ^ 32 / 2 ^ 31 % 2 ^ 1 * 2 ^ cft.digit_bits
            else 0)
        else 0) := by
  have h := visit_GlobalStoreStmt_exponent cft et b delta hexp hct (le_of_lt hd)
  rw [if_pos hd] at h
  have hE := max_exp_bits_to_store_eq
    (bit_field ((b + 2 ^ (22 - cft.digit_bits)) % 2 ^ 32) 23 8) cft
    (by have := bit_field_lt ((b + 2 ^ (22 - cft.digit_bits)) % 2 ^ 32) 23 8; omega) hlo hhi
  refine ⟨_, _, h, hE, ?_, rfl⟩
  rw [hE]
  exact le_max_left _ _

/-- Claim C8 at `-0.5` stored to a signed type of 4 digit bits with a 5-bit
exponent and conversion offset 112. -/
theorem own_exponent_encode_witness :
    ∃ E V, visit_GlobalStoreStmt (.customFloat (example_shared_cft true 5 112))
        (.f32 0xBF000000) 5 =
        some ⟨some ⟨5, ⟨5, false, .i32, .i32⟩, E⟩, ⟨0, ⟨5, true, .i32, .i32⟩, V⟩⟩ ∧
      0 ≤ toSigned 32 E := by
  obtain ⟨E, V, h1, _, h3, _⟩ := own_exponent_encode (example_shared_cft true 5 112)
    ⟨5, false, .i32, .i32⟩ 0xBF000000 5 rfl rfl (by decide) (by decide) (by decide)
  exact ⟨E, V, h1, h3⟩

theorem decode_assemble_unsigned (dg off D E : Nat) (sb : Option (Option Nat))
    (cft : CustomFloatType) (hsg : cft.get_is_signed = false) (hD : D ≠ 0) (hE : E ≠ 0) :
    decode_assemble ⟨sb, some dg, some off⟩ D E cft true =
      some (CreateAdd 32 E off * 2 ^ 23 % 2 ^ 32 ||| dg % 2 ^ 23) := by
  unfold decode_assemble
  simp only [get_constant_0, get_constant_23, hsg, hD, hE, decide_False, Bool.or_self,
    Bool.false_eq_true, if_false, if_true, Option.map_some', Option.some_bind, CreateShl,
    CreateOr, CreateAnd]
  rw [if_pos (by norm_num)]
  simp only [Option.bind_eq_bind, Option.some_bind, Option.pure_def]
  rw [show (1 <<< 23 - 1 : Nat) = 2 ^ 23 - 1 from by decide, Nat.and_pow_two_sub_one_eq_mod]

theorem decode_assemble_signed (dg off D E s : Nat)
    (cft : CustomFloatType) (hsg : cft.get_is_signed = true) (hD : D ≠ 0) (hE : E ≠ 0) :
    decode_assemble ⟨some (some s), some dg, some off⟩ D E cft true =
      some ((CreateAdd 32 E off * 2 ^ 23 % 2 ^ 32 ||| dg % 2 ^ 23) ||| s) := by
  unfold decode_assemble
  simp only [get_constant_0, get_constant_23, hsg, hD, hE, decide_False, Bool.or_self,
    Bool.false_eq_true, if_false, if_true, Option.map_some', Option.some_bind, CreateShl,
    CreateOr, CreateAnd]
  rw [if_pos (by norm_num)]
  simp only [Option.bind_eq_bind, Option.some_bind, Option.pure_def]
  rw [show (1 <<< 23 - 1 : Nat) = 2 ^ 23 - 1 from by decide, Nat.and_pow_two_sub_one_eq_mod]

theorem ofInt_congr (i j : Int) (h : i % 4294967296 = j % 4294967296) :
    ofInt 32 i = ofInt 32 j := by
  unfold ofInt
  norm_num
  rw [h]

/-- The exponent that the shared decode adds up, for a stored exponent
`G - c` and an offset built from `c`. -/
theorem decode_exponent_sum (G c : Int) (X Y : Nat) :
    CreateAdd 32 (ofInt 32 (G - c)) (CreateAdd 32 (CreateAdd 32 (ofInt 32 c) X) Y) =
      ofInt 32 (G + X + Y) := by
  rw [CreateAdd_ofInt, CreateAdd_ofInt, CreateAdd_ofInt]
  simp only [cast_ofInt]
  apply ofInt_congr
  norm_num
  omega

theorem decode_exponent_sum_one (G c : Int) (X : Nat) :
    CreateAdd 32 (ofInt 32 (G - c)) (CreateAdd 32 (ofInt 32 c) X) = ofInt 32 (G + X) := by
  rw [CreateAdd_ofInt, CreateAdd_ofInt]
  simp only [cast_ofInt]
  apply ofInt_congr
  norm_num
  omega

theorem max_i32_zero_of_nonneg (x : Nat) (h : 0 ≤ toSigned 32 x) :
    max_i32 x (get_constant 0) = x := by
  unfold max_i32
  rw [get_constant_0, toSigned_zero, if_neg (not_lt.mpr h)]

/-- The exponent stored for a group whose largest raw exponent is 128. -/
theorem example_stored_exponent (cft : CustomFloatType)
    (hpos : 0 < 128 - cft.exponent_conversion_offset)
    (hhi : -2147483648 + 256 ≤ cft.exponent_conversion_offset) :
    max_exp_bits_to_store 128 cft = ofInt 32 (128 - cft.exponent_conversion_offset) ∧
    max_exp_bits_to_store 128 cft ≠ 0 := by
  have hs := toSigned_ofInt_32 (128 - cft.exponent_conversion_offset) (by omega) (by omega)
  have h1 : max_exp_bits_to_store 128 cft = ofInt 32 (128 - cft.exponent_conversion_offset) := by
    have hoff : get_exponent_offset 128 cft = ofInt 32 cft.exponent_conversion_offset := by
      unfold get_exponent_offset
      rw [get_constant_0, if_pos (by norm_num)]
      rfl
    have hsub : CreateSub 32 128 (ofInt 32 cft.exponent_conversion_offset) =
        ofInt 32 (128 - cft.exponent_conversion_offset) := by
      rw [CreateSub_ofInt]
      exact ofInt_sub_ofInt 32 _ _
    unfold max_exp_bits_to_store
    simp only [hoff, hsub]
    exact max_i32_zero_of_nonneg _ (by rw [hs]; omega)
  refine ⟨h1, ?_⟩
  rw [h1]
  intro h0
  rw [h0, toSigned_zero] at hs
  omega

theorem example_digits_formula (sg : Bool) (ebits : Nat) (c : Int) (f : Nat) :
    shared_exponent_digits f 128 (example_shared_cft sg ebits c) =
      some (min ((f % 2 ^ 23 + 2 ^ 23) / 2 ^ min (CreateSub 32 128 (bit_field f 23 8)) 31 +
          2 ^ (24 - 4 - 1)) (2 ^ 24 - 1) / 2 ^ (24 - 4) +
        (if sg then bit_field f 31 1 * 2 ^ 4 else 0)) := by
  unfold shared_exponent_digits
  rw [get_float_digits_eq]
  simp only [Option.bind_eq_bind, Option.some_bind]
  have h := (round_shared_digits_eq
    ((f % 2 ^ 23 + 2 ^ 23) / 2 ^ min (CreateSub 32 128 (bit_field f 23 8)) 31) f
    (example_shared_cft sg ebits c) (get_float_digits_lt f 128)
    (show 1 ≤ 4 by norm_num) (show 4 ≤ 23 by norm_num)).1
  rw [h]
  rfl

theorem example_digits (sg : Bool) (ebits : Nat) (c : Int) :
    shared_exponent_digits 0x40000000 128 (example_shared_cft sg ebits c) = some 8 ∧
    shared_exponent_digits 0x3F000000 128 (example_shared_cft sg ebits c) = some 2 ∧
    shared_exponent_digits 0 128 (example_shared_cft sg ebits c) = some 0 := by
  simp only [example_digits_formula]
  cases sg <;> decide


theorem example_load (sg : Bool) (ebits : Nat) (c : Int) (w0 : Nat) :
    load_all_floats (example_shared_store sg ebits c) w0 [1, 2, 3] =
      some [0x40000000, 0x3F000000, 0] := by
  simp [load_all_floats, load_float, example_shared_store, find_ch_id]

theorem example_users (sg : Bool) (ebits : Nat) (c : Int) :
    store_users (example_shared_snode sg ebits c) 128 [1, 2, 3]
      [0x40000000, 0x3F000000, 0] =
      some [⟨ebits, (example_shared_cft sg ebits c).digits_type, 8⟩,
        ⟨(ebits + 5 : Nat), (example_shared_cft sg ebits c).digits_type, 2⟩,
        ⟨(ebits + 10 : Nat), (example_shared_cft sg ebits c).digits_type, 0⟩] := by
  obtain ⟨h1, h2, h3⟩ := example_digits sg ebits c
  have g1 : (example_shared_snode sg ebits c).ch[1]? =
      some ⟨.customFloat (example_shared_cft sg ebits c), ebits, true, [], some 0⟩ := rfl
  have g2 : (example_shared_snode sg ebits c).ch[2]? =
      some ⟨.customFloat (example_shared_cft sg ebits c), ebits + 5, true, [], some 0⟩ := rfl
  have g3 : (example_shared_snode sg ebits c).ch[3]? =
      some ⟨.customFloat (example_shared_cft sg ebits c), ebits + 10, true, [], some 0⟩ := rfl
  simp only [store_users, g1, g2, g3, h1, h2, h3, Option.bind_eq_bind, Option.some_bind,
    Option.pure_def]

theorem example_group (sg : Bool) (ebits : Nat) (c : Int) (w0 : Nat) :
    store_exponent_group (example_shared_store sg ebits c) w0
      ⟨.customInt ⟨ebits, false, .i32, .i32⟩, 0, false, [1, 2, 3], none⟩ =
      some [⟨0, ⟨ebits, false, .i32, .i32⟩,
          max_exp_bits_to_store 128 (example_shared_cft sg ebits c)⟩,
        ⟨ebits, (example_shared_cft sg ebits c).digits_type, 8⟩,
        ⟨(ebits + 5 : Nat), (example_shared_cft sg ebits c).digits_type, 2⟩,
        ⟨(ebits + 10 : Nat), (example_shared_cft sg ebits c).digits_type, 0⟩] := by
  have hmax : max_exp_bits_loop [0x40000000, 0x3F000000, 0] none = some (some 128) := by
    rw [max_exp_bits_loop_none _ (by simp)]
    decide
  have g1 : (example_shared_store sg ebits c).snode.ch[1]? =
      some ⟨.customFloat (example_shared_cft sg ebits c), ebits, true, [], some 0⟩ := rfl
  have hs : (example_shared_store sg ebits c).snode = example_shared_snode sg ebits c := rfl
  unfold store_exponent_group
  simp only [example_load, hmax, Option.bind_eq_bind, Option.some_bind, Option.pure_def,
    List.head?_cons, g1, hs, example_users]
  rfl

theorem example_stores (sg : Bool) (ebits : Nat) (c : Int) (w0 : Nat) :
    store_floats_with_shared_exponents (example_shared_store sg ebits c) w0 =
      some [⟨0, ⟨ebits, false, .i32, .i32⟩,
          max_exp_bits_to_store 128 (example_shared_cft sg ebits c)⟩,
        ⟨ebits, (example_shared_cft sg ebits c).digits_type, 8⟩,
        ⟨(ebits + 5 : Nat), (example_shared_cft sg ebits c).digits_type, 2⟩,
        ⟨(ebits + 10 : Nat), (example_shared_cft sg ebits c).digits_type, 0⟩] := by
  have hch : (example_shared_store sg ebits c).snode.ch =
      [⟨.customInt ⟨ebits, false, .i32, .i32⟩, 0, false, [1, 2, 3], none⟩,
       ⟨.customFloat (example_shared_cft sg ebits c), ebits, true, [], some 0⟩,
       ⟨.customFloat (example_shared_cft sg ebits c), ebits + 5, true, [], some 0⟩,
       ⟨.customFloat (example_shared_cft sg ebits c), ebits + 10, true, [], some 0⟩] := rfl
  unfold store_floats_with_shared_exponents
  rw [hch]
  simp only [store_groups, List.isEmpty_cons, List.isEmpty_nil, Bool.false_eq_true, if_false,
    if_true, example_group, Option.bind_eq_bind, Option.some_bind, Option.pure_def,
    List.append_nil, List.nil_append]

theorem decode_shared_unsigned_eq (m off mask d : Nat) (cft : CustomFloatType)
    (hsg : cft.get_is_signed = false) (hd : cft.digit_bits = d) :
    decode_shared m off mask cft =
      ⟨none,
        CreateShl 32 m (CreateSub 32 (get_constant (23 - (d : Int)))
          (CreateSub 32 (get_constant (31 - (d : Int))) (ctlz32 m))),
        some (CreateAdd 32
          (CreateAdd 32 off (CreateSub 32 (get_constant (31 - (d : Int))) (ctlz32 m)))
          (get_constant 1))⟩ := by
  unfold decode_shared
  simp only [hsg, hd, Bool.false_eq_true, if_false, Bool.not_false, if_true]

theorem decode_shared_signed_eq (m off mask d m1 : Nat) (cft : CustomFloatType)
    (hsg : cft.get_is_signed = true) (hd : cft.digit_bits = d)
    (hm1 : CreateShl 32 (CreateXor m (CreateAnd m (get_constant mask))) (shift_amount 1) =
      some m1) :
    decode_shared m off mask cft =
      ⟨some (CreateShl 32 (CreateAnd m (get_constant mask)) (shift_amount (31 - (d : Int)))),
        CreateShl 32 m1 (CreateSub 32 (get_constant (23 - (d : Int)))
          (CreateSub 32 (get_constant (31 - (d : Int))) (ctlz32 m1))),
        some (CreateAdd 32 off
          (CreateSub 32 (get_constant (31 - (d : Int))) (ctlz32 m1)))⟩ := by
  unfold decode_shared
  simp only [hsg, hd, if_true, hm1, Bool.not_true, Bool.false_eq_true, if_false]

theorem example_decode_states (sg : Bool) (ebits : Nat) (c : Int) (off : Nat) :
    decode_shared 8 off (if sg then 16 else 0) (example_shared_cft sg ebits c) =
      (if sg then ⟨some (some 0), some 8388608, some (CreateAdd 32 off 0)⟩
        else ⟨none, some 8388608, some (CreateAdd 32 (CreateAdd 32 off 4294967295) 1)⟩) ∧
    decode_shared 2 off (if sg then 16 else 0) (example_shared_cft sg ebits c) =
      (if sg then ⟨some (some 0), some 8388608, some (CreateAdd 32 off 4294967294)⟩
        else ⟨none, some 8388608, some (CreateAdd 32 (CreateAdd 32 off 4294967293) 1)⟩) := by
  cases sg
  · simp only [Bool.false_eq_true, if_false]
    constructor
    · rw [decode_shared_unsigned_eq 8 off 0 4 (example_shared_cft false ebits c) rfl rfl,
        show CreateSub 32 (get_constant (31 - ((4 : Nat) : Int))) (ctlz32 8) = 4294967295
          from by decide,
        show CreateShl 32 8 (CreateSub 32 (get_constant (23 - ((4 : Nat) : Int))) 4294967295) =
          some 8388608 from by decide, get_constant_1]
    · rw [decode_shared_unsigned_eq 2 off 0 4 (example_shared_cft false ebits c) rfl rfl,
        show CreateSub 32 (get_constant (31 - ((4 : Nat) : Int))) (ctlz32 2) = 4294967293
          from by decide,
        show CreateShl 32 2 (CreateSub 32 (get_constant (23 - ((4 : Nat) : Int))) 4294967293) =
          some 8388608 from by decide, get_constant_1]
  · simp only [if_true]
    constructor
    · rw [decode_shared_signed_eq 8 off 16 4 16 (example_shared_cft true ebits c) rfl rfl (by decide),
        show CreateShl 32 (CreateAnd 8 (get_constant ((16 : Nat) : Int)))
          (shift_amount (31 - ((4 : Nat) : Int))) = some 0 from by decide,
        show CreateSub 32 (get_constant (31 - ((4 : Nat) : Int))) (ctlz32 16) = 0
          from by decide,
        show CreateShl 32 16 (CreateSub 32 (get_constant (23 - ((4 : Nat) : Int))) 0) =
          some 8388608 from by decide]
    · rw [decode_shared_signed_eq 2 off 16 4 4 (example_shared_cft true ebits c) rfl rfl (by decide),
        show CreateShl 32 (CreateAnd 2 (get_constant ((16 : Nat) : Int)))
          (shift_amount (31 - ((4 : Nat) : Int))) = some 0 from by decide,
        show CreateSub 32 (get_constant (31 - ((4 : Nat) : Int))) (ctlz32 4) = 4294967294
          from by decide,
        show CreateShl 32 4 (CreateSub 32 (get_constant (23 - ((4 : Nat) : Int))) 4294967294) =
          some 8388608 from by decide]

/-- The shared decode of the digits stored for `2.0` and `0.5` under the
exponent stored for the group. -/
theorem example_decode (sg : Bool) (ebits : Nat) (c : Int)
    (hpos : 0 < 128 - c) (hlo : -2147483648 + 256 ≤ c) :
    reconstruct_custom_float_with_exponent 8
        (max_exp_bits_to_store 128 (example_shared_cft sg ebits c))
        (example_shared_cft sg ebits c) true = some 0x40000000 ∧
    reconstruct_custom_float_with_exponent 2
        (max_exp_bits_to_store 128 (example_shared_cft sg ebits c))
        (example_shared_cft sg ebits c) true = some 0x3F000000 := by
  obtain ⟨hE, hE0⟩ := example_stored_exponent (example_shared_cft sg ebits c) hpos hlo
  have hnb : (example_shared_cft sg ebits c).digits_type.num_bits < 32 := by
    cases sg <;> simp [example_shared_cft]
  have hoff : (if (⟨ebits, false, .i32, .i32⟩ : CustomIntType).num_bits < 8 then
      (if max_exp_bits_to_store 128 (example_shared_cft sg ebits c) ≠ 0 then
        get_constant (example_shared_cft sg ebits c).exponent_conversion_offset else 0)
      else get_constant (example_shared_cft sg ebits c).exponent_conversion_offset) =
      ofInt 32 c := by
    rw [if_pos hE0]
    simp only [ite_self]
    rfl
  have hm8 : 8 % 2 ^ (example_shared_cft sg ebits c).digits_type.num_bits = 8 := by
    cases sg <;> rfl
  have hm2 : 2 % 2 ^ (example_shared_cft sg ebits c).digits_type.num_bits = 2 := by
    cases sg <;> rfl
  have hmask : (if (example_shared_cft sg ebits c).get_is_signed then
      2 ^ (example_shared_cft sg ebits c).digit_bits else 0) = if sg then 16 else 0 := by
    cases sg <;> rfl
  obtain ⟨hs8, hs2⟩ := example_decode_states sg ebits c (ofInt 32 c)
  have hc : (example_shared_cft sg ebits c).exponent_conversion_offset = c := rfl
  rw [hc] at hE
  constructor
  · rw [reconstruct_unfold 8 _ _ ⟨ebits, false, .i32, .i32⟩ true rfl rfl hnb
      (show 4 < 32 by norm_num)]
    simp only [if_true, hoff, hm8, hmask, hs8]
    cases sg
    · simp only [Bool.false_eq_true, if_false]
      rw [decode_assemble_unsigned _ _ _ _ _ (example_shared_cft false ebits c) rfl (by norm_num) hE0, hE,
        decode_exponent_sum]
      decide
    · simp only [if_true]
      rw [decode_assemble_signed _ _ _ _ _ (example_shared_cft true ebits c) rfl (by norm_num) hE0, hE,
        decode_exponent_sum_one]
      decide
  · rw [reconstruct_unfold 2 _ _ ⟨ebits, false, .i32, .i32⟩ true rfl rfl hnb
      (show 4 < 32 by norm_num)]
    simp only [if_true, hoff, hm2, hmask, hs2]
    cases sg
    · simp only [Bool.false_eq_true, if_false]
      rw [decode_assemble_unsigned _ _ _ _ _ (example_shared_cft false ebits c) rfl (by norm_num) hE0, hE,
        decode_exponent_sum]
      decide
    · simp only [if_true]
      rw [decode_assemble_signed _ _ _ _ _ (example_shared_cft true ebits c) rfl (by norm_num) hE0, hE,
        decode_exponent_sum_one]
      decide

theorem f32_to_rat_two : f32_to_rat 0x40000000 = 2 := by
  simp [f32_to_rat, bit_field]
  norm_num

theorem f32_to_rat_half : f32_to_rat 0x3F000000 = 1 / 2 := by
  simp [f32_to_rat, bit_field]
  norm_num

theorem example_decode_zero (sg : Bool) (ebits : Nat) (c : Int) (E : Nat) :
    reconstruct_custom_float_with_exponent 0 E (example_shared_cft sg ebits c) true =
      some 0 := by
  rw [decode_shared_zero_value 0 E (example_shared_cft sg ebits c) ⟨ebits, false, .i32, .i32⟩
    rfl rfl (by cases sg <;> simp [example_shared_cft]) (show 4 < 32 by norm_num)
    (Or.inr rfl)]
  simp [bit_field]

/-- Claim C3.  For the group of three `f32` fields of 4 digit bits (signed or
unsigned) sharing one exponent field of `ebits` bits with conversion offset
`c`, holding `2.0`, `0.5` and `0.0`: the store writes the exponent and the
three digit fields; the exponent written is `max 0 (128 - c)`, where 128 is
the largest raw exponent of `2.0` and `0.5`; and when that value is nonzero
and fits the exponent field, decoding the stored digits with the stored
exponent returns exactly the patterns of `2.0` and `0.5` (so each is
reproduced within the digit resolution) and exactly `0.0` for the member
`0.0`. -/
theorem shared_exponent_example (sg : Bool) (ebits : Nat) (c : Int) (w0 : Nat)
    (hlo : -2147483648 + 256 ≤ c) (hhi : c < 2147483648) :
    ∃ E D1 D2 D3,
      store_floats_with_shared_exponents (example_shared_store sg ebits c) w0 =
        some [⟨0, ⟨ebits, false, .i32, .i32⟩, E⟩,
          ⟨ebits, (example_shared_cft sg ebits c).digits_type, D1⟩,
          ⟨(ebits + 5 : Nat), (example_shared_cft sg ebits c).digits_type, D2⟩,
          ⟨(ebits + 10 : Nat), (example_shared_cft sg ebits c).digits_type, D3⟩] ∧
      max_raw_exponent [0x40000000, 0x3F000000] = 128 ∧
      toSigned 32 E = max 0 (128 - c) ∧
      (0 < 128 - c → 128 - c < 2 ^ ebits →
        reconstruct_custom_float_with_exponent D1 E (example_shared_cft sg ebits c) true =
          some 0x40000000 ∧
        reconstruct_custom_float_with_exponent D2 E (example_shared_cft sg ebits c) true =
          some 0x3F000000 ∧
        reconstruct_custom_float_with_exponent D3 E (example_shared_cft sg ebits c) true =
          some 0) ∧
      f32_to_rat 0x40000000 = 2 ∧ f32_to_rat 0x3F000000 = 1 / 2 ∧ f32_to_rat 0 = 0 := by
  refine ⟨_, 8, 2, 0, example_stores sg ebits c w0, by decide, ?_, ?_,
    f32_to_rat_two, f32_to_rat_half, f32_to_rat_zero⟩
  · have h := max_exp_bits_to_store_eq 128 (example_shared_cft sg ebits c) (by norm_num)
      hlo hhi
    rw [h]
    simp [example_shared_cft]
  · intro hpos _
    obtain ⟨h8, h2⟩ := example_decode sg ebits c hpos hlo
    exact ⟨h8, h2, example_decode_zero sg ebits c _⟩

/-- Claim C3 for unsigned fields with a 5-bit exponent and conversion offset
112: the exponent stored is 16. -/
theorem shared_exponent_example_witness :
    ∃ E D1 D2 D3,
      store_floats_with_shared_exponents (example_shared_store false 5 112) 0 =
        some [⟨0, ⟨5, false, .i32, .i32⟩, E⟩,
          ⟨5, ⟨4, false, .i32, .i32⟩, D1⟩,
          ⟨10, ⟨4, false, .i32, .i32⟩, D2⟩,
          ⟨15, ⟨4, false, .i32, .i32⟩, D3⟩] ∧
      toSigned 32 E = 16 ∧
      reconstruct_custom_float_with_exponent D1 E (example_shared_cft false 5 112) true =
        some 0x40000000 ∧
      reconstruct_custom_float_with_exponent D2 E (example_shared_cft false 5 112) true =
        some 0x3F000000 ∧
      reconstruct_custom_float_with_exponent D3 E (example_shared_cft false 5 112) true =
        some 0 := by
  obtain ⟨E, D1, D2, D3, h1, _, h3, h4, _⟩ :=
    shared_exponent_example false 5 112 0 (by decide) (by decide)
  obtain ⟨h5, h6, h7⟩ := h4 (by decide) (by decide)
  exact ⟨E, D1, D2, D3, h1, h3, h5, h6, h7⟩

/-- Claim C4 on the group of `2.0`, `0.5` and `0.0` with a 5-bit exponent and
conversion offset 112: the exponent written is `128 - 112`. -/
theorem stored_shared_exponent_witness :
    ∃ E rest, store_exponent_group (example_shared_store false 5 112) 0
        ⟨.customInt ⟨5, false, .i32, .i32⟩, 0, false, [1, 2, 3], none⟩ =
        some (⟨0, ⟨5, false, .i32, .i32⟩, E⟩ :: rest) ∧
      toSigned 32 E = 16 := by
  obtain ⟨E, rest, h1, _, h3⟩ := stored_shared_exponent (example_shared_store false 5 112) 0
    ⟨.customInt ⟨5, false, .i32, .i32⟩, 0, false, [1, 2, 3], none⟩ ⟨5, false, .i32, .i32⟩
    [0x40000000, 0x3F000000, 0] 1
    ⟨.customFloat (example_shared_cft false 5 112), 5, true, [], some 0⟩
    (example_shared_cft false 5 112) rfl rfl rfl rfl
    (by
      intro user hu
      simp only [List.mem_cons, List.mem_singleton, List.not_mem_nil, or_false] at hu
      rcases hu with rfl | rfl | rfl <;>
        simp [shared_digits_child, example_shared_store, example_shared_snode,
          example_shared_cft])
    rfl (by decide) (by decide)
  exact ⟨E, rest, h1, h3⟩


/-! ## Custom floats without exponent -/

theorem readInt_ofInt_of_representable (n C : Nat) (sg : Bool) (i : Int) (hn : 1 ≤ n)
    (hnC : n ≤ C) (hi : int_representable n sg i) : readInt C sg (ofInt C i) = i := by
  unfold int_representable at hi
  cases sg
  · simp only [Bool.false_eq_true, if_false] at hi
    simp only [readInt, Bool.false_eq_true, if_false]
    rw [cast_ofInt]
    apply Int.emod_eq_of_lt hi.1
    have : (2 : Int) ^ n ≤ 2 ^ C := pow_le_pow_right₀ (by norm_num) hnC
    omega
  · simp only [if_true] at hi
    simp only [readInt, if_true]
    have hmono : (2 : Int) ^ (n - 1) ≤ 2 ^ (C - 1) :=
      pow_le_pow_right₀ (by norm_num) (by omega)
    exact toSigned_ofInt C i (by omega) (by omega) (by omega)

/-! ## Rounding to a floating-point format -/

theorem CreateAdd_get_constant (o : Nat) (d : Int) :
    CreateAdd 32 o (get_constant d) = ofInt 32 ((o : Int) + d) := by
  rw [CreateAdd_ofInt]
  unfold get_constant
  rw [ofInt_add_ofInt]

theorem offset_bit_ptr_bit_offset (p : BitPtrStruct) (d : Int) :
    (offset_bit_ptr p d).bit_offset = p.bit_offset.map (fun (o : Nat) => ofInt 32 ((o : Int) + d)) := by
  unfold offset_bit_ptr create_bit_ptr_struct
  simp only [CreateAdd_get_constant]

theorem offset_bit_ptr_twice (p : BitPtrStruct) (d1 d2 : Int) :
    offset_bit_ptr (offset_bit_ptr p d1) d2 = offset_bit_ptr p (d1 + d2) := by
  unfold offset_bit_ptr create_bit_ptr_struct
  simp only [CreateAdd_get_constant, Option.map_map]
  congr 1
  cases p.bit_offset with
  | none => rfl
  | some o =>
    simp only [Option.map_some', Function.comp_apply]
    rw [ofInt_ofInt_add, add_assoc]

theorem offset_bit_ptr_exact (p : BitPtrStruct) (d : Int) (o : Nat)
    (ho : p.bit_offset = some o) (hlt : o < 2 ^ 32)
    (hlo : -2147483648 ≤ toSigned 32 o + d) (hhi : toSigned 32 o + d < 2147483648) :
    ∃ o2, (offset_bit_ptr p d).bit_offset = some o2 ∧ toSigned 32 o2 = toSigned 32 o + d := by
  refine ⟨ofInt 32 ((o : Int) + d), ?_, ?_⟩
  · rw [offset_bit_ptr_bit_offset, ho]
    rfl
  · have h : ofInt 32 ((o : Int) + d) = ofInt 32 (toSigned 32 o + d) := by
      conv_lhs => rw [← ofInt_toSigned 32 o hlt]
      rw [ofInt_ofInt_add]
    rw [h, toSigned_ofInt_32 _ hlo hhi]

/-- Claim C11.  Offsetting a bit pointer twice is offsetting it once by the sum of
the deltas; the byte address is never changed, and the bit offset becomes the
`i32` sum of the offset and the delta, which is exactly offset plus delta
whenever that sum is a 32-bit signed integer. -/
theorem bit_pointer_composition (p : BitPtrStruct) (d1 d2 : Int) :
    offset_bit_ptr (offset_bit_ptr p d1) d2 = offset_bit_ptr p (d1 + d2) ∧
    (offset_bit_ptr p d1).byte_ptr = p.byte_ptr ∧
    (offset_bit_ptr p d1).bit_offset =
      p.bit_offset.map (fun (o : Nat) => ofInt 32 ((o : Int) + d1)) ∧
    (∀ o : Nat, p.bit_offset = some o → o < 2 ^ 32 →
      -2147483648 ≤ toSigned 32 o + d1 → toSigned 32 o + d1 < 2147483648 →
      ∃ o2, (offset_bit_ptr p d1).bit_offset = some o2 ∧
        toSigned 32 o2 = toSigned 32 o + d1) :=
  ⟨offset_bit_ptr_twice p d1 d2, rfl, offset_bit_ptr_bit_offset p d1,
    fun o ho hlt hlo hhi => offset_bit_ptr_exact p d1 o ho hlt hlo hhi⟩

/-- Claim C11 at the bit pointer `(4096, 5)` offset by `7` and then by `-3`. -/
theorem bit_pointer_composition_witness :
    offset_bit_ptr (offset_bit_ptr ⟨some 4096, some 5⟩ 7) (-3) =
      offset_bit_ptr ⟨some 4096, some 5⟩ 4 ∧
    (offset_bit_ptr ⟨some 4096, some 5⟩ 7).byte_ptr = some 4096 ∧
    ∃ o2, (offset_bit_ptr ⟨some 4096, some 5⟩ 7).bit_offset = some o2 ∧
      toSigned 32 o2 = toSigned 32 5 + 7 :=
  ⟨(bit_pointer_composition ⟨some 4096, some 5⟩ 7 (-3)).1,
    (bit_pointer_composition ⟨some 4096, some 5⟩ 7 (-3)).2.1,
    (bit_pointer_composition ⟨some 4096, some 5⟩ 7 (-3)).2.2.2 5 rfl (by norm_num)
      (by decide) (by decide)⟩

/-! ## Offloaded tasks -/

theorem register_tasks_foldl (names : List String) (tasks : List OffloadedTask) :
    names.foldl (fun tasks name => (OffloadedTask.new.begin name).end_ tasks) tasks =
      tasks ++ names.map (fun name => ⟨name, none⟩) := by
  induction names generalizing tasks with
  | nil => simp
  | cons name rest ih =>
    rw [List.foldl_cons, ih]
    simp [OffloadedTask.end_, OffloadedTask.begin, OffloadedTask.new]

theorem register_tasks_eq (names : List String) :
    register_tasks names = names.map (fun name => ⟨name, none⟩) := by
  unfold register_tasks
  rw [register_tasks_foldl]
  rfl

theorem compile_tasks_registered (lookup : String → Option Nat) (names : List String)
    (h : ∀ name ∈ names, (lookup name).isSome = true) :
    compile_tasks lookup (names.map (fun name => (⟨name, none⟩ : OffloadedTask))) =
      .ok (names.map (fun name => ⟨name, some ((lookup name).getD 0)⟩)) := by
  induction names with
  | nil => rfl
  | cons name rest ih =>
    have h1 : (lookup name).isSome = true := h name (List.mem_cons_self _ _)
    obtain ⟨f, hf⟩ := Option.isSome_iff_exists.mp h1
    have h2 := ih (fun n hn => h n (List.mem_cons_of_mem _ hn))
    simp only [List.map_cons, compile_tasks, OffloadedTask.compile, hf, h2, Option.getD_some]

theorem launch_compiled (lookup : String → Option Nat) (context : Nat) (names : List String)
    (calls : List (Nat × Nat)) :
    launch context (names.map (fun name => ⟨name, some ((lookup name).getD 0)⟩)) calls =
      .ok (calls ++ names.map (fun name => ((lookup name).getD 0, context))) := by
  induction names generalizing calls with
  | nil => simp [launch]
  | cons name rest ih =>
    simp only [List.map_cons, launch, OffloadedTask.call]
    rw [ih]
    simp

/-- Claim C14.  For tasks registered through `end()` under the names `T1, ..., Tn`,
all of which resolve to an entry point, `compile_module_to_executable` returns
a launcher, and every call of the launcher calls the entry points of
`T1, ..., Tn`, each once, in that order, each with the context of the call. -/
theorem task_ordering (lookup : String → Option Nat) (names : List String)
    (h : ∀ name ∈ names, (lookup name).isSome = true) :
    ∃ launcher, compile_module_to_executable lookup (register_tasks names) = .ok launcher ∧
      ∀ (context : Nat) (calls : List (Nat × Nat)),
        launcher context calls =
          .ok (calls ++ names.map (fun name => ((lookup name).getD 0, context))) := by
  refine ⟨fun context calls => launch context
    (names.map (fun name => ⟨name, some ((lookup name).getD 0)⟩)) calls, ?_, ?_⟩
  · unfold compile_module_to_executable
    rw [register_tasks_eq, compile_tasks_registered lookup names h]
  · intro context calls
    exact launch_compiled lookup context names calls

/-- Claim C14 at the tasks `A`, `B`, `C` with entry points 10, 20 and 30. -/
theorem task_ordering_witness :
    ∃ launcher, compile_module_to_executable
        (fun name => if name = "A" then some 10 else if name = "B" then some 20 else some 30)
        (register_tasks ["A", "B", "C"]) = .ok launcher ∧
      ∀ (context : Nat) (calls : List (Nat × Nat)),
        launcher context calls =
          .ok (calls ++ ["A", "B", "C"].map (fun name =>
            (((fun name => if name = "A" then some 10 else if name = "B" then some 20
              else some 30) name : Option Nat).getD 0, context))) :=
  task_ordering (fun name => if name = "A" then some 10 else if name = "B" then some 20
    else some 30) ["A", "B", "C"] (by
      intro name _
      simp only []
      split_ifs <;> rfl)

/-! ## The lowering of `pow` -/

theorem lower_pow_eq (arch : Arch) (t : TiType) (l r : LLVMValue) :
    lower_pow arch t l r =
      match pow_helper arch t with
      | some callee => .ok (.call2 callee l r)
      | none => .error Fatal.not_implemented := by
  cases arch <;> cases t with
  | primitive id => cases id <;> simp [lower_pow, pow_helper, TiType.is_primitive, arch_is_cpu]
  | custom dt => simp [lower_pow, pow_helper, TiType.is_primitive, arch_is_cpu]

theorem pow_helper_none (arch : Arch) (t : TiType) :
    pow_helper arch t = none ↔
      ¬ pow_type t ∨ (arch_is_cpu arch = false ∧ arch ≠ Arch.cuda) := by
  cases arch <;> cases t with
  | primitive id => cases id <;> simp [pow_helper, pow_type, arch_is_cpu]
  | custom dt => simp [pow_helper, pow_type, arch_is_cpu]

theorem pow_helper_custom (arch : Arch) (dt : DataType) :
    pow_helper arch (.custom dt) = none := by
  cases arch <;> rfl

/-- Claim C15.  A `BinaryOpStmt` with op `pow` is lowered to one call of the helper
of its architecture and result type, recorded for the statement, when such a
helper exists; it stops as not implemented, recording nothing, when none
exists, which is the case exactly when the result type is not one of `f32`,
`f64`, `i32`, `i64` or the architecture is neither a CPU nor CUDA; no custom
type has a helper. -/
theorem pow_fatal_path (current_arch : Arch) (id : Nat) (stmt : BinaryOpStmt)
    (llvm_val : List (Nat × LLVMValue)) (hop : stmt.op_type = BinaryOpType.pow) :
    (visit_BinaryOpStmt current_arch id stmt llvm_val =
      match pow_helper current_arch stmt.ret_type with
      | some callee =>
        .ok ((id, .call2 callee (.val stmt.lhs) (.val stmt.rhs)) :: llvm_val)
      | none => .error Fatal.not_implemented) ∧
    (pow_helper current_arch stmt.ret_type = none ↔
      ¬ pow_type stmt.ret_type ∨
        (arch_is_cpu current_arch = false ∧ current_arch ≠ Arch.cuda)) ∧
    (∀ dt, pow_helper current_arch (.custom dt) = none) := by
  refine ⟨?_, pow_helper_none _ _, pow_helper_custom _⟩
  unfold visit_BinaryOpStmt lower_BinaryOpStmt
  simp only [hop, lower_pow_eq]
  cases pow_helper current_arch stmt.ret_type <;> rfl

/-- Claim C15 at a custom integer result type on a CPU and at `f32` on CUDA. -/
theorem pow_fatal_path_witness :
    visit_BinaryOpStmt Arch.x64 7
        ⟨.pow, .custom (.customInt ⟨5, true, .i32, .i32⟩), 1, 2, .primitive .i32⟩ [] =
      .error Fatal.not_implemented ∧
    visit_BinaryOpStmt Arch.cuda 7 ⟨.pow, .primitive .f32, 1, 2, .primitive .f32⟩ [] =
      .ok [(7, .call2 "__nv_powf" (.val 1) (.val 2))] :=
  ⟨(pow_fatal_path Arch.x64 7
      ⟨.pow, .custom (.customInt ⟨5, true, .i32, .i32⟩), 1, 2, .primitive .i32⟩ [] rfl).1,
    (pow_fatal_path Arch.cuda 7 ⟨.pow, .primitive .f32, 1, 2, .primitive .f32⟩ [] rfl).1⟩

/-! ## The width check of `cast_bits` -/

theorem visit_cast_bits (emit_extra_unary : UnaryOpStmt → Except Fatal LLVMValue)
    (stmt : UnaryOpStmt) (rt ct : PrimitiveTypeID) (hop : stmt.op_type = UnaryOpType.cast_bits)
    (hr : stmt.ret_type = .primitive rt) (hc : stmt.cast_type = .primitive ct) :
    visit_UnaryOpStmt emit_extra_unary stmt =
      if data_type_size rt = data_type_size ct then
        .ok (.cast "BitCast" (.val stmt.operand) stmt.cast_type)
      else .error Fatal.assertion_failure := by
  unfold visit_UnaryOpStmt
  simp only [hop, hr, hc, TiType.data_type_size]

/-- Claim C16.  The width check of `cast_bits` compares the type of the statement
with the cast type, not the type of the operand: a 64-bit integer operand
cast to `f32` passes the check and is lowered to a bit cast, which no 64-bit
pattern has as a 32-bit value. -/
theorem cast_bits_checks_statement_type
    (emit_extra_unary : UnaryOpStmt → Except Fatal LLVMValue) (x : Nat) :
    visit_UnaryOpStmt emit_extra_unary cast_bits_i64_to_f32 =
      .ok (.cast "BitCast" (.val 0) (.primitive .f32)) ∧
    value_bits cast_bits_i64_to_f32.operand_ret_type = 64 ∧
    value_bits cast_bits_i64_to_f32.cast_type = 32 ∧
    CreateBitCast (value_bits cast_bits_i64_to_f32.operand_ret_type)
      (value_bits cast_bits_i64_to_f32.cast_type) x = none :=
  ⟨rfl, rfl, rfl, rfl⟩

/-! ## Integer casts -/

theorem data_type_bits_eq (t : PrimitiveTypeID) : data_type_bits t = 8 * data_type_size t := by
  cases t <;> rfl

theorem cast_int_from_size_eq (src : TiType) (hsrc : is_integer_type src) :
    ∃ fs, cast_int_from_size src = .ok fs ∧ value_bits src = 8 * fs := by
  cases src with
  | primitive id => exact ⟨data_type_size id, rfl, data_type_bits_eq id⟩
  | custom dt =>
    cases dt with
    | customInt cit => exact ⟨data_type_size cit.compute_type, rfl, data_type_bits_eq _⟩
    | customFloat cft => exact absurd hsrc (by simp [is_integer_type, is_integral])

theorem cast_int_select (x : Nat) (src : TiType) (dst : PrimitiveTypeID)
    (hsrc : is_integer_type src) (hne : src ≠ .primitive dst) :
    cast_int x src (.primitive dst) =
      .ok (if value_bits src < data_type_bits dst then
            (if is_signed src then CreateSExt (value_bits src) (data_type_bits dst) x
             else CreateZExt (value_bits src) (data_type_bits dst) x)
          else CreateTrunc (value_bits src) (data_type_bits dst) x) := by
  obtain ⟨fs, hfs, hvb⟩ := cast_int_from_size_eq src hsrc
  have hdb := data_type_bits_eq dst
  unfold cast_int
  rw [if_neg hne]
  simp only [hfs, TiType.data_type_size, hvb, hdb]
  by_cases h : fs < data_type_size dst
  · have h2 : 8 * fs < 8 * data_type_size dst := by omega
    rw [if_pos h, if_pos h2]
    split_ifs <;> rfl
  · have h2 : ¬ 8 * fs < 8 * data_type_size dst := by omega
    rw [if_neg h, if_neg h2]

theorem cast_int_value (x : Nat) (src : TiType) (dst : PrimitiveTypeID)
    (hsrc : is_integer_type src) (hne : src ≠ .primitive dst) (hx : x < 2 ^ value_bits src) :
    cast_int x src (.primitive dst) =
      .ok (some (ofInt (data_type_bits dst) (readInt (value_bits src) (is_signed src) x))) := by
  rw [cast_int_select x src dst hsrc hne]
  congr 1
  by_cases h : value_bits src < data_type_bits dst
  · rw [if_pos h]
    cases hs : is_signed src
    · simp only [Bool.false_eq_true, if_false, CreateZExt, if_pos (le_of_lt h), readInt]
      rw [ofInt_natCast, Nat.mod_eq_of_lt]
      exact lt_of_lt_of_le hx (Nat.pow_le_pow_right (by norm_num) (le_of_lt h))
    · simp only [if_true, CreateSExt, if_pos (le_of_lt h), readInt]
  · rw [if_neg h]
    have hle : data_type_bits dst ≤ value_bits src := not_lt.mp h
    simp only [CreateTrunc, if_pos hle]
    cases hs : is_signed src
    · simp only [readInt, Bool.false_eq_true, if_false]
      rw [ofInt_natCast]
    · simp only [readInt, if_true]
      rw [← ofInt_mod_pow (value_bits src) (data_type_bits dst) _ hle,
        ofInt_toSigned _ _ hx]

/-- Claim C17.  For distinct integer types, `cast_int` sign-extends a signed source
to a strictly wider destination, zero-extends an unsigned one, and truncates
otherwise, the width of a custom integer source being that of its compute
type; the result is the pattern of the source value, read with the
signedness of the source, modulo `2 ^ bits(to)`, and when the destination is
strictly wider and can represent that value, the result read as the
destination type is that value. -/
theorem cast_int_semantics (x : Nat) (src : TiType) (dst : PrimitiveTypeID)
    (hsrc : is_integer_type src) (_hdst : is_integral (.primitive dst) = true)
    (hne : src ≠ .primitive dst) (hx : x < 2 ^ value_bits src) :
    cast_int x src (.primitive dst) =
      .ok (if value_bits src < data_type_bits dst then
            (if is_signed src then CreateSExt (value_bits src) (data_type_bits dst) x
             else CreateZExt (value_bits src) (data_type_bits dst) x)
          else CreateTrunc (value_bits src) (data_type_bits dst) x) ∧
    cast_int x src (.primitive dst) =
      .ok (some (ofInt (data_type_bits dst) (readInt (value_bits src) (is_signed src) x))) ∧
    (value_bits src < data_type_bits dst →
      int_representable (data_type_bits dst) (is_signed (.primitive dst))
        (readInt (value_bits src) (is_signed src) x) →
      readInt (data_type_bits dst) (is_signed (.primitive dst))
          (ofInt (data_type_bits dst) (readInt (value_bits src) (is_signed src) x)) =
        readInt (value_bits src) (is_signed src) x) := by
  refine ⟨cast_int_select x src dst hsrc hne, cast_int_value x src dst hsrc hne hx, ?_⟩
  intro _ hrep
  have hpos := data_type_bits_pos dst
  exact readInt_ofInt_of_representable _ _ _ _ (by omega) le_rfl hrep

/-- Claim C17 at the `i8` pattern of `-1` cast to `i32`. -/
theorem cast_int_semantics_witness :
    cast_int 255 (.primitive .i8) (.primitive .i32) =
      .ok (some (ofInt 32 (readInt 8 true 255))) ∧
    readInt 32 true (ofInt 32 (readInt 8 true 255)) = readInt 8 true 255 := by
  have h := cast_int_semantics 255 (.primitive .i8) .i32 (by simp [is_integer_type, is_integral])
    rfl (by simp) (by simp [value_bits, data_type_bits])
  refine ⟨h.2.1, h.2.2 (by simp [value_bits, data_type_bits]) ?_⟩
  simp only [int_representable, is_signed, value_bits, data_type_bits, readInt, toSigned]
  norm_num

/-! ## `deactivate` on an SNode -/

/-- Claim C18, counterexample.  A `deactivate` on a `dense` SNode, a kind that is
none of pointer, hash, bitmasked or dynamic, is lowered without an error and
without emitting a call. -/
theorem deactivate_dense_is_silent :
    deactivate_dense.op_type = SNodeOpType.deactivate ∧
    deactivate_dense.snode_type ∉
      [SNodeType.pointer, SNodeType.hash, SNodeType.bitmasked, SNodeType.dynamic] ∧
    visit_SNodeOpStmt deactivate_dense = .ok none := by
  refine ⟨rfl, by decide, rfl⟩

/-- Claim C18, amended.  Lowering a `deactivate` on an SNode whose kind is
none of pointer, hash, bitmasked or dynamic does not stop with an error: it
returns without emitting a call and without recording a value.  For the kinds
pointer, hash and bitmasked the helper `call` is given the index, for the
kind dynamic no argument; the helper emits the call for pointer, bitmasked
and dynamic, and stops as not implemented for hash, a kind without a meta
structure. -/
theorem deactivate_lowering (stmt : SNodeOpStmt)
    (hop : stmt.op_type = SNodeOpType.deactivate) :
    (stmt.snode_type ∉
        [SNodeType.pointer, SNodeType.hash, SNodeType.bitmasked, SNodeType.dynamic] →
      visit_SNodeOpStmt stmt = .ok none) ∧
    (stmt.snode_type = SNodeType.pointer ∨ stmt.snode_type = SNodeType.hash ∨
        stmt.snode_type = SNodeType.bitmasked →
      visit_SNodeOpStmt stmt =
        (call stmt.snode_type stmt.ptr "deactivate" [stmt.val]).map some) ∧
    (stmt.snode_type = SNodeType.dynamic →
      visit_SNodeOpStmt stmt = (call stmt.snode_type stmt.ptr "deactivate" []).map some) ∧
    (stmt.snode_type = SNodeType.pointer ∨ stmt.snode_type = SNodeType.bitmasked →
      visit_SNodeOpStmt stmt = .ok (some ⟨stmt.ptr, "deactivate", [stmt.val]⟩)) ∧
    (stmt.snode_type = SNodeType.dynamic →
      visit_SNodeOpStmt stmt = .ok (some ⟨stmt.ptr, "deactivate", []⟩)) ∧
    (stmt.snode_type = SNodeType.hash →
      visit_SNodeOpStmt stmt = .error Fatal.not_implemented) := by
  unfold visit_SNodeOpStmt
  simp only [hop]
  refine ⟨?_, ?_, ?_, ?_, ?_, ?_⟩
  · intro h
    simp only [List.mem_cons, List.mem_singleton, List.not_mem_nil, or_false, not_or] at h
    simp [h.1, h.2.1, h.2.2.1, h.2.2.2]
  · intro h
    rw [if_pos h]
  · intro h
    simp [h]
  · intro h
    rcases h with h | h <;> simp [h] <;> rfl
  · intro h
    simp [h]
    rfl
  · intro h
    simp [h]
    rfl

/-- Claim C18, amended, at a `deactivate` on a root SNode, which emits
nothing, and on a bitmasked SNode, which emits the call. -/
theorem deactivate_lowering_witness :
    visit_SNodeOpStmt ⟨.deactivate, .root, .primitive .i32, 3, 4⟩ = .ok none ∧
    visit_SNodeOpStmt ⟨.deactivate, .bitmasked, .primitive .i32, 3, 4⟩ =
      .ok (some ⟨3, "deactivate", [4]⟩) :=
  ⟨(deactivate_lowering ⟨.deactivate, .root, .primitive .i32, 3, 4⟩ rfl).1 (by decide),
    (deactivate_lowering ⟨.deactivate, .bitmasked, .primitive .i32, 3, 4⟩ rfl).2.2.2.1
      (Or.inr rfl)⟩

/-! ## The loop targets of the engine -/

theorem visit_preserves_targets (s : Stmt) :
    ∀ cg cg1 : CodeGenLLVM, visit s cg = .ok cg1 →
      cg1.current_loop_reentry = cg.current_loop_reentry ∧
      cg1.current_while_after_loop = cg.current_while_after_loop := by
  induction s with
  | other =>
    intro cg cg1 h
    simp only [visit, Except.ok.injEq] at h
    subst h
    exact ⟨rfl, rfl⟩
  | block_end =>
    intro cg cg1 h
    simp only [visit, Except.ok.injEq] at h
    subst h
    exact ⟨rfl, rfl⟩
  | block_cons stmt rest ih1 ih2 =>
    intro cg cg1 h
    simp only [visit] at h
    cases h1 : visit stmt cg with
    | error e => rw [h1] at h; exact absurd h (by simp)
    | ok cg2 =>
      rw [h1] at h
      have a := ih1 cg cg2 h1
      have b := ih2 cg2 cg1 h
      exact ⟨b.1.trans a.1, b.2.trans a.2⟩
  | IfStmt t f ih1 ih2 =>
    intro cg cg1 h
    simp only [visit] at h
    split at h
    · exact absurd h (by simp)
    · rename_i cg5 h5
      split at h
      · exact absurd h (by simp)
      · rename_i cg7 h7
        simp only [Except.ok.injEq] at h
        subst h
        have a := ih1 _ _ h5
        have b := ih2 _ _ h7
        exact ⟨b.1.trans a.1, b.2.trans a.2⟩
  | WhileStmt body _ =>
    intro cg cg1 h
    simp only [visit] at h
    split at h
    · exact absurd h (by simp)
    · simp only [Except.ok.injEq] at h
      subst h
      exact ⟨rfl, rfl⟩
  | RangeForStmt reversed body ih =>
    intro cg cg1 h
    simp only [visit] at h
    split at h
    · exact absurd h (by simp)
    · rename_i cg_body hb
      simp only [Except.ok.injEq] at h
      subst h
      exact ⟨rfl, (ih _ _ hb).2⟩
  | WhileControlStmt =>
    intro cg cg1 h
    simp only [visit, BasicBlock.Create] at h
    split at h
    · exact absurd h (by simp)
    · simp only [Except.ok.injEq] at h
      subst h
      exact ⟨rfl, rfl⟩
  | ContinueStmt as_return =>
    intro cg cg1 h
    simp only [visit] at h
    split at h
    · exact absurd h (by simp)
    · rename_i cg2 h2
      simp only [Except.ok.injEq] at h
      subst h
      split at h2
      · simp only [Except.ok.injEq] at h2
        subst h2
        exact ⟨rfl, rfl⟩
      · split at h2
        · exact absurd h2 (by simp)
        · simp only [Except.ok.injEq] at h2
          subst h2
          exact ⟨rfl, rfl⟩

theorem visit_while_body (body : Stmt) (cg cg1 : CodeGenLLVM)
    (h : visit (.WhileStmt body) cg = .ok cg1) :
    ∃ cg_body, visit body (while_body_entry cg) = .ok cg_body ∧
      cg1 = while_exit cg cg_body := by
  simp only [visit] at h
  split at h
  · exact absurd h (by simp)
  · rename_i cg_body hb
    simp only [Except.ok.injEq] at h
    exact ⟨cg_body, hb, h.symm⟩

theorem visit_range_for_body (reversed : Bool) (body : Stmt) (cg cg1 : CodeGenLLVM)
    (h : visit (.RangeForStmt reversed body) cg = .ok cg1) :
    ∃ cg_body, visit body (range_for_body_entry cg) = .ok cg_body ∧
      cg1 = range_for_exit cg cg_body := by
  simp only [visit] at h
  split at h
  · exact absurd h (by simp)
  · rename_i cg_body hb
    simp only [Except.ok.injEq] at h
    exact ⟨cg_body, hb, h.symm⟩

theorem visit_block_cons (stmt rest : Stmt) (cg cg2 : CodeGenLLVM)
    (h : visit (.block_cons stmt rest) cg = .ok cg2) :
    ∃ cg1, visit stmt cg = .ok cg1 ∧ visit rest cg1 = .ok cg2 := by
  simp only [visit] at h
  cases h1 : visit stmt cg with
  | error e => rw [h1] at h; exact absurd h (by simp)
  | ok cg1 => rw [h1] at h; exact ⟨cg1, rfl, h⟩

/-- Claim C19.  Lowering a statement, in particular a `WhileStmt` or a
`RangeForStmt` with any nesting of loops in its body, leaves
`current_loop_reentry` and `current_while_after_loop` as they were before it;
the body of a while loop is lowered with the head of the body as reentry
target and the block after the loop as after-loop target, the body of a
range-for with its increment block as reentry target; and a statement that
follows a loop in a block is lowered with the targets that were in force
before the loop. -/
theorem scoped_restore_of_loop_targets :
    (∀ (s : Stmt) (cg cg1 : CodeGenLLVM), visit s cg = .ok cg1 →
      cg1.current_loop_reentry = cg.current_loop_reentry ∧
      cg1.current_while_after_loop = cg.current_while_after_loop) ∧
    (∀ (body : Stmt) (cg cg1 : CodeGenLLVM), visit (.WhileStmt body) cg = .ok cg1 →
      ∃ cg_in cg_body, visit body cg_in = .ok cg_body ∧ cg1 = while_exit cg cg_body ∧
        cg_in.insert_point = cg.num_blocks ∧
        cg_in.current_loop_reentry = some cg.num_blocks ∧
        cg_in.current_while_after_loop = some (cg.num_blocks + 1) ∧
        cg1.insert_point = cg.num_blocks + 1) ∧
    (∀ (reversed : Bool) (body : Stmt) (cg cg1 : CodeGenLLVM),
      visit (.RangeForStmt reversed body) cg = .ok cg1 →
      ∃ cg_in cg_body, visit body cg_in = .ok cg_body ∧ cg1 = range_for_exit cg cg_body ∧
        cg_in.insert_point = cg.num_blocks ∧
        cg_in.current_loop_reentry = some (cg.num_blocks + 1) ∧
        cg_in.current_while_after_loop = cg.current_while_after_loop ∧
        (cg.num_blocks + 1, Terminator.br (cg.num_blocks + 3)) ∈ cg1.terminators) ∧
    (∀ (loop rest : Stmt) (cg cg2 : CodeGenLLVM),
      visit (.block_cons loop rest) cg = .ok cg2 →
      ∃ cg1, visit loop cg = .ok cg1 ∧ visit rest cg1 = .ok cg2 ∧
        cg1.current_loop_reentry = cg.current_loop_reentry ∧
        cg1.current_while_after_loop = cg.current_while_after_loop) := by
  refine ⟨fun s => visit_preserves_targets s, ?_, ?_, ?_⟩
  · intro body cg cg1 h
    obtain ⟨cg_body, hb, h1⟩ := visit_while_body body cg cg1 h
    refine ⟨while_body_entry cg, cg_body, hb, h1, rfl, rfl, rfl, ?_⟩
    rw [h1]
    rfl
  · intro reversed body cg cg1 h
    obtain ⟨cg_body, hb, h1⟩ := visit_range_for_body reversed body cg cg1 h
    refine ⟨range_for_body_entry cg, cg_body, hb, h1, rfl, rfl, rfl, ?_⟩
    rw [h1]
    simp [range_for_exit, emit_terminator, SetInsertPoint]
  · intro loop rest cg cg2 h
    obtain ⟨cg1, h1, h2⟩ := visit_block_cons loop rest cg cg2 h
    exact ⟨cg1, h1, h2, visit_preserves_targets loop cg cg1 h1⟩

/-- Claim C19 at a while loop that holds a range-for: the `continue` in the
range-for branches to its increment block 4, the `continue` after it to the
head 1 of the while body, and the `break` to the block 2 after the while loop. -/
theorem scoped_restore_of_loop_targets_witness :
    ∃ cg1, visit example_nested_loops example_engine = .ok cg1 ∧
      cg1.current_loop_reentry = none ∧ cg1.current_while_after_loop = none ∧
      cg1.terminators =
        [(0, .br 1), (1, .br 6), (6, .cond_br 3 5), (3, .br 4), (7, .br 4), (4, .br 6),
          (5, .br 1), (8, .cond_br 2 9), (9, .br 1)] := by
  have h : visit example_nested_loops example_engine =
      .ok ⟨none, none, 10, 2,
        [(0, .br 1), (1, .br 6), (6, .cond_br 3 5), (3, .br 4), (7, .br 4), (4, .br 6),
          (5, .br 1), (8, .cond_br 2 9), (9, .br 1)]⟩ := by
    rfl
  exact ⟨_, h, (scoped_restore_of_loop_targets.1 _ _ _ h).1,
    (scoped_restore_of_loop_targets.1 _ _ _ h).2, rfl⟩

/-! ## Counted loops -/

/-- A machine that, from its test state at index `i`, leaves when the loop
condition fails and otherwise comes back to the test state at `i + d` with an
updated record, runs `n` iterations and leaves when the condition holds for the
first `n` indices and fails for the next one. -/
theorem counted_loop {σ α : Type} (f : σ → σ) (T X : Int → α → σ) (cond inr : Int → Prop)
    (d : Int) (upd : Int → α → α)
    (hexit : ∀ i a, inr i → ¬ cond i → ∃ m, f^[m] (T i a) = X i a)
    (hiter : ∀ i a, inr i → cond i → ∃ m, f^[m] (T i a) = T (i + d) (upd i a)) :
    ∀ (n : Nat) (i : Int) (a : α),
      (∀ k : Nat, k < n → cond (i + k * d)) → (∀ k : Nat, k ≤ n → inr (i + k * d)) →
      ¬ cond (i + n * d) →
      ∃ m, f^[m] (T i a) =
        X (i + n * d) (((List.range n).map (fun k : Nat => i + k * d)).foldl
          (fun a j => upd j a) a) := by
  intro n
  induction n with
  | zero =>
    intro i a _ hr hn
    simp only [Nat.cast_zero, zero_mul, add_zero] at hn
    have hi : inr i := by simpa using hr 0 (le_refl 0)
    simpa using hexit i a hi hn
  | succ n ih =>
    intro i a hc hr hn
    have hc0 : cond i := by simpa using hc 0 (Nat.succ_pos n)
    have hi : inr i := by simpa using hr 0 (Nat.zero_le _)
    obtain ⟨m1, h1⟩ := hiter i a hi hc0
    have e : ∀ k : Nat, i + d + (k : Int) * d = i + ((k + 1 : Nat) : Int) * d := by
      intro k
      push_cast
      ring
    obtain ⟨m2, h2⟩ := ih (i + d) (upd i a)
      (fun k hk => by rw [e]; exact hc (k + 1) (by omega))
      (fun k hk => by rw [e]; exact hr (k + 1) (by omega))
      (by rw [e]; exact hn)
    refine ⟨m2 + m1, ?_⟩
    rw [Function.iterate_add_apply, h1, h2, e]
    congr 1
    rw [List.range_succ_eq_map, List.map_cons, List.foldl_cons, List.map_map]
    simp only [Nat.cast_zero, zero_mul, add_zero]
    congr 2
    funext k
    exact e k

/-- The record of a loop that appends every index to one list and the
indices that satisfy a guard to another. -/
theorem foldl_tested_visited (g : Int → Nat) (p : Nat → Bool) (l : List Int)
    (a : List Nat × List Nat) :
    l.foldl (fun a j => (a.1 ++ [g j], if p (g j) then a.2 ++ [g j] else a.2)) a =
      (a.1 ++ l.map g, a.2 ++ (l.map g).filter p) := by
  induction l generalizing a with
  | nil => simp
  | cons j rest ih =>
    rw [List.foldl_cons, ih]
    by_cases h : p (g j) = true
    · simp [h, List.filter_cons]
    · simp [h, List.filter_cons]

theorem foldl_trace (g : Int → Nat) (l : List Int) (a : List Nat) :
    l.foldl (fun a j => a ++ [g j]) a = a ++ l.map g := by
  induction l generalizing a with
  | nil => simp
  | cons j rest ih =>
    rw [List.foldl_cons, ih]
    simp

theorem CreateAdd_ofInt_32 (i : Int) (b : Nat) :
    CreateAdd 32 (ofInt 32 i) b = ofInt 32 (i + b) := by
  rw [CreateAdd_ofInt, ofInt_ofInt_add]

theorem CreateAdd_ofInt_const (i d : Int) :
    CreateAdd 32 (ofInt 32 i) (get_constant d) = ofInt 32 (i + d) := by
  rw [CreateAdd_get_constant, ofInt_ofInt_add]

theorem CreateSub_ofInt_const (i d : Int) :
    CreateSub 32 (ofInt 32 i) (get_constant d) = ofInt 32 (i - d) := by
  rw [CreateSub_ofInt]
  unfold get_constant
  rw [ofInt_sub_ofInt, sub_eq_add_neg, ofInt_ofInt_add, ← sub_eq_add_neg]

/-! ## The loop of a range-for -/

theorem range_for_exit_step (reversed : Bool) (bv ev : Nat) (body_exit : Nat → BodyExit)
    (v : Nat) (a : List Nat)
    (h : (if !reversed then decide (toSigned 32 v < toSigned 32 ev)
      else decide (toSigned 32 v ≥ toSigned 32 bv)) = false) :
    range_for_step reversed bv ev body_exit ⟨.loop_test, v, a⟩ = ⟨.after_loop, v, a⟩ := by
  simp only [range_for_step, h]
  rfl

theorem range_for_iter_steps (reversed : Bool) (bv ev : Nat) (body_exit : Nat → BodyExit)
    (v : Nat) (a : List Nat)
    (h : (if !reversed then decide (toSigned 32 v < toSigned 32 ev)
      else decide (toSigned 32 v ≥ toSigned 32 bv)) = true) :
    (range_for_step reversed bv ev body_exit)^[3] ⟨.loop_test, v, a⟩ =
      ⟨.loop_test,
        CreateAdd 32 v (if !reversed then get_constant 1 else get_constant (-1)),
        a ++ [v]⟩ := by
  simp only [Function.iterate_succ, Function.iterate_zero, Function.comp_apply, id_eq]
  have h1 : range_for_step reversed bv ev body_exit ⟨.loop_test, v, a⟩ = ⟨.body, v, a⟩ := by
    simp only [range_for_step, h]
    rfl
  have h2 : range_for_step reversed bv ev body_exit ⟨.body, v, a⟩ =
      ⟨.loop_inc, v, a ++ [v]⟩ := by
    simp only [range_for_step, range_for_loop_reentry]
    cases body_exit v <;> rfl
  rw [h1, h2]
  rfl

theorem range_for_forward (b e : Int) (body_exit : Nat → BodyExit)
    (hb : -2147483648 ≤ b) (hb2 : b < 2147483648)
    (he : -2147483648 ≤ e) (he2 : e < 2147483648) :
    ∃ fuel, (range_for_step false (ofInt 32 b) (ofInt 32 e) body_exit)^[fuel] range_for_init =
      ⟨.after_loop, ofInt 32 (b + (e - b).toNat),
        (List.range (e - b).toNat).map (fun k : Nat => ofInt 32 (b + k))⟩ := by
  have key := counted_loop (range_for_step false (ofInt 32 b) (ofInt 32 e) body_exit)
    (fun i a => ⟨.loop_test, ofInt 32 i, a⟩) (fun i a => ⟨.after_loop, ofInt 32 i, a⟩)
    (fun i => i < e) (fun i => -2147483648 ≤ i ∧ i < 2147483648) 1
    (fun i a => a ++ [ofInt 32 i])
    (by
      intro i a hi hc
      refine ⟨1, ?_⟩
      rw [Function.iterate_one]
      refine range_for_exit_step false (ofInt 32 b) (ofInt 32 e) body_exit (ofInt 32 i) a ?_
      simp only [Bool.not_false, if_true, toSigned_ofInt_32 i hi.1 hi.2,
        toSigned_ofInt_32 e he he2]
      exact decide_eq_false hc)
    (by
      intro i a hi hc
      refine ⟨3, ?_⟩
      rw [range_for_iter_steps]
      · simp only [Bool.not_false, if_true, CreateAdd_ofInt_const]
      · simp only [Bool.not_false, if_true, toSigned_ofInt_32 i hi.1 hi.2,
          toSigned_ofInt_32 e he he2]
        exact decide_eq_true hc)
    (e - b).toNat b []
    (by intro k hk; omega) (by intro k hk; omega) (by omega)
  obtain ⟨m, hm⟩ := key
  refine ⟨m + 1, ?_⟩
  rw [Function.iterate_add_apply]
  have h0 : (range_for_step false (ofInt 32 b) (ofInt 32 e) body_exit)^[1] range_for_init =
      ⟨.loop_test, ofInt 32 b, []⟩ := rfl
  rw [h0]
  rw [hm, foldl_trace, List.map_map]
  simp only [mul_one, List.nil_append]
  rfl

theorem range_for_backward (b e : Int) (body_exit : Nat → BodyExit)
    (hb : -2147483648 < b) (hb2 : b < 2147483648)
    (he : -2147483648 < e) (he2 : e < 2147483648) :
    ∃ fuel, (range_for_step true (ofInt 32 b) (ofInt 32 e) body_exit)^[fuel] range_for_init =
      ⟨.after_loop, ofInt 32 (e - 1 + (e - b).toNat * (-1)),
        (List.range (e - b).toNat).map (fun k : Nat => ofInt 32 (e - 1 - k))⟩ := by
  have key := counted_loop (range_for_step true (ofInt 32 b) (ofInt 32 e) body_exit)
    (fun i a => ⟨.loop_test, ofInt 32 i, a⟩) (fun i a => ⟨.after_loop, ofInt 32 i, a⟩)
    (fun i => b ≤ i) (fun i => -2147483648 ≤ i ∧ i < 2147483648) (-1)
    (fun i a => a ++ [ofInt 32 i])
    (by
      intro i a hi hc
      refine ⟨1, ?_⟩
      rw [Function.iterate_one]
      refine range_for_exit_step true (ofInt 32 b) (ofInt 32 e) body_exit (ofInt 32 i) a ?_
      simp only [Bool.not_true, Bool.false_eq_true, if_false, toSigned_ofInt_32 i hi.1 hi.2,
        toSigned_ofInt_32 b (le_of_lt hb) hb2]
      exact decide_eq_false hc)
    (by
      intro i a hi hc
      refine ⟨3, ?_⟩
      rw [range_for_iter_steps]
      · simp only [Bool.not_true, Bool.false_eq_true, if_false, CreateAdd_ofInt_const]
      · simp only [Bool.not_true, Bool.false_eq_true, if_false, toSigned_ofInt_32 i hi.1 hi.2,
          toSigned_ofInt_32 b (le_of_lt hb) hb2]
        exact decide_eq_true hc)
    (e - b).toNat (e - 1) []
    (by intro k hk; omega) (by intro k hk; omega) (by omega)
  obtain ⟨m, hm⟩ := key
  refine ⟨m + 1, ?_⟩
  rw [Function.iterate_add_apply]
  have h0 : (range_for_step true (ofInt 32 b) (ofInt 32 e) body_exit)^[1] range_for_init =
      ⟨.loop_test, ofInt 32 (e - 1), []⟩ := by
    simp only [Function.iterate_succ, Function.iterate_zero, Function.comp_apply, id_eq,
      range_for_step, range_for_init, Bool.not_true, Bool.false_eq_true, if_false,
      CreateSub_ofInt_const]
  rw [h0]
  rw [hm, foldl_trace, List.map_map]
  simp only [List.nil_append]
  congr 2
  funext k
  simp only [Function.comp_apply]
  congr 1
  ring

theorem toSigned_ge_min (x : Nat) : toSigned 32 x ≥ toSigned 32 (ofInt 32 (-2147483648)) := by
  rw [ofInt_sign_mask]
  unfold toSigned
  split_ifs <;> omega

theorem range_for_never_leaves (ev : Nat) (body_exit : Nat → BodyExit) (fuel : Nat) :
    ((range_for_step true (ofInt 32 (-2147483648)) ev body_exit)^[fuel] range_for_init).block ≠
      RangeForBlock.after_loop := by
  induction fuel with
  | zero => simp [range_for_init]
  | succ n ih =>
    rw [Function.iterate_succ_apply']
    generalize (range_for_step true (ofInt 32 (-2147483648)) ev body_exit)^[n] range_for_init = s
      at ih
    obtain ⟨blk, v, a⟩ := s
    cases blk with
    | entry => simp [range_for_step]
    | loop_test =>
      have h := toSigned_ge_min v
      simp [range_for_step, h]
    | body =>
      simp only [range_for_step, range_for_loop_reentry]
      cases body_exit v <;> simp
    | loop_inc => simp [range_for_step]
    | after_loop => exact absurd rfl ih

/-- Claim C20, counterexample.  A reversed range-for with `begin = 2147483647` and
`end = -2147483648` runs its body once, with the loop variable `2147483647`,
although `begin >= end`; and a reversed range-for with `begin = -2147483648`
and `end = -2147483647` never reaches the block after the loop, its body
running a second time with the loop variable `2147483647`. -/
theorem range_for_reversed_at_int_min :
    (range_for_step true (ofInt 32 2147483647) (ofInt 32 (-2147483648))
        (fun _ => BodyExit.falls_through))^[5] range_for_init =
      ⟨.after_loop, 2147483646, [2147483647]⟩ ∧
    (∀ fuel, ((range_for_step true (ofInt 32 (-2147483648)) (ofInt 32 (-2147483647))
        (fun _ => BodyExit.falls_through))^[fuel] range_for_init).block ≠
      RangeForBlock.after_loop) ∧
    ((range_for_step true (ofInt 32 (-2147483648)) (ofInt 32 (-2147483647))
        (fun _ => BodyExit.falls_through))^[6] range_for_init).trace =
      [2147483648, 2147483647] :=
  ⟨by decide, fun fuel => range_for_never_leaves _ _ fuel, by decide⟩

/-- Claim C20, amended.  For 32-bit signed `begin` and `end`, both above
`-2147483648` when the loop is reversed, the loop emitted by
`create_naive_range_for` reaches the block after the loop, where it stays,
having run a body without break or return with the loop variable
`begin, begin+1, ..., end-1` in that order when not reversed and
`end-1, end-2, ..., begin` when reversed, no value at all when
`begin >= end`; a `continue` in the body goes to the increment block, which
adds 1 or -1 and goes to the test. -/
theorem range_for_iteration (reversed : Bool) (b e : Int) (body_exit : Nat → BodyExit)
    (hb : -2147483648 ≤ b) (hb2 : b < 2147483648)
    (he : -2147483648 ≤ e) (he2 : e < 2147483648)
    (hrev : reversed = true → -2147483648 < b ∧ -2147483648 < e) :
    (∃ fuel s,
      (range_for_step reversed (ofInt 32 b) (ofInt 32 e) body_exit)^[fuel] range_for_init = s ∧
      s.block = RangeForBlock.after_loop ∧
      range_for_step reversed (ofInt 32 b) (ofInt 32 e) body_exit s = s ∧
      s.trace = (List.range (e - b).toNat).map
        (fun k : Nat => ofInt 32 (if reversed then e - 1 - k else b + k)) ∧
      (e ≤ b → s.trace = [])) ∧
    (∀ s : RangeForState, s.block = RangeForBlock.body →
      body_exit s.loop_var = BodyExit.continues →
      range_for_step reversed (ofInt 32 b) (ofInt 32 e) body_exit s =
        ⟨.loop_inc, s.loop_var, s.trace ++ [s.loop_var]⟩ ∧
      range_for_step reversed (ofInt 32 b) (ofInt 32 e) body_exit
          ⟨.loop_inc, s.loop_var, s.trace ++ [s.loop_var]⟩ =
        ⟨.loop_test, CreateAdd 32 s.loop_var (get_constant (if reversed then -1 else 1)),
          s.trace ++ [s.loop_var]⟩) := by
  constructor
  · have hz : e ≤ b → (e - b).toNat = 0 := by
      intro h
      omega
    cases reversed with
    | false =>
      obtain ⟨fuel, h⟩ := range_for_forward b e body_exit hb hb2 he he2
      refine ⟨fuel, _, h, rfl, rfl, ?_, ?_⟩
      · simp only [Bool.false_eq_true, if_false]
      · intro hle
        simp only [hz hle, List.range_zero, List.map_nil]
    | true =>
      obtain ⟨hb1, he1⟩ := hrev rfl
      obtain ⟨fuel, h⟩ := range_for_backward b e body_exit hb1 hb2 he1 he2
      refine ⟨fuel, _, h, rfl, rfl, ?_, ?_⟩
      · simp only [if_true]
      · intro hle
        simp only [hz hle, List.range_zero, List.map_nil]
  · intro s hs hcont
    obtain ⟨blk, v, a⟩ := s
    simp only at hs hcont
    subst hs
    constructor
    · simp only [range_for_step, hcont, range_for_loop_reentry]
    · cases reversed <;> rfl

/-- Claim C20, amended, at the reversed loop over `[2, 5)` whose body always
executes a `continue`. -/
theorem range_for_iteration_witness :
    (∃ fuel s,
      (range_for_step true (ofInt 32 2) (ofInt 32 5) (fun _ => BodyExit.continues))^[fuel]
        range_for_init = s ∧
      s.block = RangeForBlock.after_loop ∧
      range_for_step true (ofInt 32 2) (ofInt 32 5) (fun _ => BodyExit.continues) s = s ∧
      s.trace = (List.range ((5 : Int) - 2).toNat).map
        (fun k : Nat => ofInt 32 (if true then (5 : Int) - 1 - k else 2 + k)) ∧
      ((5 : Int) ≤ 2 → s.trace = [])) :=
  (range_for_iteration true 2 5 (fun _ => BodyExit.continues) (by norm_num) (by norm_num)
    (by norm_num) (by norm_num) (fun _ => ⟨by norm_num, by norm_num⟩)).1

/-! ## The loop body function of a struct-for -/

theorem struct_for_exit_step (spmd : Bool) (snode : SNodeInfo) (call : StructForCall)
    (v : Nat) (t a : List Nat)
    (h : decide (toSigned 32 v < toSigned 32 call.upper_bound) = false) :
    struct_for_step spmd snode call ⟨.loop_test, v, t, a⟩ = ⟨.func_exit, v, t, a⟩ := by
  simp only [struct_for_step, h]
  rfl

theorem struct_for_iter_steps (spmd : Bool) (snode : SNodeInfo) (call : StructForCall)
    (v : Nat) (t a : List Nat)
    (h : decide (toSigned 32 v < toSigned 32 call.upper_bound) = true) :
    ∃ m, (struct_for_step spmd snode call)^[m] ⟨.loop_test, v, t, a⟩ =
      ⟨.loop_test, CreateAdd 32 v (if spmd then call.block_dim else get_constant 1),
        t ++ [v], if struct_for_guard snode call v then a ++ [v] else a⟩ := by
  have h1 : struct_for_step spmd snode call ⟨.loop_test, v, t, a⟩ = ⟨.loop_body, v, t, a⟩ := by
    simp only [struct_for_step, h]
    rfl
  by_cases hg : struct_for_guard snode call v = true
  · refine ⟨4, ?_⟩
    have h2 : struct_for_step spmd snode call ⟨.loop_body, v, t, a⟩ =
        ⟨.struct_for_body, v, t ++ [v], a⟩ := by
      unfold struct_for_guard at hg
      simp only [struct_for_step, hg]
      rfl
    simp only [Function.iterate_succ, Function.iterate_zero, Function.comp_apply, id_eq]
    rw [h1, h2, if_pos hg]
    rfl
  · refine ⟨3, ?_⟩
    have h2 : struct_for_step spmd snode call ⟨.loop_body, v, t, a⟩ =
        ⟨.body_tail, v, t ++ [v], a⟩ := by
      unfold struct_for_guard at hg
      simp only [struct_for_step, hg]
      rfl
    simp only [Function.iterate_succ, Function.iterate_zero, Function.comp_apply, id_eq]
    rw [h1, h2, if_neg hg]
    rfl

theorem struct_for_loop (spmd : Bool) (snode : SNodeInfo) (call : StructForCall) (U d : Int)
    (hU : call.upper_bound = ofInt 32 U) (hU1 : -2147483648 ≤ U) (hU2 : U < 2147483648)
    (hd : ∀ i : Int, CreateAdd 32 (ofInt 32 i)
      (if spmd then call.block_dim else get_constant 1) = ofInt 32 (i + d))
    (n : Nat) (i0 : Int) (hc : ∀ k : Nat, k < n → i0 + k * d < U)
    (hr : ∀ k : Nat, k ≤ n → -2147483648 ≤ i0 + k * d ∧ i0 + k * d < 2147483648)
    (hn : ¬ i0 + n * d < U) :
    ∃ m, (struct_for_step spmd snode call)^[m] ⟨.loop_test, ofInt 32 i0, [], []⟩ =
      ⟨.func_exit, ofInt 32 (i0 + n * d),
        (List.range n).map (fun k : Nat => ofInt 32 (i0 + k * d)),
        ((List.range n).map (fun k : Nat => ofInt 32 (i0 + k * d))).filter
          (struct_for_guard snode call)⟩ := by
  have key := counted_loop (struct_for_step spmd snode call)
    (fun i (a : List Nat × List Nat) => ⟨.loop_test, ofInt 32 i, a.1, a.2⟩)
    (fun i a => ⟨.func_exit, ofInt 32 i, a.1, a.2⟩)
    (fun i => i < U) (fun i => -2147483648 ≤ i ∧ i < 2147483648) d
    (fun i a => (a.1 ++ [ofInt 32 i],
      if struct_for_guard snode call (ofInt 32 i) then a.2 ++ [ofInt 32 i] else a.2))
    (by
      intro i a hi hc
      refine ⟨1, ?_⟩
      rw [Function.iterate_one]
      refine struct_for_exit_step spmd snode call (ofInt 32 i) a.1 a.2 ?_
      rw [hU, toSigned_ofInt_32 i hi.1 hi.2, toSigned_ofInt_32 U hU1 hU2]
      exact decide_eq_false hc)
    (by
      intro i a hi hc
      obtain ⟨m, hm⟩ := struct_for_iter_steps spmd snode call (ofInt 32 i) a.1 a.2 (by
        rw [hU, toSigned_ofInt_32 i hi.1 hi.2, toSigned_ofInt_32 U hU1 hU2]
        exact decide_eq_true hc)
      refine ⟨m, ?_⟩
      rw [hm, hd])
    n i0 ([], []) hc hr hn
  obtain ⟨m, hm⟩ := key
  refine ⟨m, ?_⟩
  rw [hm, foldl_tested_visited (fun j => ofInt 32 j) (struct_for_guard snode call), List.map_map]
  simp only [List.nil_append]
  rfl

theorem foldl_guard (c p : Nat → Bool) (l : List Nat) (acc : Bool) :
    l.foldl (fun exec_cond i => if c i then exec_cond && p i else exec_cond) acc =
      (acc && l.all (fun i => !c i || p i)) := by
  induction l generalizing acc with
  | nil => simp
  | cons i rest ih =>
    rw [List.foldl_cons, ih, List.all_cons]
    cases c i <;> cases p i <;> cases acc <;> simp

theorem all_guard_iff (n : Nat) (P : Nat → Bool) (Q : Nat → Prop) [DecidablePred Q] :
    (List.range n).all (fun i => !(!P i) || decide (Q i)) = true ↔
      ∀ i, i < n → P i = false → Q i := by
  simp only [List.all_eq_true, List.mem_range, Bool.not_not, Bool.or_eq_true,
    decide_eq_true_eq]
  constructor
  · intro h i hi hP
    rcases h i hi with h1 | h1
    · rw [hP] at h1
      exact absurd h1 (by simp)
    · exact h1
  · intro h i hi
    cases hP : P i
    · exact Or.inr (h i hi hP)
    · exact Or.inl rfl

theorem exec_cond_iff (snode : SNodeInfo) (coordinates : Nat → Nat) (is_active : Nat) :
    exec_cond snode coordinates is_active = true ↔
      (∀ i, i < snode.num_active_indices →
        is_power_of_two (snode.extractors_num_elements.getD
          (snode.physical_index_position.getD i 0) 0) = false →
        toSigned 32 (coordinates (snode.physical_index_position.getD i 0)) <
          toSigned 32 (get_constant (snode.extractors_num_elements.getD
            (snode.physical_index_position.getD i 0) 0))) ∧
      (snode.type = SNodeType.bitmasked ∨ snode.type = SNodeType.pointer →
        is_active % 2 = 1) := by
  have hb := all_guard_iff snode.num_active_indices
    (fun i => is_power_of_two (snode.extractors_num_elements.getD
      (snode.physical_index_position.getD i 0) 0))
    (fun i => toSigned 32 (coordinates (snode.physical_index_position.getD i 0)) <
      toSigned 32 (get_constant (snode.extractors_num_elements.getD
        (snode.physical_index_position.getD i 0) 0)))
  unfold exec_cond
  simp only []
  rw [foldl_guard (fun i => !is_power_of_two (snode.extractors_num_elements.getD
      (snode.physical_index_position.getD i 0) 0))
    (fun i => decide (toSigned 32 (coordinates (snode.physical_index_position.getD i 0)) <
      toSigned 32 (get_constant (snode.extractors_num_elements.getD
        (snode.physical_index_position.getD i 0) 0))))]
  by_cases ht : snode.type = SNodeType.bitmasked ∨ snode.type = SNodeType.pointer
  · rw [if_pos ht, Bool.true_and, Bool.and_eq_true, hb, decide_eq_true_eq]
    exact ⟨fun h => ⟨h.1, fun _ => h.2⟩, fun h => ⟨h.1, h.2 ht⟩⟩
  · rw [if_neg ht, Bool.true_and, hb]
    exact ⟨fun h => ⟨h, fun h2 => absurd h2 ht⟩, fun h => h.1⟩

/-- Claim C12.  The loop body function emitted without SPMD, called with bounds
`lower <= upper`, reaches `func_exit` having run the user body once for each
index of `[lower, upper)` that passes the guard, in ascending order, and for
no other index; the guard holds exactly when every coordinate along an axis
whose extent is not a power of two is below that extent and, for a bitmasked
or pointer node, `is_active` reports the element active.  For a bitmasked
leaf of 8 elements with exactly 0, 2 and 5 active and bounds `[0, 8)` the
user body runs for 0, 2 and 5. -/
theorem struct_for_coverage (leaf : LeafSNode) (snode : SNodeInfo) (call : StructForCall)
    (L U : Int) (_hsn : struct_for_guard_snode leaf = .ok snode)
    (hL : call.lower_bound = ofInt 32 L) (hU : call.upper_bound = ofInt 32 U)
    (hLr : -2147483648 ≤ L) (hUr : U < 2147483648) (hLU : L ≤ U) :
    (∃ fuel s, (struct_for_step false snode call)^[fuel] struct_for_init = s ∧
      s.block = StructForBlock.func_exit ∧
      struct_for_step false snode call s = s ∧
      s.visited = ((List.range (U - L).toNat).map (fun k : Nat => ofInt 32 (L + k))).filter
        (fun v => exec_cond snode (call.refine_coordinates v) (call.is_active v))) ∧
    (∀ v, exec_cond snode (call.refine_coordinates v) (call.is_active v) = true ↔
      (∀ i, i < snode.num_active_indices →
        is_power_of_two (snode.extractors_num_elements.getD
          (snode.physical_index_position.getD i 0) 0) = false →
        toSigned 32 (call.refine_coordinates v (snode.physical_index_position.getD i 0)) <
          toSigned 32 (get_constant (snode.extractors_num_elements.getD
            (snode.physical_index_position.getD i 0) 0))) ∧
      (snode.type = SNodeType.bitmasked ∨ snode.type = SNodeType.pointer →
        call.is_active v % 2 = 1)) ∧
    (struct_for_guard_snode example_bitmasked_leaf = .ok example_bitmasked_leaf.info ∧
      (struct_for_step false example_bitmasked_leaf.info example_bitmasked_call)^[29]
        struct_for_init = ⟨.func_exit, 8, [0, 1, 2, 3, 4, 5, 6, 7], [0, 2, 5]⟩) := by
  refine ⟨?_, fun v => exec_cond_iff snode _ _, rfl, by decide⟩
  obtain ⟨m, hm⟩ := struct_for_loop false snode call U 1 hU (by omega) hUr
    (fun i => by simp only [Bool.false_eq_true, if_false, CreateAdd_ofInt_const])
    (U - L).toNat L (by intro k hk; omega) (by intro k hk; omega) (by omega)
  have h : (struct_for_step false snode call)^[m + 1] struct_for_init =
      ⟨.func_exit, ofInt 32 (L + (U - L).toNat * 1),
        (List.range (U - L).toNat).map (fun k : Nat => ofInt 32 (L + k * 1)),
        ((List.range (U - L).toNat).map (fun k : Nat => ofInt 32 (L + k * 1))).filter
          (struct_for_guard snode call)⟩ := by
    rw [Function.iterate_add_apply]
    have h0 : (struct_for_step false snode call)^[1] struct_for_init =
        ⟨.loop_test, ofInt 32 L, [], []⟩ := by
      simp only [Function.iterate_succ, Function.iterate_zero, Function.comp_apply, id_eq,
        struct_for_step, struct_for_init, Bool.false_eq_true, if_false, hL]
    rw [h0, hm]
  refine ⟨m + 1, _, h, rfl, rfl, ?_⟩
  simp only [mul_one]
  rfl

/-- Claim C12 at the bitmasked leaf of 8 elements with 0, 2 and 5 active. -/
theorem struct_for_coverage_witness :
    ∃ fuel s, (struct_for_step false example_bitmasked_leaf.info example_bitmasked_call)^[fuel]
        struct_for_init = s ∧
      s.block = StructForBlock.func_exit ∧
      struct_for_step false example_bitmasked_leaf.info example_bitmasked_call s = s ∧
      s.visited = ((List.range ((8 : Int) - 0).toNat).map
          (fun k : Nat => ofInt 32 ((0 : Int) + k))).filter
        (fun v => exec_cond example_bitmasked_leaf.info
          (example_bitmasked_call.refine_coordinates v) (example_bitmasked_call.is_active v)) :=
  (struct_for_coverage example_bitmasked_leaf example_bitmasked_leaf.info
    example_bitmasked_call 0 8 rfl rfl rfl (by norm_num) (by norm_num) (by norm_num)).1

/-! ## The SPMD partition of a struct-for -/

theorem strided_count (D : Int) (B : Nat) (hB : 1 ≤ B) :
    ∃ n : Nat, ∀ k : Nat, k < n ↔ (k : Int) * B < D := by
  have hBpos : (0 : Int) < B := by exact_mod_cast hB
  by_cases hD : D ≤ 0
  · refine ⟨0, fun k => ⟨fun h => absurd h (Nat.not_lt_zero k), fun h => ?_⟩⟩
    have : (0 : Int) ≤ (k : Int) * B := by positivity
    omega
  · refine ⟨((D - 1) / B + 1).toNat, fun k => ?_⟩
    have hq : 0 ≤ (D - 1) / B := Int.ediv_nonneg (by omega) (le_of_lt hBpos)
    rw [Int.lt_toNat]
    constructor
    · intro h
      have h1 : (k : Int) ≤ (D - 1) / B := by omega
      have h2 := (Int.le_ediv_iff_mul_le hBpos).mp h1
      omega
    · intro h
      have h1 : (k : Int) ≤ (D - 1) / B := (Int.le_ediv_iff_mul_le hBpos).mpr (by omega)
      omega

theorem strided_mem_iff (L U i : Int) (B t n : Nat) (hB : 1 ≤ B) (ht : t < B)
    (hn : ∀ k : Nat, k < n ↔ L + t + (k : Int) * B < U) (hLi : L ≤ i) (hiU : i < U) :
    (∃ k : Nat, k < n ∧ L + t + (k : Int) * B = i) ↔ (i - L) % B = t := by
  have hBpos : (0 : Int) < B := by exact_mod_cast hB
  constructor
  · rintro ⟨k, _, hk⟩
    have e : i - L = t + (k : Int) * B := by omega
    rw [e, Int.add_mul_emod_self]
    exact Int.emod_eq_of_lt (by positivity) (by exact_mod_cast ht)
  · intro h
    have hq : 0 ≤ (i - L) / B := Int.ediv_nonneg (by omega) (le_of_lt hBpos)
    have hdiv := Int.ediv_add_emod (i - L) B
    rw [h] at hdiv
    refine ⟨((i - L) / B).toNat, ?_, ?_⟩
    · rw [hn, Int.toNat_of_nonneg hq]
      have : ((i - L) / B) * B = B * ((i - L) / B) := mul_comm _ _
      omega
    · rw [Int.toNat_of_nonneg hq]
      have : ((i - L) / B) * B = B * ((i - L) / B) := mul_comm _ _
      omega

theorem ofInt_32_injective (i j : Int) (hi : -2147483648 ≤ i) (hi2 : i < 2147483648)
    (hj : -2147483648 ≤ j) (hj2 : j < 2147483648) (h : ofInt 32 i = ofInt 32 j) : i = j := by
  rw [← toSigned_ofInt_32 i hi hi2, ← toSigned_ofInt_32 j hj hj2, h]

/-- Claim C13.  The loop body function emitted for SPMD, run by thread `t` of a block
of dimension `B >= 1` with bounds `lower <= upper` such that `upper + B` fits
32 bits, reaches `func_exit` having tested exactly the indices
`lower + t + k * B` below `upper`, in ascending order and each once, and
having run the user body for those of them that pass the guard; an index of
`[lower, upper)` is tested by thread `t` exactly when `(index - lower) mod B`
is `t`, so the threads `0..B-1` test disjoint sets whose union is
`[lower, upper)`. -/
theorem spmd_index_partition (snode : SNodeInfo) (call : StructForCall) (L U : Int)
    (hL : call.lower_bound = ofInt 32 L) (hU : call.upper_bound = ofInt 32 U)
    (hB : 1 ≤ call.block_dim) (ht : call.thread_idx < call.block_dim)
    (hLr : -2147483648 ≤ L) (hLU : L ≤ U) (hov : U + call.block_dim ≤ 2147483648) :
    ∃ (fuel n : Nat) (s : StructForState),
      (struct_for_step true snode call)^[fuel] struct_for_init = s ∧
      s.block = StructForBlock.func_exit ∧
      struct_for_step true snode call s = s ∧
      (∀ k : Nat, k < n ↔ L + call.thread_idx + (k : Int) * call.block_dim < U) ∧
      s.tested = (List.range n).map
        (fun k : Nat => ofInt 32 (L + call.thread_idx + (k : Int) * call.block_dim)) ∧
      s.visited = s.tested.filter
        (fun v => exec_cond snode (call.refine_coordinates v) (call.is_active v)) ∧
      s.tested.Nodup ∧
      (∀ i : Int, L ≤ i → i < U →
        (ofInt 32 i ∈ s.tested ↔ (i - L) % call.block_dim = call.thread_idx)) := by
  have hBpos : (0 : Int) < call.block_dim := by exact_mod_cast hB
  have htB : (call.thread_idx : Int) < call.block_dim := by exact_mod_cast ht
  have ht0 : (0 : Int) ≤ call.thread_idx := by positivity
  obtain ⟨n, hn0⟩ := strided_count (U - L - call.thread_idx) call.block_dim hB
  have hn : ∀ k : Nat, k < n ↔ L + call.thread_idx + (k : Int) * call.block_dim < U := by
    intro k
    rw [hn0 k]
    constructor <;> intro h <;> omega
  have hr : ∀ k : Nat, k ≤ n →
      -2147483648 ≤ L + call.thread_idx + (k : Int) * call.block_dim ∧
        L + call.thread_idx + (k : Int) * call.block_dim < 2147483648 := by
    intro k hk
    have h0 : (0 : Int) ≤ (k : Int) * call.block_dim := by positivity
    refine ⟨by omega, ?_⟩
    rcases Nat.eq_zero_or_pos k with hk0 | hk0
    · subst hk0
      simp only [Nat.cast_zero, zero_mul, add_zero]
      omega
    · obtain ⟨k1, rfl⟩ : ∃ k1, k = k1 + 1 := ⟨k - 1, by omega⟩
      have h1 := (hn k1).mp (by omega)
      have e : ((k1 + 1 : Nat) : Int) * call.block_dim =
          (k1 : Int) * call.block_dim + call.block_dim := by
        push_cast
        ring
      rw [e]
      omega
  obtain ⟨m, hm⟩ := struct_for_loop true snode call U call.block_dim hU (by omega) (by omega)
    (fun i => by simp only [if_true, CreateAdd_ofInt_32])
    n (L + call.thread_idx) (fun k hk => (hn k).mp hk) hr
    (fun h => absurd ((hn n).mpr h) (lt_irrefl n))
  have h : (struct_for_step true snode call)^[m + 1] struct_for_init =
      ⟨.func_exit, ofInt 32 (L + call.thread_idx + (n : Int) * call.block_dim),
        (List.range n).map
          (fun k : Nat => ofInt 32 (L + call.thread_idx + (k : Int) * call.block_dim)),
        ((List.range n).map
          (fun k : Nat => ofInt 32 (L + call.thread_idx + (k : Int) * call.block_dim))).filter
          (struct_for_guard snode call)⟩ := by
    rw [Function.iterate_add_apply]
    have h0 : (struct_for_step true snode call)^[1] struct_for_init =
        ⟨.loop_test, ofInt 32 (L + call.thread_idx), [], []⟩ := by
      simp only [Function.iterate_succ, Function.iterate_zero, Function.comp_apply, id_eq,
        struct_for_step, struct_for_init, if_true, hL]
      rw [CreateAdd_ofInt, ofInt_add_ofInt, add_comm]
    rw [h0, hm]
  refine ⟨m + 1, n, _, h, rfl, rfl, hn, rfl, rfl, ?_, ?_⟩
  · apply List.Nodup.map_on _ (List.nodup_range n)
    intro k1 hk1 k2 hk2 heq
    have r1 := hr k1 (le_of_lt (List.mem_range.mp hk1))
    have r2 := hr k2 (le_of_lt (List.mem_range.mp hk2))
    have e := ofInt_32_injective _ _ r1.1 r1.2 r2.1 r2.2 heq
    have e2 : (k1 : Int) * call.block_dim = (k2 : Int) * call.block_dim := by omega
    exact_mod_cast mul_right_cancel₀ (ne_of_gt hBpos) e2
  · intro i hLi hiU
    rw [← strided_mem_iff L U i call.block_dim call.thread_idx n hB ht hn hLi hiU]
    simp only [List.mem_map, List.mem_range]
    constructor
    · rintro ⟨k, hk, heq⟩
      have r1 := hr k (le_of_lt hk)
      exact ⟨k, hk, ofInt_32_injective _ _ r1.1 r1.2 (by omega) (by omega) heq⟩
    · rintro ⟨k, hk, heq⟩
      exact ⟨k, hk, by rw [heq]⟩

/-- Claim C13 at thread 1 of a block of 3 threads over `[0, 8)`. -/
theorem spmd_index_partition_witness :
    ∃ (fuel n : Nat) (s : StructForState),
      (struct_for_step true example_bitmasked_leaf.info
        ⟨0, 8, 1, 3, fun i _ => i, fun _ => 1⟩)^[fuel] struct_for_init = s ∧
      s.block = StructForBlock.func_exit ∧
      struct_for_step true example_bitmasked_leaf.info
        ⟨0, 8, 1, 3, fun i _ => i, fun _ => 1⟩ s = s ∧
      (∀ k : Nat, k < n ↔ (0 : Int) + (1 : Nat) + (k : Int) * (3 : Nat) < 8) ∧
      s.tested = (List.range n).map
        (fun k : Nat => ofInt 32 ((0 : Int) + (1 : Nat) + (k : Int) * (3 : Nat))) ∧
      s.visited = s.tested.filter
        (fun v => exec_cond example_bitmasked_leaf.info ((fun i _ => i) v) ((fun _ => 1) v)) ∧
      s.tested.Nodup ∧
      (∀ i : Int, 0 ≤ i → i < 8 →
        (ofInt 32 i ∈ s.tested ↔ (i - 0) % (3 : Nat) = (1 : Nat))) :=
  spmd_index_partition example_bitmasked_leaf.info ⟨0, 8, 1, 3, fun i _ => i, fun _ => 1⟩ 0 8
    rfl rfl (by decide) (by decide) (by norm_num) (by norm_num) (by norm_num)

/-! ## SNode lookups -/

theorem CreateMul_get_constant (w : Int) (i : Nat) :
    CreateMul 32 (get_constant w) i = ofInt 32 (w * (i : Int)) := by
  unfold CreateMul get_constant
  rw [← ofInt_natCast]
  push_cast
  rw [cast_ofInt]
  unfold ofInt
  congr 1
  rw [Int.mul_emod, Int.emod_emod_of_dvd _ (dvd_refl _), ← Int.mul_emod]

/-- Claim C21.  Lowering an `SNodeLookupStmt` whose parent has been lowered to
`parent`: on a `bit_struct` the value is `parent` itself and nothing is
emitted; on a `bit_array` it is the bit pointer of byte address `parent` and
bit offset `w * i` (an `i32` product); on a dense, pointer, dynamic or
bitmasked node it is the result of `lookup_element(i)`, the only call
emitted unless the statement asks for activation, in which case
`activate(i)` is called just before; on a hash, place or undefined node the
lowering stops as not implemented. -/
theorem snode_lookup_traversal (stmt : SNodeLookupStmt) (parent : Nat)
    (hp : stmt.input_snode = some parent) :
    (stmt.snode_type = SNodeType.bit_struct →
      visit_SNodeLookupStmt stmt = .ok ([], .parent parent)) ∧
    (stmt.snode_type = SNodeType.bit_array →
      visit_SNodeLookupStmt stmt =
        .ok ([], .bit_ptr ⟨some parent,
          some (ofInt 32 (stmt.element_num_bits * (stmt.input_index : Int)))⟩)) ∧
    (stmt.snode_type = SNodeType.dense ∨ stmt.snode_type = SNodeType.pointer ∨
        stmt.snode_type = SNodeType.dynamic ∨ stmt.snode_type = SNodeType.bitmasked →
      visit_SNodeLookupStmt stmt =
        .ok ((if stmt.activate then [⟨parent, "activate", [stmt.input_index]⟩] else []) ++
            [⟨parent, "lookup_element", [stmt.input_index]⟩],
          .call_result ⟨parent, "lookup_element", [stmt.input_index]⟩)) ∧
    (stmt.snode_type = SNodeType.hash ∨ stmt.snode_type = SNodeType.place ∨
        stmt.snode_type = SNodeType.undefined →
      visit_SNodeLookupStmt stmt = .error Fatal.not_implemented) := by
  refine ⟨?_, ?_, ?_, ?_⟩
  · intro h
    simp [visit_SNodeLookupStmt, hp, h]
  · intro h
    simp [visit_SNodeLookupStmt, hp, h, create_bit_ptr_struct, CreateMul_get_constant]
  · intro h
    rcases h with h | h | h | h <;> simp [visit_SNodeLookupStmt, hp, h]
  · intro h
    rcases h with h | h | h <;> simp [visit_SNodeLookupStmt, hp, h]

/-- Claim C21 at element 3 of a `bit_array` of 5-bit elements and at an
activating lookup of element 3 of a pointer node. -/
theorem snode_lookup_traversal_witness :
    visit_SNodeLookupStmt ⟨.bit_array, 5, some 4096, 3, false⟩ =
      .ok ([], .bit_ptr ⟨some 4096, some (ofInt 32 ((5 : Int) * ((3 : Nat) : Int)))⟩) ∧
    visit_SNodeLookupStmt ⟨.pointer, 0, some 4096, 3, true⟩ =
      .ok ((if true then [⟨4096, "activate", [3]⟩] else []) ++
          [⟨4096, "lookup_element", [3]⟩],
        .call_result ⟨4096, "lookup_element", [3]⟩) :=
  ⟨(snode_lookup_traversal ⟨.bit_array, 5, some 4096, 3, false⟩ 4096 rfl).2.1 rfl,
    (snode_lookup_traversal ⟨.pointer, 0, some 4096, 3, true⟩ 4096 rfl).2.2.1
      (Or.inr (Or.inl rfl))⟩

/-! ## The split count of a struct-for -/

theorem to_int_eq (v : Int) (h0 : -2147483648 ≤ v) (h1 : v < 2147483648) : to_int v = v :=
  toSigned_ofInt_32 v h0 h1

theorem struct_for_splits_eq (L m b : Int) (hL : L < 2147483648) (hm : 0 ≤ m)
    (hL0 : 0 ≤ L) (hb : 1 ≤ b) :
    struct_for_splits L m b = some (min m L, max 1 (min m L / b)) := by
  have hc0 : 0 ≤ min m L := le_min hm hL0
  have hc1 : min m L ≤ L := min_le_right _ _
  unfold struct_for_splits int_div
  rw [to_int_eq _ (by omega) (by omega)]
  have hne : ¬ (b = 0 ∨ (min m L = -2147483648 ∧ b = -1)) := by omega
  simp only [if_neg hne, Option.map_some', Int.tdiv_eq_ediv hc0 (show (0 : Int) ≤ b by omega)]

/-- Claim C22.  For a leaf with `m >= 0` elements at most and a block
dimension `b >= 1`, `create_offload_struct_for` computes the capacity
`c = min(m, taichi_listgen_max_element_size)` and the split count
`max(1, c / b)` and passes both to `parallel_struct_for` (on a GPU, provided
the patch of the runtime function replaces one allocation); the split count
is at least 1, and split count times `b` is at most `max(c, b)`.  The
constant `taichi_listgen_max_element_size` is a non-negative `int`. -/
theorem struct_for_split_count (L m b : Int) (arch_is_gpu : Bool)
    (replaced_alloca_types : Nat) (leaf_block_id tls_size num_cpu_threads : Int)
    (hL0 : 0 ≤ L) (hL : L < 2147483648) (hm : 0 ≤ m) (hb : 1 ≤ b)
    (hgpu : arch_is_gpu = true → replaced_alloca_types = 1) :
    struct_for_splits L m b = some (min m L, max 1 (min m L / b)) ∧
    struct_for_launch L arch_is_gpu replaced_alloca_types leaf_block_id m b tls_size
        num_cpu_threads =
      .ok (some ⟨get_constant leaf_block_id, get_constant (min m L),
        get_constant (max 1 (min m L / b)), get_constant tls_size,
        get_constant num_cpu_threads⟩) ∧
    1 ≤ max 1 (min m L / b) ∧
    max 1 (min m L / b) * b ≤ max (min m L) b := by
  have hs := struct_for_splits_eq L m b hL hm hL0 hb
  refine ⟨hs, ?_, le_max_left _ _, ?_⟩
  · unfold struct_for_launch
    rw [hs]
    have hne : ¬ (arch_is_gpu = true ∧ replaced_alloca_types ≠ 1) := fun h => h.2 (hgpu h.1)
    simp only [hne, if_false]
  · rcases le_total 1 (min m L / b) with h | h
    · rw [max_eq_right h]
      exact le_trans (Int.ediv_mul_le _ (by omega)) (le_max_left _ _)
    · rw [max_eq_left h, one_mul]
      exact le_max_right _ _

/-- Claim C22 at a leaf of 5000 elements, a list capacity of 1024 and a block
dimension of 128. -/
theorem struct_for_split_count_witness :
    struct_for_splits 1024 5000 128 =
      some (min (5000 : Int) 1024, max 1 (min (5000 : Int) 1024 / 128)) ∧
    (1 : Int) ≤ max 1 (min (5000 : Int) 1024 / 128) ∧
    max 1 (min (5000 : Int) 1024 / 128) * 128 ≤ max (min (5000 : Int) 1024) 128 :=
  ⟨(struct_for_split_count 1024 5000 128 false 0 7 0 4 (by norm_num) (by norm_num)
      (by norm_num) (by norm_num) (fun h => absurd h (by simp))).1,
    (struct_for_split_count 1024 5000 128 false 0 7 0 4 (by norm_num) (by norm_num)
      (by norm_num) (by norm_num) (fun h => absurd h (by simp))).2.2⟩

/-! ## The arguments of an assertion -/

theorem assert_argument_primitive (t : PrimitiveTypeID) (x : Nat) :
    assert_argument (some (data_type_bits t, x), .primitive t) = .ok (some x) := by
  have h64 := data_type_bits_le t
  simp only [assert_argument, TiType.data_type_size, ← data_type_bits_eq, CreateBitCast,
    if_true, Option.some_bind, CreateZExt, if_pos h64]

theorem assert_arguments_primitive (vals : List (PrimitiveTypeID × Nat)) (i : Nat) :
    assert_arguments
        (vals.map (fun v => (some (data_type_bits v.1, v.2), TiType.primitive v.1))) i =
      .ok (some ((vals.enumFrom i).map (fun p => (p.1, p.2.2)))) := by
  induction vals generalizing i with
  | nil => rfl
  | cons v rest ih =>
    simp only [List.map_cons, assert_arguments, assert_argument_primitive, ih,
      Option.some_bind, Option.map_some', List.enumFrom_cons]

/-- Claim C23.  An `AssertStmt` with `k` arguments, `k` an `int`: if `k`
exceeds `taichi_error_message_max_num_arguments` the lowering stops on the
assertion; otherwise, for arguments of primitive types lowered to values of
their own width, it allocates a buffer of `k` elements of 64 bits, stores
into element `i`, for `i = 0, ..., k-1` in this order, the pattern of
argument `i` zero-extended to 64 bits, and calls `taichi_assert_format` with
the condition, the text, `k` and the address of element 0. -/
theorem assert_argument_marshalling (max_num_arguments : Int) (cond : Nat) (text : String)
    (vals : List (PrimitiveTypeID × Nat)) (hk : vals.length < 2147483648) :
    ((max_num_arguments < (vals.length : Int)) →
      visit_AssertStmt max_num_arguments
          ⟨cond, text,
            vals.map (fun v => (some (data_type_bits v.1, v.2), TiType.primitive v.1))⟩ =
        .error Fatal.assertion_failure) ∧
    (((vals.length : Int) ≤ max_num_arguments) →
      visit_AssertStmt max_num_arguments
          ⟨cond, text,
            vals.map (fun v => (some (data_type_bits v.1, v.2), TiType.primitive v.1))⟩ =
        .ok (some
          { buffer_size := vals.length,
            stores := (vals.enumFrom 0).map (fun p => (p.1, p.2.2)),
            call_cond := cond, call_text := text, call_num_args := vals.length,
            call_buffer_index := 0 })) ∧
    (∀ v ∈ vals, v.2 < 2 ^ data_type_bits v.1 →
      CreateBitCast (data_type_bits v.1) (8 * data_type_size v.1) v.2 = some v.2 ∧
      CreateZExt (8 * data_type_size v.1) 64 v.2 = some v.2 ∧ v.2 < 2 ^ 64) := by
  have hlen : to_int ((vals.length : Nat) : Int) = vals.length :=
    to_int_eq _ (by omega) (by exact_mod_cast hk)
  refine ⟨?_, ?_, ?_⟩
  · intro h
    unfold visit_AssertStmt
    simp only [List.length_map, hlen]
    rw [if_pos (by omega)]
  · intro h
    unfold visit_AssertStmt
    simp only [List.length_map, hlen]
    rw [if_neg (by omega), assert_arguments_primitive]
    simp only [Option.map_some']
    rw [get_constant_natCast _ (by omega)]
  · intro v _ hv
    have h64 := data_type_bits_le v.1
    refine ⟨?_, ?_, ?_⟩
    · simp [CreateBitCast, ← data_type_bits_eq]
    · simp [CreateZExt, ← data_type_bits_eq, h64]
    · exact lt_of_lt_of_le hv (Nat.pow_le_pow_right (by norm_num) h64)

/-- Claim C23 at an assertion with an `i32` and an `f32` argument and at most
32 arguments allowed. -/
theorem assert_argument_marshalling_witness :
    visit_AssertStmt 32
        ⟨7, "x < y",
          [(PrimitiveTypeID.i32, 5), (PrimitiveTypeID.f32, 1065353216)].map
            (fun v => (some (data_type_bits v.1, v.2), TiType.primitive v.1))⟩ =
      .ok (some
        { buffer_size := [(PrimitiveTypeID.i32, 5), (PrimitiveTypeID.f32, 1065353216)].length,
          stores := ([(PrimitiveTypeID.i32, 5), (PrimitiveTypeID.f32, 1065353216)].enumFrom 0).map
            (fun p => (p.1, p.2.2)),
          call_cond := 7, call_text := "x < y",
          call_num_args := [(PrimitiveTypeID.i32, 5), (PrimitiveTypeID.f32, 1065353216)].length,
          call_buffer_index := 0 }) :=
  (assert_argument_marshalling 32 7 "x < y"
    [(PrimitiveTypeID.i32, 5), (PrimitiveTypeID.f32, 1065353216)] (by decide)).2.1 (by decide)

/-! ## Instruction families -/

/-- Claim C25, counterexample.  A `mod` whose declared result type is the
real type `f32` is lowered to the integer instruction `srem`. -/
theorem mod_on_real_is_srem :
    is_real (.primitive .f32) = true ∧
    lower_BinaryOpStmt Arch.x64 ⟨.mod, .primitive .f32, 1, 2, .primitive .f32⟩ =
      .ok (.binary "SRem" (.val 1) (.val 2)) :=
  ⟨rfl, rfl⟩

/-- Claim C25, amended.  For `add`, `sub`, `mul` and `div` the lowering emits
the floating-point instruction when the declared result type is real and the
integer instruction otherwise; for `mod` it emits `srem` whatever the type. -/
theorem instruction_family (current_arch : Arch) (stmt : BinaryOpStmt) :
    (stmt.op_type = BinaryOpType.add →
      lower_BinaryOpStmt current_arch stmt =
        .ok (.binary (if is_real stmt.ret_type then "FAdd" else "Add")
          (.val stmt.lhs) (.val stmt.rhs))) ∧
    (stmt.op_type = BinaryOpType.sub →
      lower_BinaryOpStmt current_arch stmt =
        .ok (.binary (if is_real stmt.ret_type then "FSub" else "Sub")
          (.val stmt.lhs) (.val stmt.rhs))) ∧
    (stmt.op_type = BinaryOpType.mul →
      lower_BinaryOpStmt current_arch stmt =
        .ok (.binary (if is_real stmt.ret_type then "FMul" else "Mul")
          (.val stmt.lhs) (.val stmt.rhs))) ∧
    (stmt.op_type = BinaryOpType.div →
      lower_BinaryOpStmt current_arch stmt =
        .ok (.binary (if is_real stmt.ret_type then "FDiv" else "SDiv")
          (.val stmt.lhs) (.val stmt.rhs))) ∧
    (stmt.op_type = BinaryOpType.mod →
      lower_BinaryOpStmt current_arch stmt =
        .ok (.binary "SRem" (.val stmt.lhs) (.val stmt.rhs))) := by
  refine ⟨?_, ?_, ?_, ?_, ?_⟩ <;> intro h <;> unfold lower_BinaryOpStmt <;>
    simp only [h] <;> split_ifs <;> rfl

/-- Claim C25, amended, at an `add` of type `f32` and a `div` of type `i32`. -/
theorem instruction_family_witness :
    lower_BinaryOpStmt Arch.x64 ⟨.add, .primitive .f32, 1, 2, .primitive .f32⟩ =
      .ok (.binary (if is_real (.primitive .f32) then "FAdd" else "Add") (.val 1) (.val 2)) ∧
    lower_BinaryOpStmt Arch.x64 ⟨.div, .primitive .i32, 1, 2, .primitive .i32⟩ =
      .ok (.binary (if is_real (.primitive .i32) then "FDiv" else "SDiv") (.val 1) (.val 2)) :=
  ⟨(instruction_family Arch.x64 ⟨.add, .primitive .f32, 1, 2, .primitive .f32⟩).1 rfl,
    (instruction_family Arch.x64 ⟨.div, .primitive .i32, 1, 2, .primitive .i32⟩).2.2.2.1 rfl⟩

/-! ## Members of a shared exponent with exponent zero -/

/-- Claim C26.  For the `f32` pattern of `+0.0`, whose raw exponent is zero,
`get_float_digits_with_shared_exponents` returns `2 ^ 23` under the shared
exponent 0 and `2 ^ 13` under the shared exponent 10, not 0: the leading 1
bit is inserted by `extract_digits_from_float(f, true)` whatever the
exponent of the member. -/
theorem zero_member_keeps_leading_bit :
    raw_exponent 0 = 0 ∧
    get_float_digits_with_shared_exponents 0 0 = some (2 ^ 23) ∧
    get_float_digits_with_shared_exponents 0 10 = some (2 ^ 13) :=
  ⟨by decide, by decide, by decide⟩

/-- For every member with raw exponent zero and every shared exponent up to
23 the realigned digits are not zero. -/
theorem zero_exponent_member_digits_nonzero (f G : Nat) (hf : raw_exponent f = 0)
    (hG : G ≤ 23) :
    ∃ r, get_float_digits_with_shared_exponents f G = some r ∧ r ≠ 0 := by
  refine ⟨_, get_float_digits_eq f G, ?_⟩
  unfold raw_exponent at hf
  rw [hf]
  have h1 : CreateSub 32 G 0 = G := by
    unfold CreateSub
    norm_num
    omega
  rw [h1, min_eq_left (by omega)]
  have h2 : 2 ^ G ≤ 2 ^ 23 := Nat.pow_le_pow_right (by norm_num) hG
  have h3 : 0 < (f % 2 ^ 23 + 2 ^ 23) / 2 ^ G :=
    Nat.div_pos (by omega) (by positivity)
  omega

/-! ## Stores that list a shared exponent and other children -/

/-- Claim C27.  The store of `2.0` to a float child that owns a shared
exponent and of `100` to a plain custom integer child at bit 16 emits the
store of the exponent (at bit 0) and of the digits of the float (at bit 5)
only: nothing is written to the integer child. -/
theorem shared_exponent_store_drops_other_children (local_bit_struct : Nat) :
    has_shared_exponent example_mixed_store = true ∧
    visit_BitStructStoreStmt example_mixed_store local_bit_struct =
      some (.field_stores
        [⟨0, ⟨5, false, .i32, .i32⟩, 8⟩, ⟨5, ⟨4, false, .i32, .i32⟩, 8⟩]) ∧
    (example_mixed_store.snode.ch[2]?).map (fun ch => ch.bit_offset) = some 16 := by
  refine ⟨by decide, ?_, by decide⟩
  rfl

/-! ## The encoding of conditions -/

theorem toSigned_injective (w a b : Nat) (ha : a < 2 ^ w) (hb : b < 2 ^ w)
    (h : toSigned w a = toSigned w b) : a = b := by
  rw [← ofInt_toSigned w a ha, ← ofInt_toSigned w b hb, h]

theorem sext_cmp_eq (holds : Bool) :
    sext_cmp holds = some (if holds then ofInt 32 (-1) else 0) := by
  cases holds <;> decide

theorem conditions_agree (holds : Bool) (c : Nat) (h : sext_cmp holds = some c) :
    if_stmt_condition c = some holds ∧ select_condition c = some holds := by
  rw [sext_cmp_eq] at h
  cases holds
  · simp only [Bool.false_eq_true, if_false, Option.some.injEq] at h
    subst h
    exact ⟨by decide, by decide⟩
  · simp only [if_true, Option.some.injEq] at h
    subst h
    exact ⟨by decide, by decide⟩

theorem lower_comparison_integer (op : BinaryOpType) (t : TiType) (l r : LLVMValue)
    (w a b : Nat) (hop : is_comparison op = true) (ht : is_real t = false)
    (ha : a < 2 ^ w) (hb : b < 2 ^ w) :
    ∃ pred, lower_comparison op t l r = .ok (.binary pred l r) ∧
      CreateICmp pred w a b =
        some (comparison_holds op (readInt w (is_signed t) a) (readInt w (is_signed t) b)) := by
  have hinj : toSigned w a = toSigned w b ↔ a = b :=
    ⟨toSigned_injective w a b ha hb, fun h => by rw [h]⟩
  cases op <;> first | exact absurd hop Bool.false_ne_true | skip
  all_goals
    cases hs : is_signed t
    all_goals
      simp only [lower_comparison, ht, hs, Bool.false_eq_true, if_false, if_true]
      refine ⟨_, rfl, ?_⟩
      simp [CreateICmp, comparison_holds, readInt, hinj]

/-- The comparison instruction chosen for operands of a real type yields the
truth of the comparison when neither operand is not a number, and false when
one is. -/
theorem lower_comparison_real (op : BinaryOpType) (t : TiType) (l r : LLVMValue)
    (x y : FloatValue) (hop : is_comparison op = true) (ht : is_real t = true) :
    ∃ pred, lower_comparison op t l r = .ok (.binary pred l r) ∧
      CreateFCmp pred x y = some (x.ordered y && float_comparison_holds op x y) := by
  cases op <;> first | exact absurd hop Bool.false_ne_true | skip
  all_goals
    simp only [lower_comparison, ht, if_true]
    refine ⟨_, rfl, ?_⟩
    simp [CreateFCmp, float_comparison_holds]

theorem real_value_one : real_value .f32 0x3F800000 = .finite 1 := by
  have h1 : (0x3F800000 : Nat) % 2 ^ 23 = 0 := by decide
  have h2 : (0x3F800000 : Nat) / 2 ^ 23 % 2 ^ 8 = 127 := by decide
  have h3 : (0x3F800000 : Nat) / 2 ^ (23 + 8) % 2 = 0 := by decide
  unfold real_value float_value
  simp only [h1, h2, h3]
  norm_num

/-- Claim C30, counterexample.  The comparison `x != y` of two `f32` operands
is lowered to the sign extension of `fcmp one`; for `x` not a number (pattern
`0x7FC00000`) and `y = 1.0` the comparison holds, but the instruction yields
false and the lowered value is 0. -/
theorem float_ne_with_nan_is_zero :
    is_comparison example_float_ne.op_type = true ∧
    lower_BinaryOpStmt Arch.x64 example_float_ne =
      .ok (.sext_i32 (.binary "FCmpONE" (.val 1) (.val 2))) ∧
    real_value .f32 f32_quiet_nan = .nan ∧
    real_value .f32 0x3F800000 = .finite 1 ∧
    float_comparison_holds example_float_ne.op_type (real_value .f32 f32_quiet_nan)
      (real_value .f32 0x3F800000) = true ∧
    CreateFCmp "FCmpONE" (real_value .f32 f32_quiet_nan) (real_value .f32 0x3F800000) =
      some false ∧
    sext_cmp false = some 0 := by
  have hnan : real_value .f32 f32_quiet_nan = .nan := by decide
  refine ⟨rfl, rfl, hnan, real_value_one, ?_, ?_, by decide⟩
  · rw [hnan, real_value_one]
    rfl
  · rw [hnan, real_value_one]
    rfl

/-- Claim C30, amended.  A comparison `BinaryOpStmt` is lowered to the sign
extension to `i32` of the `i1` result of a comparison instruction; that value
is the `i32` of `-1`, all bits set, when the instruction yields true and 0
otherwise.  On integer operands the instruction decides the comparison of the
operands read with the signedness of the type of the left operand.  On
floating-point operands it decides the comparison when neither operand is not
a number, and yields false when one is, for `cmp_ne` as well.  On every
lowered value the branch test of `IfStmt` and the condition of the `select`
of `TernaryOpStmt` both are the result of the instruction. -/
theorem boolean_encoding (current_arch : Arch) (stmt : BinaryOpStmt)
    (hop : is_comparison stmt.op_type = true) :
    (∃ cmp, lower_comparison stmt.op_type stmt.lhs_ret_type (.val stmt.lhs) (.val stmt.rhs) =
        .ok cmp ∧
      lower_BinaryOpStmt current_arch stmt = .ok (.sext_i32 cmp)) ∧
    (∀ holds : Bool, sext_cmp holds = some (if holds then ofInt 32 (-1) else 0)) ∧
    ofInt 32 (-1) = 2 ^ 32 - 1 ∧
    (∀ w a b : Nat, is_real stmt.lhs_ret_type = false → a < 2 ^ w → b < 2 ^ w →
      ∃ pred, lower_comparison stmt.op_type stmt.lhs_ret_type (.val stmt.lhs)
          (.val stmt.rhs) = .ok (.binary pred (.val stmt.lhs) (.val stmt.rhs)) ∧
        CreateICmp pred w a b =
          some (comparison_holds stmt.op_type (readInt w (is_signed stmt.lhs_ret_type) a)
            (readInt w (is_signed stmt.lhs_ret_type) b))) ∧
    (∀ x y : FloatValue, is_real stmt.lhs_ret_type = true →
      ∃ pred, lower_comparison stmt.op_type stmt.lhs_ret_type (.val stmt.lhs)
          (.val stmt.rhs) = .ok (.binary pred (.val stmt.lhs) (.val stmt.rhs)) ∧
        (x ≠ .nan → y ≠ .nan →
          CreateFCmp pred x y = some (float_comparison_holds stmt.op_type x y)) ∧
        (x = .nan ∨ y = .nan → CreateFCmp pred x y = some false)) ∧
    (∀ (holds : Bool) (c : Nat), sext_cmp holds = some c →
      if_stmt_condition c = some holds ∧ select_condition c = some holds) := by
  refine ⟨?_, sext_cmp_eq, by decide,
    fun w a b ht ha hb => lower_comparison_integer _ _ _ _ w a b hop ht ha hb, ?_,
    conditions_agree⟩
  · obtain ⟨op, ret, l, r, t⟩ := stmt
    simp only at hop ⊢
    cases op <;> first | exact absurd hop Bool.false_ne_true | skip
    all_goals
      cases hr : is_real t <;> cases hs : is_signed t <;>
        simp [lower_BinaryOpStmt, lower_comparison, hr, hs]
  · intro x y ht
    obtain ⟨pred, h1, h2⟩ := lower_comparison_real stmt.op_type stmt.lhs_ret_type
      (.val stmt.lhs) (.val stmt.rhs) x y hop ht
    refine ⟨pred, h1, ?_, ?_⟩
    · intro hx hy
      rw [h2]
      simp [FloatValue.ordered, hx, hy]
    · intro hxy
      rw [h2]
      rcases hxy with h | h <;> simp [FloatValue.ordered, h]

/-- Claim C30, amended, at the comparison `-1 < 3` of two `i32` operands and
at the comparison `1.0 < infinity` of two `f32` operands. -/
theorem boolean_encoding_witness :
    (∃ pred, lower_comparison BinaryOpType.cmp_lt (.primitive .i32) (.val 1) (.val 2) =
        .ok (.binary pred (.val 1) (.val 2)) ∧
      CreateICmp pred 32 4294967295 3 =
        some (comparison_holds BinaryOpType.cmp_lt
          (readInt 32 (is_signed (.primitive .i32)) 4294967295)
          (readInt 32 (is_signed (.primitive .i32)) 3))) ∧
    (∃ pred, lower_comparison BinaryOpType.cmp_lt (.primitive .f32) (.val 1) (.val 2) =
        .ok (.binary pred (.val 1) (.val 2)) ∧
      CreateFCmp pred (.finite 1) (.infinity false) =
        some (float_comparison_holds BinaryOpType.cmp_lt (.finite 1) (.infinity false))) ∧
    (∀ (holds : Bool) (c : Nat), sext_cmp holds = some c →
      if_stmt_condition c = some holds ∧ select_condition c = some holds) :=
  ⟨(boolean_encoding Arch.x64 ⟨.cmp_lt, .primitive .i32, 1, 2, .primitive .i32⟩
      rfl).2.2.2.1 32 4294967295 3 rfl (by norm_num) (by norm_num),
    (let ⟨pred, h1, h2, _⟩ :=
      (boolean_encoding Arch.x64 ⟨.cmp_lt, .primitive .i32, 1, 2, .primitive .f32⟩
        rfl).2.2.2.2.1 (.finite 1) (.infinity false) rfl
     ⟨pred, h1, h2 (by decide) (by decide)⟩),
    (boolean_encoding Arch.x64 ⟨.cmp_lt, .primitive .i32, 1, 2, .primitive .i32⟩
      rfl).2.2.2.2.2⟩

/-! ## The normalisation of the shared decode -/

theorem ctlz_aux_eq (k j x : Nat) (hj : j < k) (hlo : 2 ^ j ≤ x) (hhi : x < 2 ^ (j + 1)) :
    ctlz_aux k x = k - 1 - j := by
  induction k with
  | zero => omega
  | succ k ih =>
    unfold ctlz_aux
    by_cases hjk : j = k
    · subst hjk
      have h1 : x / 2 ^ j = 1 := by
        apply Nat.div_eq_of_lt_le
        · rw [one_mul]; exact hlo
        · rw [pow_succ] at hhi
          omega
      rw [h1, if_pos (by norm_num)]
      omega
    · have hlt : j < k := by omega
      have h2 : x < 2 ^ k :=
        lt_of_lt_of_le hhi (Nat.pow_le_pow_right (by norm_num) (by omega))
      rw [Nat.div_eq_of_lt h2, if_neg (by norm_num), ih hlt]
      omega

theorem ctlz32_eq (j x : Nat) (hj : j < 32) (hlo : 2 ^ j ≤ x) (hhi : x < 2 ^ (j + 1)) :
    ctlz32 x = 31 - j := by
  unfold ctlz32
  rw [ctlz_aux_eq 32 j x hj hlo hhi]

/-- The extra shift of the shared decode for digits with `n` leading zeros. -/
theorem decode_extra_shift (d n : Nat) :
    CreateSub 32 (get_constant (31 - (d : Int))) n = ofInt 32 (31 - (d : Int) - n) := by
  rw [CreateSub_ofInt]
  unfold get_constant
  rw [sub_eq_add_neg, ofInt_ofInt_add, ← sub_eq_add_neg]

/-- The shift that moves the digits to the fraction position. -/
theorem decode_digits_shift (d : Nat) (x : Int) :
    CreateSub 32 (get_constant (23 - (d : Int))) (ofInt 32 x) = ofInt 32 (23 - (d : Int) - x) := by
  rw [CreateSub_ofInt]
  unfold get_constant
  rw [ofInt_sub_ofInt, sub_eq_add_neg, ofInt_ofInt_add, ← sub_eq_add_neg]

/-- The exponent that the shared decode adds up. -/
theorem decode_exponent_val (E : Nat) (c x : Int) (one : Nat) :
    CreateAdd 32 E (CreateAdd 32 (CreateAdd 32 (get_constant c) (ofInt 32 x)) one) =
      ofInt 32 ((E : Int) + c + x + one) := by
  unfold get_constant
  rw [CreateAdd_ofInt, CreateAdd_ofInt, CreateAdd_ofInt]
  simp only [cast_ofInt]
  apply ofInt_congr
  norm_num
  omega

theorem decode_exponent_val_signed (E : Nat) (c x : Int) :
    CreateAdd 32 E (CreateAdd 32 (get_constant c) (ofInt 32 x)) =
      ofInt 32 ((E : Int) + c + x) := by
  unfold get_constant
  rw [CreateAdd_ofInt, CreateAdd_ofInt]
  simp only [cast_ofInt]
  apply ofInt_congr
  norm_num
  omega

theorem decode_offset_nonzero (E : Nat) (cft : CustomFloatType) (et : CustomIntType)
    (hE : E ≠ 0) :
    (if et.num_bits < 8 then
        (if E ≠ 0 then get_constant cft.exponent_conversion_offset else 0)
      else get_constant cft.exponent_conversion_offset) =
      get_constant cft.exponent_conversion_offset := by
  simp [hE]

/-- The bits that the shared decode of an unsigned field returns for digits
`m` whose highest set bit is bit `j`. -/
theorem decode_shared_unsigned_bits (m j E : Nat) (cft : CustomFloatType) (et : CustomIntType)
    (hexp : cft.exponent_type = some et) (hct : cft.compute_type = .f32)
    (hsg : cft.get_is_signed = false) (hd : cft.digit_bits ≤ 23)
    (hnb : cft.digits_type.num_bits < 32) (hm : m < 2 ^ cft.digits_type.num_bits)
    (hlo : 2 ^ j ≤ m) (hhi : m < 2 ^ (j + 1)) (hj : j < cft.digit_bits) (hE : E ≠ 0) :
    reconstruct_custom_float_with_exponent m E cft true =
      some (ofInt 32 ((E : Int) + cft.exponent_conversion_offset + j - cft.digit_bits + 1) *
          2 ^ 23 % 2 ^ 32 ||| m * 2 ^ (23 - j) % 2 ^ 23) := by
  have hm0 : m ≠ 0 := by
    have : 0 < 2 ^ j := by positivity
    omega
  rw [reconstruct_unfold m E cft et true hexp hct hnb (by omega)]
  simp only [if_true, hsg, Bool.false_eq_true, if_false, Nat.mod_eq_of_lt hm,
    decode_offset_nonzero E cft et hE]
  rw [decode_shared_unsigned_eq m _ 0 cft.digit_bits cft hsg rfl,
    ctlz32_eq j m (by omega) hlo hhi, decode_extra_shift,
    decode_digits_shift]
  have hsh : ofInt 32 (23 - (cft.digit_bits : Int) -
      (31 - (cft.digit_bits : Int) - ((31 - j : Nat) : Int))) = 23 - j :=
    ofInt_of_nonneg _ (23 - j) (by omega) (by omega)
  have hshl : CreateShl 32 m (23 - j) = some (m * 2 ^ (23 - j)) := by
    unfold CreateShl
    rw [if_pos (by omega)]
    congr 1
    apply Nat.mod_eq_of_lt
    calc m * 2 ^ (23 - j) < 2 ^ (j + 1) * 2 ^ (23 - j) :=
          Nat.mul_lt_mul_of_pos_right hhi (by positivity)
      _ = 2 ^ 24 := by rw [← pow_add]; congr 1; omega
      _ < 2 ^ 32 := by norm_num
  rw [hsh, hshl, decode_assemble_unsigned _ _ m E _ cft hsg hm0 hE, get_constant_1,
    decode_exponent_val]
  congr 5
  omega


theorem add_two_pow_xor (m d : Nat) (hm : m < 2 ^ d) : (m + 2 ^ d) ^^^ 2 ^ d = m := by
  rw [← or_two_pow_of_lt m d hm]
  apply Nat.eq_of_testBit_eq
  intro i
  rw [Nat.testBit_xor, Nat.testBit_or, Nat.testBit_two_pow]
  by_cases h : d = i
  · subst h
    simp [Nat.testBit_lt_two_pow hm]
  · simp [h]

/-- The digits of a signed field without their sign bit, doubled. -/
theorem decode_signed_magnitude (m s d : Nat) (hm : m < 2 ^ d) (hs : s = 0 ∨ s = 1)
    (hd : d ≤ 23) :
    CreateShl 32 (CreateXor (m + s * 2 ^ d)
        (CreateAnd (m + s * 2 ^ d) (get_constant ((2 ^ d : Nat) : Int)))) (shift_amount 1) =
      some (2 * m) ∧
    bit_field (m + s * 2 ^ d) d 1 = s := by
  have hc : get_constant ((2 ^ d : Nat) : Int) = 2 ^ d :=
    get_constant_natCast _ (Nat.pow_lt_pow_right (by norm_num) (by omega))
  have hbf : bit_field (m + s * 2 ^ d) d 1 = s := by
    unfold bit_field
    rw [Nat.add_mul_div_right _ _ (by positivity), Nat.div_eq_of_lt hm]
    rcases hs with rfl | rfl <;> norm_num
  refine ⟨?_, hbf⟩
  have hm24 : m < 2 ^ 23 := lt_of_lt_of_le hm (Nat.pow_le_pow_right (by norm_num) hd)
  have hx : (m + s * 2 ^ d) ^^^ (s * 2 ^ d) = m := by
    rcases hs with rfl | rfl
    · simp
    · rw [one_mul]
      exact add_two_pow_xor m d hm
  unfold CreateShl CreateXor CreateAnd
  rw [hc, and_two_pow_eq, hbf, hx, show shift_amount 1 = 1 from by decide,
    if_pos (by norm_num)]
  congr 1
  rw [Nat.mod_eq_of_lt (by omega)]
  omega

/-- The bits that the shared decode of a signed field returns for digits of
magnitude `m`, whose highest set bit is bit `j`, and sign bit `s`. -/
theorem decode_shared_signed_bits (m s j E : Nat) (cft : CustomFloatType) (et : CustomIntType)
    (hexp : cft.exponent_type = some et) (hct : cft.compute_type = .f32)
    (hsg : cft.get_is_signed = true) (hd : cft.digit_bits ≤ 23)
    (hnb : cft.digits_type.num_bits < 32)
    (hD : m + s * 2 ^ cft.digit_bits < 2 ^ cft.digits_type.num_bits)
    (hs : s = 0 ∨ s = 1)
    (hlo : 2 ^ j ≤ m) (hhi : m < 2 ^ (j + 1)) (hj : j < cft.digit_bits) (hE : E ≠ 0) :
    reconstruct_custom_float_with_exponent (m + s * 2 ^ cft.digit_bits) E cft true =
      some ((ofInt 32 ((E : Int) + cft.exponent_conversion_offset + j - cft.digit_bits + 1) *
          2 ^ 23 % 2 ^ 32 ||| m * 2 ^ (23 - j) % 2 ^ 23) ||| s * 2 ^ 31) := by
  have hm0 : m ≠ 0 := by
    have : 0 < 2 ^ j := by positivity
    omega
  have hmd : m < 2 ^ cft.digit_bits :=
    lt_of_lt_of_le hhi (Nat.pow_le_pow_right (by norm_num) (by omega))
  have hD0 : m + s * 2 ^ cft.digit_bits ≠ 0 := by omega
  obtain ⟨hmag, hbit⟩ := decode_signed_magnitude m s cft.digit_bits hmd hs hd
  rw [reconstruct_unfold _ E cft et true hexp hct hnb (by omega)]
  simp only [if_true, hsg, Nat.mod_eq_of_lt hD, decode_offset_nonzero E cft et hE]
  rw [decode_shared_signed_eq _ _ _ cft.digit_bits (2 * m) cft hsg rfl hmag,
    ctlz32_eq (j + 1) (2 * m) (by omega) (by rw [pow_succ]; omega)
      (by rw [pow_succ (n := j + 1)]; omega),
    decode_extra_shift, decode_digits_shift, sign_bit_to_top _ _ (by omega), hbit]
  have hsh : ofInt 32 (23 - (cft.digit_bits : Int) -
      (31 - (cft.digit_bits : Int) - ((31 - (j + 1) : Nat) : Int))) = 22 - j :=
    ofInt_of_nonneg _ (22 - j) (by omega) (by omega)
  have hshl : CreateShl 32 (2 * m) (22 - j) = some (m * 2 ^ (23 - j)) := by
    unfold CreateShl
    rw [if_pos (by omega)]
    congr 1
    have e : 2 * m * 2 ^ (22 - j) = m * 2 ^ (23 - j) := by
      have : 23 - j = (22 - j) + 1 := by omega
      rw [this, pow_succ]
      ring
    rw [e]
    apply Nat.mod_eq_of_lt
    calc m * 2 ^ (23 - j) < 2 ^ (j + 1) * 2 ^ (23 - j) :=
          Nat.mul_lt_mul_of_pos_right hhi (by positivity)
      _ = 2 ^ 24 := by rw [← pow_add]; congr 1; omega
      _ < 2 ^ 32 := by norm_num
  rw [hsh, hshl, decode_assemble_signed _ _ _ E _ cft hsg hD0 hE, decode_exponent_val_signed]
  congr 6
  omega

/-! ## The value of the shared decode -/

/-- The pattern assembled from an exponent field, a fraction and a sign. -/
theorem f32_bits_assemble (ev frac s : Nat) (hev : ev < 256) (hfrac : frac < 2 ^ 23)
    (hs : s = 0 ∨ s = 1) :
    (ev * 2 ^ 23 % 2 ^ 32 ||| frac) ||| s * 2 ^ 31 = ev * 2 ^ 23 + frac + s * 2 ^ 31 := by
  have h1 : ev * 2 ^ 23 % 2 ^ 32 = ev * 2 ^ 23 := Nat.mod_eq_of_lt (by omega)
  have h2 : ev * 2 ^ 23 ||| frac = ev * 2 ^ 23 + frac := by
    rw [Nat.mul_comm, ← Nat.mul_add_lt_is_or hfrac]
  rw [h1, h2, or_sign_eq_add _ _ _ (by omega) hs]

theorem f32_to_rat_assemble (ev frac s : Nat) (hev : ev < 256) (hfrac : frac < 2 ^ 23)
    (hs : s = 0 ∨ s = 1) :
    f32_to_rat (ev * 2 ^ 23 + frac + s * 2 ^ 31) =
      (if s = 1 then -1 else 1) *
        (if ev = 0 then (frac : ℚ) * 2 ^ (-149 : Int)
          else (2 ^ 23 + (frac : ℚ)) * 2 ^ ((ev : Int) - 150)) := by
  have h1 : (ev * 2 ^ 23 + frac + s * 2 ^ 31) % 2 ^ 23 = frac := by omega
  have h2 : bit_field (ev * 2 ^ 23 + frac + s * 2 ^ 31) 23 8 = ev := by
    unfold bit_field
    omega
  have h3 : bit_field (ev * 2 ^ 23 + frac + s * 2 ^ 31) 31 1 = s := by
    unfold bit_field
    omega
  unfold f32_to_rat
  simp only [h1, h2, h3]

/-- The bits of the shared decode, for signed and unsigned fields. -/
theorem decode_shared_bits (m s j E : Nat) (cft : CustomFloatType) (et : CustomIntType)
    (hexp : cft.exponent_type = some et) (hct : cft.compute_type = .f32)
    (hd : cft.digit_bits ≤ 23) (hnb : cft.digits_type.num_bits < 32)
    (hD : m + s * 2 ^ cft.digit_bits < 2 ^ cft.digits_type.num_bits)
    (hs : s = 0 ∨ s = 1) (hsu : cft.get_is_signed = false → s = 0)
    (hlo : 2 ^ j ≤ m) (hhi : m < 2 ^ (j + 1)) (hj : j < cft.digit_bits) (hE : E ≠ 0) :
    reconstruct_custom_float_with_exponent (m + s * 2 ^ cft.digit_bits) E cft true =
      some ((ofInt 32 ((E : Int) + cft.exponent_conversion_offset + j - cft.digit_bits + 1) *
          2 ^ 23 % 2 ^ 32 ||| m * 2 ^ (23 - j) % 2 ^ 23) ||| s * 2 ^ 31) := by
  cases hsg : cft.get_is_signed
  · have hs0 := hsu hsg
    subst hs0
    simp only [zero_mul, add_zero, Nat.or_zero] at hD ⊢
    exact decode_shared_unsigned_bits m j E cft et hexp hct hsg hd hnb hD hlo hhi hj hE
  · exact decode_shared_signed_bits m s j E cft et hexp hct hsg hd hnb hD hs hlo hhi hj hE

/-- The fraction left when digits with highest set bit `j` are moved to the
fraction position. -/
theorem normalised_fraction (m j : Nat) (hlo : 2 ^ j ≤ m) (hhi : m < 2 ^ (j + 1))
    (hj : j ≤ 23) :
    m * 2 ^ (23 - j) % 2 ^ 23 = m * 2 ^ (23 - j) - 2 ^ 23 ∧
    2 ^ 23 ≤ m * 2 ^ (23 - j) ∧ m * 2 ^ (23 - j) < 2 ^ 24 := by
  have e1 : (2 : Nat) ^ j * 2 ^ (23 - j) = 2 ^ 23 := by
    rw [← pow_add]; congr 1; omega
  have e2 : (2 : Nat) ^ (j + 1) * 2 ^ (23 - j) = 2 ^ 24 := by
    rw [← pow_add]; congr 1; omega
  have h1 : 2 ^ 23 ≤ m * 2 ^ (23 - j) := by
    rw [← e1]
    exact Nat.mul_le_mul_right _ hlo
  have h2 : m * 2 ^ (23 - j) < 2 ^ 24 := by
    rw [← e2]
    exact Nat.mul_lt_mul_of_pos_right hhi (by positivity)
  refine ⟨?_, h1, h2⟩
  omega

/-- The value of the shared decode when the exponent field it builds is in
`0..254`: a normal number for a nonzero field, a subnormal for zero. -/
theorem decode_shared_value (m s j E ev : Nat) (cft : CustomFloatType) (et : CustomIntType)
    (hexp : cft.exponent_type = some et) (hct : cft.compute_type = .f32)
    (hd : cft.digit_bits ≤ 23) (hnb : cft.digits_type.num_bits < 32)
    (hD : m + s * 2 ^ cft.digit_bits < 2 ^ cft.digits_type.num_bits)
    (hs : s = 0 ∨ s = 1) (hsu : cft.get_is_signed = false → s = 0)
    (hlo : 2 ^ j ≤ m) (hhi : m < 2 ^ (j + 1)) (hj : j < cft.digit_bits) (hE : E ≠ 0)
    (hev : (ev : Int) = (E : Int) + cft.exponent_conversion_offset + j - cft.digit_bits + 1)
    (hev2 : ev ≤ 254) :
    reconstruct_custom_float_with_exponent (m + s * 2 ^ cft.digit_bits) E cft true =
      some (ev * 2 ^ 23 + (m * 2 ^ (23 - j) - 2 ^ 23) + s * 2 ^ 31) ∧
    f32_to_rat (ev * 2 ^ 23 + (m * 2 ^ (23 - j) - 2 ^ 23) + s * 2 ^ 31) =
      (if s = 1 then -1 else 1) *
        (if ev = 0 then ((m * 2 ^ (23 - j) - 2 ^ 23 : Nat) : ℚ) * 2 ^ (-149 : Int)
          else (m : ℚ) * 2 ^ ((E : Int) + cft.exponent_conversion_offset - 126 -
            cft.digit_bits)) := by
  obtain ⟨hf1, hf2, hf3⟩ := normalised_fraction m j hlo hhi (by omega)
  have hfr : m * 2 ^ (23 - j) - 2 ^ 23 < 2 ^ 23 := by omega
  constructor
  · rw [decode_shared_bits m s j E cft et hexp hct hd hnb hD hs hsu hlo hhi hj hE, ← hev,
      ofInt_natCast, Nat.mod_eq_of_lt (show ev < 2 ^ 32 by omega), hf1,
      f32_bits_assemble ev _ s (by omega) hfr hs]
  · rw [f32_to_rat_assemble ev _ s (by omega) hfr hs]
    congr 1
    by_cases h0 : ev = 0
    · rw [if_pos h0, if_pos h0]
    · rw [if_neg h0, if_neg h0]
      have hq : (2 : ℚ) ^ 23 + ((m * 2 ^ (23 - j) - 2 ^ 23 : Nat) : ℚ) =
          (m : ℚ) * 2 ^ ((23 : Int) - j) := by
        rw [Nat.cast_sub hf2]
        push_cast
        have : ((2 : ℚ) ^ (23 - j) : ℚ) = 2 ^ ((23 : Int) - j) := by
          rw [← zpow_natCast]
          congr 1
          omega
        rw [this]
        ring
      rw [hq, mul_assoc, ← zpow_add₀ (by norm_num : (2 : ℚ) ≠ 0)]
      congr 2
      omega

/-- Claim C28.  For a shared-exponent custom float (compute type `f32`) with
`d <= 23` digit bits and conversion offset `c`, a stored exponent `E >= 1` and
stored digits of magnitude `m`, `1 <= m < 2^d`, with sign bit `s` at bit `d`
(`s = 0` for an unsigned field), the digits fitting the digits type: if
`E + c + j - d + 1` lies in `1..254`, where bit `j` is the highest set bit of
`m`, the shared decode returns an `f32` pattern whose exact value is
`(-1)^s * m * 2^(E + c - 126 - d)`. -/
theorem shared_decode_reference_value (m s j E : Nat) (cft : CustomFloatType)
    (et : CustomIntType) (hexp : cft.exponent_type = some et)
    (hct : cft.compute_type = .f32) (hd : cft.digit_bits ≤ 23)
    (hnb : cft.digits_type.num_bits < 32)
    (hD : m + s * 2 ^ cft.digit_bits < 2 ^ cft.digits_type.num_bits)
    (hs : s = 0 ∨ s = 1) (hsu : cft.get_is_signed = false → s = 0)
    (hm : m < 2 ^ cft.digit_bits) (hlo : 2 ^ j ≤ m) (hhi : m < 2 ^ (j + 1)) (hE : 1 ≤ E)
    (hev1 : 1 ≤ (E : Int) + cft.exponent_conversion_offset + j - cft.digit_bits + 1)
    (hev2 : (E : Int) + cft.exponent_conversion_offset + j - cft.digit_bits + 1 ≤ 254) :
    ∃ b, reconstruct_custom_float_with_exponent (m + s * 2 ^ cft.digit_bits) E cft true =
        some b ∧
      f32_to_rat b = (-1) ^ s * (m : ℚ) *
        2 ^ ((E : Int) + cft.exponent_conversion_offset - 126 - cft.digit_bits) := by
  have hj : j < cft.digit_bits := by
    by_contra hcon
    have : 2 ^ cft.digit_bits ≤ 2 ^ j := Nat.pow_le_pow_right (by norm_num) (by omega)
    omega
  obtain ⟨ev, hev⟩ : ∃ ev : Nat, (ev : Int) =
      (E : Int) + cft.exponent_conversion_offset + j - cft.digit_bits + 1 :=
    ⟨((E : Int) + cft.exponent_conversion_offset + j - cft.digit_bits + 1).toNat,
      Int.toNat_of_nonneg (by omega)⟩
  obtain ⟨h1, h2⟩ := decode_shared_value m s j E ev cft et hexp hct hd hnb hD hs hsu hlo hhi
    hj (by omega) hev (by omega)
  refine ⟨_, h1, ?_⟩
  have hev0 : ev ≠ 0 := by omega
  rw [h2, if_neg hev0, mul_assoc]
  congr 1
  rcases hs with rfl | rfl <;> norm_num

/-- Claim C28 at a signed field of 4 digit bits with conversion offset 112,
stored exponent 16 and stored digits `-8`. -/
theorem shared_decode_reference_value_witness :
    ∃ b, reconstruct_custom_float_with_exponent
        (8 + 1 * 2 ^ (example_shared_cft true 5 112).digit_bits) 16
        (example_shared_cft true 5 112) true = some b ∧
      f32_to_rat b = (-1) ^ 1 * ((8 : Nat) : ℚ) *
        2 ^ (((16 : Nat) : Int) + (example_shared_cft true 5 112).exponent_conversion_offset -
          126 - (example_shared_cft true 5 112).digit_bits) :=
  shared_decode_reference_value 8 1 3 16 (example_shared_cft true 5 112)
    ⟨5, false, .i32, .i32⟩ rfl rfl (by decide) (by decide) (by decide) (Or.inr rfl)
    (fun h => absurd h (by decide)) (by decide) (by decide) (by decide) (by decide)
    (by decide) (by decide)

/-! ## The round trip of a float with its own exponent -/

end Taichi
